import Mathlib

/-!
Rollercoaster: spline evaluation, rail mesh and track-following camera.

A shallow embedding of `Track` (src/Headers/track.hpp), of
`Camera::ProcessTrackMovement` (src/Headers/camera.hpp) and of the toggle of
`processInput` (src/Sources/Project2.cpp).  C++ `float` is read as exact
arithmetic in a linearly ordered field `α` with a floor function (the
executable instance is `ℚ`); the square root behind `glm::length`,
`glm::normalize`, `glm::distance` and `sqrt` is a parameter of the functions
that use it.  An access `controlPoints[i]` outside the vector is undefined
behaviour in the source; here it makes the enclosing function return `none`
(or `outOfRange`).  Where the source can produce a float that is no finite
number (the square root of a negative number, a division by zero), the value is
`none` and every comparison on it is false.  The `while` loop of
`ProcessTrackMovement`, which need not terminate, runs on fuel.
-/

namespace Rollercoaster

/-- A `glm::vec3`. -/
@[ext]
structure Vec3 (α : Type) where
  x : α
  y : α
  z : α
deriving DecidableEq

/-- A `glm::vec4`. -/
structure Vec4 (α : Type) where
  x : α
  y : α
  z : α
  w : α
deriving DecidableEq

/-- A `glm::vec2`. -/
structure Vec2 (α : Type) where
  x : α
  y : α
deriving DecidableEq

/-- A `glm::mat4`, stored by columns as GLM does. -/
structure Mat4 (α : Type) where
  c0 : Vec4 α
  c1 : Vec4 α
  c2 : Vec4 α
  c3 : Vec4 α

/-- A `glm::mat4x3`: four columns of three rows. -/
structure Mat4x3 (α : Type) where
  c0 : Vec3 α
  c1 : Vec3 α
  c2 : Vec3 α
  c3 : Vec3 α

section VectorOps

variable {α : Type} [Field α]

/-- Component-wise `a + b`. -/
def Vec3.add (a b : Vec3 α) : Vec3 α := ⟨a.x + b.x, a.y + b.y, a.z + b.z⟩

/-- Component-wise `a - b`. -/
def Vec3.sub (a b : Vec3 α) : Vec3 α := ⟨a.x - b.x, a.y - b.y, a.z - b.z⟩

/-- Unary minus of a vector. -/
def Vec3.neg (a : Vec3 α) : Vec3 α := ⟨-a.x, -a.y, -a.z⟩

/-- GLM `vec3 * vec3`: the component-wise product. -/
def Vec3.mul (a b : Vec3 α) : Vec3 α := ⟨a.x * b.x, a.y * b.y, a.z * b.z⟩

/-- GLM `vec3 * float`. -/
def Vec3.scale (a : Vec3 α) (c : α) : Vec3 α := ⟨a.x * c, a.y * c, a.z * c⟩

/-- GLM `vec3 / float`. -/
def Vec3.divScalar (a : Vec3 α) (c : α) : Vec3 α := ⟨a.x / c, a.y / c, a.z / c⟩

/-- The function `glm::cross`. -/
def cross (a b : Vec3 α) : Vec3 α :=
  ⟨a.y * b.z - b.y * a.z, a.z * b.x - b.z * a.x, a.x * b.y - b.x * a.y⟩

/-- The function `glm::dot` on `vec3`. -/
def dot (a b : Vec3 α) : α := a.x * b.x + a.y * b.y + a.z * b.z

instance : Add (Vec3 α) := ⟨Vec3.add⟩
instance : Sub (Vec3 α) := ⟨Vec3.sub⟩
instance : Neg (Vec3 α) := ⟨Vec3.neg⟩
instance : Mul (Vec3 α) := ⟨Vec3.mul⟩

/-- GLM `mat4 * vec4`: the linear combination of the columns. -/
def Mat4.mulVec (m : Mat4 α) (v : Vec4 α) : Vec4 α :=
  ⟨m.c0.x * v.x + m.c1.x * v.y + m.c2.x * v.z + m.c3.x * v.w,
   m.c0.y * v.x + m.c1.y * v.y + m.c2.y * v.z + m.c3.y * v.w,
   m.c0.z * v.x + m.c1.z * v.y + m.c2.z * v.z + m.c3.z * v.w,
   m.c0.w * v.x + m.c1.w * v.y + m.c2.w * v.z + m.c3.w * v.w⟩

/-- GLM `mat4x3 * vec4`: the linear combination of the four columns. -/
def Mat4x3.mulVec (m : Mat4x3 α) (v : Vec4 α) : Vec3 α :=
  ⟨m.c0.x * v.x + m.c1.x * v.y + m.c2.x * v.z + m.c3.x * v.w,
   m.c0.y * v.x + m.c1.y * v.y + m.c2.y * v.z + m.c3.y * v.w,
   m.c0.z * v.x + m.c1.z * v.y + m.c2.z * v.z + m.c3.z * v.w⟩

/-- GLM `mat4x3 * mat4`: column `j` of the product is `p * (column j of m)`. -/
def Mat4x3.mulMat (p : Mat4x3 α) (m : Mat4 α) : Mat4x3 α :=
  ⟨p.mulVec m.c0, p.mulVec m.c1, p.mulVec m.c2, p.mulVec m.c3⟩

/-- `Track::interpolate`: `pMat * mMat * uVec`, evaluated left to right.  Each
group of constructor arguments of `glm::mat4` / `glm::mat4x3` is one column. -/
def interpolate (pointA pointB pointC pointD : Vec3 α) (tau u : α) : Vec3 α :=
  let uVec : Vec4 α := ⟨1, u, u ^ 2, u ^ 3⟩
  let mMat : Mat4 α :=
    ⟨⟨0, 1, 0, 0⟩,
     ⟨-tau, 0, tau, 0⟩,
     ⟨2 * tau, tau - 3, 3 - 2 * tau, -tau⟩,
     ⟨-tau, 2 - tau, tau - 2, tau⟩⟩
  let pMat : Mat4x3 α :=
    ⟨⟨pointA.x, pointA.y, pointA.z⟩,
     ⟨pointB.x, pointB.y, pointB.z⟩,
     ⟨pointC.x, pointC.y, pointC.z⟩,
     ⟨pointD.x, pointD.y, pointD.z⟩⟩
  (pMat.mulMat mMat).mulVec uVec

end VectorOps

section GetPoint

variable {α : Type}

/-- The access `controlPoints[i]` with an `int` index: defined only inside the
vector. -/
def controlPointAt (controlPoints : List (Vec3 α)) (i : Int) : Option (Vec3 α) :=
  if 0 ≤ i then controlPoints[i.toNat]? else none

/-- The index resolution of `Track::get_point` for `floor(s) = k` on a track of
`n` control points: the naive indices followed by the four checks in source
order (A, then D, then C, then B). -/
def resolveIndices (n : Nat) (k : Int) : Int × Int × Int × Int :=
  let pA : Int := k - 2
  let pB : Int := k - 1
  let pC : Int := k
  let pD : Int := k + 1
  let pA := if pA = -1 then (n : Int) - 1 else pA
  let pD := if pD = (n : Int) then 0 else pD
  let (pC, pD) := if pC = (n : Int) then ((0 : Int), (1 : Int)) else (pC, pD)
  let (pB, pC, pD) :=
    if pB = (n : Int) then ((0 : Int), (1 : Int), (2 : Int)) else (pB, pC, pD)
  (pA, pB, pC, pD)

variable [LinearOrderedField α] [FloorRing α]

/-- The body of `Track::get_point` once `floor(s) = k` and the blend `u` are
known: resolve the window, read the four control points, interpolate with
`tau = 0.5`. -/
def get_point_window (controlPoints : List (Vec3 α)) (k : Int) (u : α) :
    Option (Vec3 α) :=
  match resolveIndices controlPoints.length k with
  | (pA, pB, pC, pD) =>
    match controlPointAt controlPoints pA, controlPointAt controlPoints pB,
          controlPointAt controlPoints pC, controlPointAt controlPoints pD with
    | some a, some b, some c, some d => some (interpolate a b c d (1 / 2) u)
    | _, _, _, _ => none

/-- `Track::get_point`. -/
def get_point (controlPoints : List (Vec3 α)) (s : α) : Option (Vec3 α) :=
  get_point_window controlPoints ⌊s⌋ (s - (⌊s⌋ : α))

/-- The closed square of the spec's scenario. -/
def squareTrack : List (Vec3 ℚ) := [⟨0, 0, 0⟩, ⟨1, 0, 0⟩, ⟨1, 1, 0⟩, ⟨0, 1, 0⟩]

end GetPoint

/-! ## The rail mesh -/

section Mesh

variable {α : Type}

/-- The `Vertex` of heightmap.hpp. -/
structure Vertex (α : Type) where
  Position : Vec3 α
  Normal : Vec3 α
  TexCoords : Vec2 α

/-- The `Orientation` of track.hpp: a local coordinate system. -/
structure Orientation (α : Type) where
  Front : Vec3 α
  Up : Vec3 α
  Right : Vec3 α
  origin : Vec3 α

/-- The three vertex vectors of `Track`. -/
structure TrackMesh (α : Type) where
  rightRailVertices : List (Vertex α)
  leftRailVertices : List (Vertex α)
  tieVertices : List (Vertex α)

/-- The state of a `Track` after `create_track`. -/
structure Track (α : Type) where
  controlPoints : List (Vec3 α)
  mesh : TrackMesh α
  orientations : List (Orientation α)

variable [Field α]

/-- A declared `Vertex` before any field is assigned; its `Normal`, which
`set_normals` adds to, is taken to start at zero. -/
def Vertex.fresh : Vertex α := ⟨⟨0, 0, 0⟩, ⟨0, 0, 0⟩, ⟨0, 0⟩⟩

/-- `Track::set_normals`: the (optionally negated) cross product of two edges,
added to the normal of each of the three vertices. -/
def set_normals (p1 p2 p3 : Vertex α) (flipNormal : Bool) :
    Vertex α × Vertex α × Vertex α :=
  let normal := cross (p2.Position - p1.Position) (p3.Position - p1.Position)
  let normal := if flipNormal = true then -normal else normal
  ({ p1 with Normal := p1.Normal + normal },
   { p2 with Normal := p2.Normal + normal },
   { p3 with Normal := p3.Normal + normal })

/-- `Track::make_triangle`. -/
def make_triangle (posA posB posC : Vec3 α) (textureA textureB textureC : Vec2 α)
    (flipNormal : Bool) (object : String) (_placeTie : Bool) (m : TrackMesh α) :
    TrackMesh α :=
  let vA : Vertex α := { (Vertex.fresh : Vertex α) with Position := posA }
  let vB : Vertex α := { (Vertex.fresh : Vertex α) with Position := posB }
  let vC : Vertex α := { (Vertex.fresh : Vertex α) with Position := posC }
  match set_normals vA vB vC flipNormal with
  | (vA, vB, vC) =>
    let vA := { vA with TexCoords := textureA }
    let vB := { vB with TexCoords := textureB }
    let vC := { vC with TexCoords := textureC }
    let m := if object = "right rail"
      then { m with rightRailVertices := m.rightRailVertices ++ [vA, vB, vC] } else m
    let m := if object = "left rail"
      then { m with leftRailVertices := m.leftRailVertices ++ [vA, vB, vC] } else m
    let m := if object = "tie"
      then { m with tieVertices := m.tieVertices ++ [vA, vB, vC] } else m
    m

/-- One pass of the `railNum` loop of `Track::makeRailPart`: the eight
triangles of one rail. -/
def makeRailPart_rail (ori_prev ori_cur : Orientation α) (railOffset leftRightOffset : Vec3 α)
    (railType : String) (placeTie : Bool) (m : TrackMesh α) : TrackMesh α :=
  -- rail top, triangle 1
  let m := make_triangle
    (ori_prev.origin + ori_prev.Up * railOffset - ori_prev.Right * railOffset + ori_prev.Right * leftRightOffset)
    (ori_prev.origin + ori_prev.Up * railOffset + ori_prev.Right * railOffset + ori_prev.Right * leftRightOffset)
    (ori_cur.origin + ori_cur.Up * railOffset - ori_cur.Right * railOffset + ori_cur.Right * leftRightOffset)
    ⟨0, 0⟩ ⟨1, 0⟩ ⟨0, 1⟩ false railType placeTie m
  -- rail top, triangle 2
  let m := make_triangle
    (ori_prev.origin + ori_prev.Up * railOffset + ori_prev.Right * railOffset + ori_prev.Right * leftRightOffset)
    (ori_cur.origin + ori_cur.Up * railOffset + ori_cur.Right * railOffset + ori_cur.Right * leftRightOffset)
    (ori_cur.origin + ori_cur.Up * railOffset - ori_cur.Right * railOffset + ori_cur.Right * leftRightOffset)
    ⟨1, 0⟩ ⟨1, 1⟩ ⟨0, 1⟩ false railType placeTie m
  -- rail bottom, triangle 1
  let m := make_triangle
    (ori_prev.origin - ori_prev.Up * railOffset - ori_prev.Right * railOffset + ori_prev.Right * leftRightOffset)
    (ori_prev.origin - ori_prev.Up * railOffset + ori_prev.Right * railOffset + ori_prev.Right * leftRightOffset)
    (ori_cur.origin - ori_cur.Up * railOffset - ori_cur.Right * railOffset + ori_cur.Right * leftRightOffset)
    ⟨0, 0⟩ ⟨1, 0⟩ ⟨0, 1⟩ true railType placeTie m
  -- rail bottom, triangle 2
  let m := make_triangle
    (ori_prev.origin - ori_prev.Up * railOffset + ori_prev.Right * railOffset + ori_prev.Right * leftRightOffset)
    (ori_cur.origin - ori_cur.Up * railOffset + ori_cur.Right * railOffset + ori_cur.Right * leftRightOffset)
    (ori_cur.origin - ori_cur.Up * railOffset - ori_cur.Right * railOffset + ori_cur.Right * leftRightOffset)
    ⟨1, 0⟩ ⟨1, 1⟩ ⟨0, 1⟩ true railType placeTie m
  -- rail left, triangle 1
  let m := make_triangle
    (ori_prev.origin + ori_prev.Up * railOffset - ori_prev.Right * railOffset + ori_prev.Right * leftRightOffset)
    (ori_prev.origin - ori_prev.Up * railOffset - ori_prev.Right * railOffset + ori_prev.Right * leftRightOffset)
    (ori_cur.origin + ori_cur.Up * railOffset - ori_cur.Right * railOffset + ori_cur.Right * leftRightOffset)
    ⟨0, 0⟩ ⟨1, 0⟩ ⟨0, 1⟩ true railType placeTie m
  -- rail left, triangle 2
  let m := make_triangle
    (ori_prev.origin - ori_prev.Up * railOffset - ori_prev.Right * railOffset + ori_prev.Right * leftRightOffset)
    (ori_cur.origin - ori_cur.Up * railOffset - ori_cur.Right * railOffset + ori_cur.Right * leftRightOffset)
    (ori_cur.origin + ori_cur.Up * railOffset - ori_cur.Right * railOffset + ori_cur.Right * leftRightOffset)
    ⟨1, 0⟩ ⟨1, 1⟩ ⟨0, 1⟩ true railType placeTie m
  -- rail right, triangle 1
  let m := make_triangle
    (ori_prev.origin + ori_prev.Up * railOffset + ori_prev.Right * railOffset + ori_prev.Right * leftRightOffset)
    (ori_prev.origin - ori_prev.Up * railOffset + ori_prev.Right * railOffset + ori_prev.Right * leftRightOffset)
    (ori_cur.origin + ori_cur.Up * railOffset + ori_cur.Right * railOffset + ori_cur.Right * leftRightOffset)
    ⟨0, 0⟩ ⟨1, 0⟩ ⟨0, 1⟩ false railType placeTie m
  -- rail right, triangle 2
  let m := make_triangle
    (ori_prev.origin - ori_prev.Up * railOffset + ori_prev.Right * railOffset + ori_prev.Right * leftRightOffset)
    (ori_cur.origin - ori_cur.Up * railOffset + ori_cur.Right * railOffset + ori_cur.Right * leftRightOffset)
    (ori_cur.origin + ori_cur.Up * railOffset + ori_cur.Right * railOffset + ori_cur.Right * leftRightOffset)
    ⟨1, 0⟩ ⟨1, 1⟩ ⟨0, 1⟩ false railType placeTie m
  m

/-- The `placeTie == true` block of `Track::makeRailPart`: the twelve triangles
of one tie. -/
def makeRailPart_tie (ori_cur : Orientation α) (railOffset tieOffset : Vec3 α)
    (placeTie : Bool) (m : TrackMesh α) : TrackMesh α :=
  -- tie top, triangle 1
  let m := make_triangle
    (ori_cur.origin - ori_cur.Up * railOffset - ori_cur.Right * tieOffset)
    (ori_cur.origin - ori_cur.Up * railOffset - ori_cur.Right * tieOffset + ori_cur.Front * railOffset)
    (ori_cur.origin - ori_cur.Up * railOffset + ori_cur.Right * tieOffset)
    ⟨0, 0⟩ ⟨0, 1⟩ ⟨1, 0⟩ true "tie" placeTie m
  -- tie top, triangle 2
  let m := make_triangle
    (ori_cur.origin - ori_cur.Up * railOffset - ori_cur.Right * tieOffset + ori_cur.Front * railOffset)
    (ori_cur.origin - ori_cur.Up * railOffset + ori_cur.Right * tieOffset + ori_cur.Front * railOffset)
    (ori_cur.origin - ori_cur.Up * railOffset + ori_cur.Right * tieOffset)
    ⟨0, 1⟩ ⟨1, 1⟩ ⟨1, 0⟩ true "tie" placeTie m
  -- tie bottom, triangle 1
  let m := make_triangle
    (ori_cur.origin - ori_cur.Up.scale (5 / 100) - ori_cur.Right * tieOffset)
    (ori_cur.origin - ori_cur.Up.scale (5 / 100) - ori_cur.Right * tieOffset + ori_cur.Front * railOffset)
    (ori_cur.origin - ori_cur.Up.scale (5 / 100) + ori_cur.Right * tieOffset)
    ⟨0, 0⟩ ⟨0, 1⟩ ⟨1, 0⟩ false "tie" placeTie m
  -- tie bottom, triangle 2
  let m := make_triangle
    (ori_cur.origin - ori_cur.Up.scale (5 / 100) - ori_cur.Right * tieOffset + ori_cur.Front * railOffset)
    (ori_cur.origin - ori_cur.Up.scale (5 / 100) + ori_cur.Right * tieOffset + ori_cur.Front * railOffset)
    (ori_cur.origin - ori_cur.Up.scale (5 / 100) + ori_cur.Right * tieOffset)
    ⟨0, 1⟩ ⟨1, 1⟩ ⟨1, 0⟩ false "tie" placeTie m
  -- tie right, triangle 1
  let m := make_triangle
    (ori_cur.origin - ori_cur.Up * railOffset + ori_cur.Right * tieOffset)
    (ori_cur.origin - ori_cur.Up.scale (5 / 100) + ori_cur.Right * tieOffset)
    (ori_cur.origin - ori_cur.Up.scale (5 / 100) + ori_cur.Right * tieOffset + ori_cur.Front * railOffset)
    ⟨0, 1⟩ ⟨0, 0⟩ ⟨1, 0⟩ false "tie" placeTie m
  -- tie right, triangle 2
  let m := make_triangle
    (ori_cur.origin - ori_cur.Up * railOffset + ori_cur.Right * tieOffset)
    (ori_cur.origin - ori_cur.Up * railOffset + ori_cur.Right * tieOffset + ori_cur.Front * railOffset)
    (ori_cur.origin - ori_cur.Up.scale (5 / 100) + ori_cur.Right * tieOffset + ori_cur.Front * railOffset)
    ⟨0, 1⟩ ⟨1, 1⟩ ⟨1, 0⟩ true "tie" placeTie m
  -- tie left, triangle 1
  let m := make_triangle
    (ori_cur.origin - ori_cur.Up * railOffset - ori_cur.Right * tieOffset)
    (ori_cur.origin - ori_cur.Up.scale (5 / 100) - ori_cur.Right * tieOffset)
    (ori_cur.origin - ori_cur.Up.scale (5 / 100) - ori_cur.Right * tieOffset + ori_cur.Front * railOffset)
    ⟨0, 1⟩ ⟨0, 0⟩ ⟨1, 0⟩ true "tie" placeTie m
  -- tie left, triangle 2
  let m := make_triangle
    (ori_cur.origin - ori_cur.Up * railOffset - ori_cur.Right * tieOffset)
    (ori_cur.origin - ori_cur.Up * railOffset - ori_cur.Right * tieOffset + ori_cur.Front * railOffset)
    (ori_cur.origin - ori_cur.Up.scale (5 / 100) - ori_cur.Right * tieOffset + ori_cur.Front * railOffset)
    ⟨0, 1⟩ ⟨1, 1⟩ ⟨1, 0⟩ false "tie" placeTie m
  -- tie front, triangle 1
  let m := make_triangle
    (ori_cur.origin - ori_cur.Up * railOffset - ori_cur.Right * tieOffset + ori_cur.Front * railOffset)
    (ori_cur.origin - ori_cur.Up * railOffset + ori_cur.Right * tieOffset + ori_cur.Front * railOffset)
    (ori_cur.origin - ori_cur.Up.scale (5 / 100) + ori_cur.Right * tieOffset + ori_cur.Front * railOffset)
    ⟨0, 1⟩ ⟨1, 1⟩ ⟨1, 0⟩ false "tie" placeTie m
  -- tie front, triangle 2
  let m := make_triangle
    (ori_cur.origin - ori_cur.Up.scale (5 / 100) - ori_cur.Right * tieOffset + ori_cur.Front * railOffset)
    (ori_cur.origin - ori_cur.Up * railOffset - ori_cur.Right * tieOffset + ori_cur.Front * railOffset)
    (ori_cur.origin - ori_cur.Up.scale (5 / 100) + ori_cur.Right * tieOffset + ori_cur.Front * railOffset)
    ⟨0, 0⟩ ⟨0, 1⟩ ⟨1, 0⟩ false "tie" placeTie m
  -- tie back, triangle 1
  let m := make_triangle
    (ori_cur.origin - ori_cur.Up * railOffset - ori_cur.Right * tieOffset)
    (ori_cur.origin - ori_cur.Up * railOffset + ori_cur.Right * tieOffset)
    (ori_cur.origin - ori_cur.Up.scale (5 / 100) + ori_cur.Right * tieOffset)
    ⟨0, 1⟩ ⟨1, 1⟩ ⟨1, 0⟩ true "tie" placeTie m
  -- tie back, triangle 2
  let m := make_triangle
    (ori_cur.origin - ori_cur.Up.scale (5 / 100) - ori_cur.Right * tieOffset)
    (ori_cur.origin - ori_cur.Up * railOffset - ori_cur.Right * tieOffset)
    (ori_cur.origin - ori_cur.Up.scale (5 / 100) + ori_cur.Right * tieOffset)
    ⟨0, 0⟩ ⟨0, 1⟩ ⟨1, 0⟩ true "tie" placeTie m
  m

/-- `Track::makeRailPart`: the `railNum` loop run for `railNum = 1, 2`, then the
tie block. -/
def makeRailPart (ori_prev ori_cur : Orientation α) (railOffset tieOffset : Vec3 α)
    (placeTie : Bool) (m : TrackMesh α) : TrackMesh α :=
  let railType : String := "right rail"
  let leftRightOffset : Vec3 α := ⟨1 / 10, 1 / 10, 1 / 10⟩
  -- railNum = 1
  let leftRightOffset : Vec3 α :=
    if railType = "left rail" then ⟨-(1 / 10), -(1 / 10), -(1 / 10)⟩ else leftRightOffset
  let m := makeRailPart_rail ori_prev ori_cur railOffset leftRightOffset railType placeTie m
  let railType : String := "left rail"
  -- railNum = 2
  let leftRightOffset : Vec3 α :=
    if railType = "left rail" then ⟨-(1 / 10), -(1 / 10), -(1 / 10)⟩ else leftRightOffset
  let m := makeRailPart_rail ori_prev ori_cur railOffset leftRightOffset railType placeTie m
  if placeTie = true then makeRailPart_tie ori_cur railOffset tieOffset placeTie m else m

end Mesh

/-! ## Frame propagation and the build loop -/

section CreateTrack

variable {α : Type} [LinearOrderedField α] [FloorRing α]

/-- The function `glm::length`, over a given square-root function. -/
def length (sqrt : α → α) (v : Vec3 α) : α := sqrt (dot v v)

/-- The function `glm::normalize`: `v * inversesqrt(dot(v, v))`, over a given
square-root function. -/
def normalize (sqrt : α → α) (v : Vec3 α) : Vec3 α := v.scale (1 / sqrt (dot v v))

/-- The first loop of `Track::create_track`: every raw point is added to
`currentpos` and the running position is pushed to `controlPoints`. -/
def accumulatePoints : Vec3 α → List (Vec3 α) → List (Vec3 α) → List (Vec3 α)
  | _, [], controlPoints => controlPoints
  | currentpos, pt :: rest, controlPoints =>
    let currentpos := currentpos + pt
    accumulatePoints currentpos rest (controlPoints ++ [currentpos])

/-- The variables the second loop of `Track::create_track` carries from one
iteration to the next, apart from `s`. -/
structure BuildState (α : Type) where
  ori_prev : Orientation α
  placeTie : Bool
  counter : Nat
  mesh : TrackMesh α
  orientations : List (Orientation α)

/-- The measure of the build loop: the number of steps of `0.1` left below
`controlPoints.size() + 2`. -/
def stepsLeft (n : Nat) (s : α) : Nat := (⌈((n : α) + 2 - s) * 10⌉).toNat

/-- The body of the loop of `Track::create_track`, once `get_point(s)` has
returned `origin`: the new frame, the rail part, the tie flag, the stored
frame and the counter.  The arithmetic is that of the field, so a division by
zero gives zero here; `propagateFloat` is the frame whose axes may be no finite
numbers. -/
def create_track_body (sqrt : α → α) (origin : Vec3 α) (st : BuildState α) : BuildState α :=
  let railOffset : Vec3 α := ⟨2 / 100, 2 / 100, 2 / 100⟩
  let tieOffset : Vec3 α := ⟨15 / 100, 15 / 100, 15 / 100⟩
  let front := normalize sqrt
    ((origin - st.ori_prev.origin).divScalar (length sqrt (origin - st.ori_prev.origin)))
  let right := normalize sqrt (cross front st.ori_prev.Up)
  let up := normalize sqrt (cross right front)
  let ori_cur : Orientation α := ⟨front, up, right, origin⟩
  let mesh := makeRailPart st.ori_prev ori_cur railOffset tieOffset st.placeTie st.mesh
  let placeTie := if st.counter % 2 = 0 then true else false
  ⟨ori_cur, placeTie, st.counter + 1, mesh, st.orientations ++ [ori_cur]⟩

/-- The loop `for (float s = 2; s < controlPoints.size() + 2; s += 0.1)` of
`Track::create_track`, entered at `s` with the carried state `st`, with the
counter advanced by exactly `1/10`; the counter as the `float` it is in the
source is `floatStep`, used in `create_frames_loop`. -/
def create_track_loop (sqrt : α → α) (controlPoints : List (Vec3 α)) (s : α)
    (st : BuildState α) : Option (BuildState α) :=
  if s < (controlPoints.length : α) + 2 then
    match get_point controlPoints s with
    | none => none
    | some origin =>
      create_track_loop sqrt controlPoints (s + 1 / 10) (create_track_body sqrt origin st)
  else some st
termination_by stepsLeft controlPoints.length s
decreasing_by
  unfold stepsLeft
  have e : ((controlPoints.length : α) + 2 - (s + 1 / 10)) * 10
      = ((controlPoints.length : α) + 2 - s) * 10 - 1 := by ring
  have hpos : 0 < ((controlPoints.length : α) + 2 - s) * 10 := by linarith
  have hc : 0 < ⌈((controlPoints.length : α) + 2 - s) * 10⌉ := Int.ceil_pos.mpr hpos
  rw [e, Int.ceil_sub_one]
  omega

/-- `Track::create_track` on the raw points of the loaded spline. -/
def create_track (sqrt : α → α) (points : List (Vec3 α)) : Option (Track α) :=
  let controlPoints := accumulatePoints (⟨0, 0, 0⟩ : Vec3 α) points []
  match get_point controlPoints (19 / 10) with
  | none => none
  | some origin =>
    let ori_prev : Orientation α := ⟨⟨1, 0, 0⟩, ⟨0, 1, 0⟩, ⟨0, 0, 1⟩, origin⟩
    match create_track_loop sqrt controlPoints 2 ⟨ori_prev, false, 0, ⟨[], [], []⟩, []⟩ with
    | none => none
    | some st => some ⟨controlPoints, st.mesh, st.orientations⟩

/-- An executable square root on `ℚ`: exact on squares of rationals, the
quotient of the integer square roots otherwise. -/
def sqrtQ (q : ℚ) : ℚ := (Nat.sqrt q.num.toNat : ℚ) / (Nat.sqrt q.den : ℚ)

/-- Raw offsets whose running sums are the closed square. -/
def squareOffsets : List (Vec3 ℚ) := [⟨0, 0, 0⟩, ⟨1, 0, 0⟩, ⟨0, 1, 0⟩, ⟨-1, 0, 0⟩]

/-- Raw offsets of a closed loop of eight control points: a square of side 2
with the midpoints of its sides. -/
def loopOffsets : List (Vec3 ℚ) :=
  [⟨0, 0, 0⟩, ⟨1, 0, 0⟩, ⟨1, 0, 0⟩, ⟨0, 1, 0⟩, ⟨0, 1, 0⟩, ⟨-1, 0, 0⟩, ⟨-1, 0, 0⟩, ⟨0, -1, 0⟩]

end CreateTrack

/-! ## Outward directions of the faces -/

section FaceDirections

variable {α : Type} [LinearOrderedField α]

/-- The vector `v` is a strictly positive multiple of `dir`. -/
def IsPositiveMultipleOf (v dir : Vec3 α) : Prop := ∃ c : α, 0 < c ∧ v = dir.scale c

/-- The normal `set_normals` computes for a triangle: the cross product of its
two edges from the first vertex, negated when `flipNormal` is set. -/
def faceNormal (posA posB posC : Vec3 α) (flipNormal : Bool) : Vec3 α :=
  if flipNormal = true then -(cross (posB - posA) (posC - posA))
  else cross (posB - posA) (posC - posA)

/-- The outward direction of each of the 24 vertices `makeRailPart` emits for
one rail, in emission order: top, bottom, the face on the `-Right` side
('left'), the face on the `+Right` side ('right'); two triangles each. -/
def railOutward (Up Right : Vec3 α) : List (Vec3 α) :=
  List.replicate 6 Up ++ List.replicate 6 (-Up) ++ List.replicate 6 (-Right)
    ++ List.replicate 6 Right

/-- The outward direction of each of the 36 vertices `makeRailPart` emits for
a tie, in emission order: top, bottom, right, left, front, back; two triangles
each. -/
def tieOutward (Front Up Right : Vec3 α) : List (Vec3 α) :=
  List.replicate 6 Up ++ List.replicate 6 (-Up) ++ List.replicate 6 Right
    ++ List.replicate 6 (-Right) ++ List.replicate 6 Front ++ List.replicate 6 (-Front)

/-- The normals of the 24 vertices one pass of the `railNum` loop emits, in
emission order. -/
def railFaceNormals (ori_prev ori_cur : Orientation α) (railOffset leftRightOffset : Vec3 α) :
    List (Vec3 α) :=
  (makeRailPart_rail ori_prev ori_cur railOffset leftRightOffset "right rail" false
    ⟨[], [], []⟩).rightRailVertices.map Vertex.Normal

/-- The normals of the 36 vertices the tie block emits, in emission order. -/
def tieFaceNormals (ori_cur : Orientation α) (railOffset tieOffset : Vec3 α) : List (Vec3 α) :=
  (makeRailPart_tie ori_cur railOffset tieOffset true ⟨[], [], []⟩).tieVertices.map
    Vertex.Normal

end FaceDirections

/-! ## Frames along the curve -/

section Frames

variable {α : Type} [LinearOrderedField α]

/-- The seed frame `ori_prev` of `Track::create_track` before the loop: fixed
axes at the origin `get_point(1.9)`. -/
def seedFrame (origin : Vec3 α) : Orientation α := ⟨⟨1, 0, 0⟩, ⟨0, 1, 0⟩, ⟨0, 0, 1⟩, origin⟩

/-- The frame `ori_cur` the loop of `Track::create_track` computes from
`ori_prev` and the sampled `origin` (the frame part of `create_track_body`),
where no divisor is zero; `propagateFloat` covers the steps that divide by
zero. -/
def propagateFrame (sqrt : α → α) (ori_prev : Orientation α) (origin : Vec3 α) :
    Orientation α :=
  let front := normalize sqrt
    ((origin - ori_prev.origin).divScalar (length sqrt (origin - ori_prev.origin)))
  let right := normalize sqrt (cross front ori_prev.Up)
  let up := normalize sqrt (cross right front)
  ⟨front, up, right, origin⟩

/-- Every frame of the list is the one `create_track` propagates from its
predecessor (the first from `ori_prev`) to its own origin. -/
def IsFrameChain (sqrt : α → α) : Orientation α → List (Orientation α) → Prop
  | _, [] => True
  | ori_prev, f :: rest => f = propagateFrame sqrt ori_prev f.origin ∧ IsFrameChain sqrt f rest

/-- The function `sqrt` is a square root on the non-negative elements. -/
def IsSqrt (sqrt : α → α) : Prop := ∀ x : α, 0 ≤ x → 0 ≤ sqrt x ∧ sqrt x * sqrt x = x

end Frames

/-! ## The track-following camera -/

section CameraModel

variable {α : Type}

/-- The `Camera` of camera.hpp (`carRotationMat`, which nothing below reads, is
left out). -/
structure Camera (α : Type) where
  Position : Vec3 α
  Front : Vec3 α
  Up : Vec3 α
  Right : Vec3 α
  carPosition : Vec3 α
  WorldUp : Vec3 α
  Yaw : α
  Pitch : α
  MovementSpeed : α
  MouseSensitivity : α
  Zoom : α
  s : α
  onTrack : Bool
  tPressed : Bool
  tCurPressed : Bool

/-- The variables the `while` loop of `Camera::ProcessTrackMovement` updates.
`passed_time = none` stands for a float that is no finite number (a NaN or an
infinity). -/
structure MoveState (α : Type) where
  s : α
  currentPos : Vec3 α
  passed_time : Option α
  tPressed : Bool
  tCurPressed : Bool

/-- How the `while` loop of `Camera::ProcessTrackMovement` ends: it is still
running when the fuel is spent, `get_point` reads outside `controlPoints`, the
`return` of the toggle branch is taken, or the loop condition fails. -/
inductive LoopResult (α : Type) where
  | outOfFuel : LoopResult α
  | outOfRange : LoopResult α
  | toggled : MoveState α → LoopResult α
  | finished : MoveState α → LoopResult α

/-- The loop has ended: by its condition or through the toggle branch. -/
def LoopResult.ended {α : Type} : LoopResult α → Bool
  | .finished _ => true
  | .toggled _ => true
  | _ => false

/-- How a call of `Camera::ProcessTrackMovement` ends. -/
inductive CallResult (α : Type) where
  | outOfFuel : CallResult α
  | outOfRange : CallResult α
  | done : Camera α → CallResult α

variable [LinearOrderedField α] [FloorRing α]

/-- The `hmax` scan at the start of `Camera::ProcessTrackMovement`. -/
def hmaxOf (orientations : List (Orientation α)) : α :=
  orientations.foldl
    (fun hmax o => if o.origin.y > hmax then o.origin.y + 1 / 2 else hmax) 0

/-- The argument `2*g*(hmax - h)` of the square root, with `g = 2.0f`. -/
def velocityArg (hmax h : α) : α := 2 * 2 * (hmax - h)

/-- The assignment `velocity = sqrt(2*g*(hmax - h))`: `none` (a NaN) when the
argument is negative. -/
def velocityOf (sqrt : α → α) (hmax h : α) : Option α :=
  if 0 ≤ velocityArg hmax h then some (sqrt (velocityArg hmax h)) else none

/-- The loop condition `passed_time < deltaTime`; false when `passed_time` is
no finite number. -/
def timeLeft (passed_time : Option α) (deltaTime : α) : Bool :=
  match passed_time with
  | some t => decide (t < deltaTime)
  | none => false

/-- The update `passed_time += distance / velocity`: no finite number results
from a division by zero or from a `velocity` or `passed_time` that is none. -/
def addTime (passed_time : Option α) (distance : α) (velocity : Option α) : Option α :=
  match passed_time, velocity with
  | some t, some v => if v = 0 then none else some (t + distance / v)
  | _, _ => none

/-- The advance of `s` in a micro-step: `s += 0.001f`, reset to `2.0` when it
reaches `controlPoints.size() + 2`. -/
def advance (n : Nat) (s : α) : α :=
  let s := s + 1 / 1000
  if s ≥ (n : α) + 2 then 2 else s

/-- The `while (passed_time < deltaTime)` loop of `Camera::ProcessTrackMovement`;
`keys k` is what the `k`-th coming poll of the T key returns. -/
def trackLoop (sqrt : α → α) (controlPoints : List (Vec3 α)) (deltaTime : α)
    (velocity : Option α) : Nat → (Nat → Bool) → MoveState α → LoopResult α
  | 0, _, st => if timeLeft st.passed_time deltaTime = true then .outOfFuel else .finished st
  | fuel + 1, keys, st =>
    if timeLeft st.passed_time deltaTime = true then
      let tCurPressed := keys 0
      if (!st.tPressed && tCurPressed) = true then
        .toggled { st with tPressed := tCurPressed, tCurPressed := tCurPressed }
      else
        let s := advance controlPoints.length st.s
        match get_point controlPoints s with
        | none => .outOfRange
        | some nextPos =>
          let distance := length sqrt (nextPos - st.currentPos)
          let passed_time := addTime st.passed_time distance velocity
          trackLoop sqrt controlPoints deltaTime velocity fuel (fun k => keys (k + 1))
            ⟨s, nextPos, passed_time, tCurPressed, tCurPressed⟩
    else .finished st

/-- The lookup `orientations.at(i)` with an `int` index. -/
def frameAt (orientations : List (Orientation α)) (i : Int) : Option (Orientation α) :=
  if 0 ≤ i then orientations[i.toNat]? else none

/-- The frame index `int(floor((s - 2.0) * 10.0f))`. -/
def frameIndex (s : α) : Int := ⌊(s - 2) * 10⌋

/-- The blend `(s - 2.0) * 10.0f - float(index)`. -/
def frameBlend (s : α) : α := (s - 2) * 10 - ((frameIndex s : Int) : α)

/-- `Camera::ProcessTrackMovement`. -/
def ProcessTrackMovement (sqrt : α → α) (fuel : Nat) (deltaTime : α) (track : Track α)
    (keys : Nat → Bool) (cam : Camera α) : CallResult α :=
  let cameraOffset := cam.Up.divScalar (375 / 100)
  let currentPos := cam.Position - cameraOffset
  let hmax := hmaxOf track.orientations
  let h := currentPos.y
  let velocity := velocityOf sqrt hmax h
  match trackLoop sqrt track.controlPoints deltaTime velocity fuel keys
      ⟨cam.s, currentPos, some 0, cam.tPressed, cam.tCurPressed⟩ with
  | .outOfFuel => .outOfFuel
  | .outOfRange => .outOfRange
  | .toggled st =>
    .done { cam with s := st.s, onTrack := false, tPressed := st.tPressed,
                     tCurPressed := st.tCurPressed }
  | .finished st =>
    let index := frameIndex st.s
    let blend := frameBlend st.s
    match frameAt track.orientations index,
          frameAt track.orientations ((index + 1) % (track.orientations.length : Int)) with
    | some ori_prev, some ori_next =>
      let front := ori_prev.Front.scale (1 - blend) + ori_next.Front.scale blend
      let up := ori_prev.Up.scale (1 - blend) + ori_next.Up.scale blend
      let right := ori_prev.Right.scale (1 - blend) + ori_next.Right.scale blend
      let position := st.currentPos + cameraOffset
      let carPosition := position - cameraOffset + up.divScalar 5
      .done { cam with Position := position, Front := front, Up := up, Right := right,
                       carPosition := carPosition, s := st.s, tPressed := st.tPressed,
                       tCurPressed := st.tCurPressed }
    | _, _ => .outOfRange

/-- The toggle of `processInput` (Project2.cpp): the T key is sampled, a press
edge flips `onTrack`, and `tPressed` takes the sample.  The rest of
`processInput` leaves these three fields alone. -/
def processInput (key : Bool) (cam : Camera α) : Camera α :=
  let cam := { cam with tCurPressed := key }
  let cam :=
    if (!cam.tPressed && cam.tCurPressed) = true then
      if cam.onTrack = false then { cam with onTrack := true }
      else { cam with onTrack := false }
    else cam
  { cam with tPressed := cam.tCurPressed }

/-- The toggle check a micro-step of `Camera::ProcessTrackMovement` runs on the
camera fields (the loop is only entered with `onTrack` set). -/
def trackPoll (key : Bool) (cam : Camera α) : Camera α :=
  let cam := { cam with tCurPressed := key }
  if (!cam.tPressed && cam.tCurPressed) = true then
    { cam with onTrack := false, tPressed := cam.tCurPressed }
  else { cam with tPressed := cam.tCurPressed }

/-- The number of press edges in a sequence of key samples, the sample before
the first being `prev`. -/
def risingEdges : Bool → List Bool → Nat
  | _, [] => 0
  | prev, key :: rest => (if (!prev && key) = true then 1 else 0) + risingEdges key rest

/-- A frame with the given `Up`, `Front` along x and `Right = Front × Up`. -/
def frameWithUp (Up origin : Vec3 α) : Orientation α :=
  ⟨⟨1, 0, 0⟩, Up, cross ⟨1, 0, 0⟩ Up, origin⟩

/-- A track whose three control points coincide at the origin, with a table
of thirty frames at that point. -/
def pointTrack : Track ℚ :=
  ⟨[⟨0, 0, 0⟩, ⟨0, 0, 0⟩, ⟨0, 0, 0⟩], ⟨[], [], []⟩,
   List.replicate 30 (seedFrame ⟨0, 0, 0⟩)⟩

/-- A closed track of six control points whose first four are equally spaced
on the x axis, so that the curve is `(s - 2, 0, 0)` for `2 ≤ s < 3`; its table
of sixty frames starts level and then banks, half a unit up. -/
def lineTrack : Track ℚ :=
  ⟨[⟨-1, 0, 0⟩, ⟨0, 0, 0⟩, ⟨1, 0, 0⟩, ⟨2, 0, 0⟩, ⟨2, 1, 0⟩, ⟨-1, 1, 0⟩], ⟨[], [], []⟩,
   seedFrame ⟨0, 0, 0⟩ :: List.replicate 59 (frameWithUp ⟨0, 0, 1⟩ ⟨1 / 10, 1 / 2, 0⟩)⟩

/-- A camera on the track at `s = 2`, upright, with the T key released, at the
given position. -/
def cameraAt (Position : Vec3 ℚ) : Camera ℚ :=
  { Position := Position, Front := ⟨1, 0, 0⟩, Up := ⟨0, 1, 0⟩, Right := ⟨0, 0, 1⟩,
    carPosition := ⟨0, 0, 0⟩, WorldUp := ⟨0, 1, 0⟩, Yaw := -90, Pitch := 0,
    MovementSpeed := 5, MouseSensitivity := 1 / 10, Zoom := 45, s := 2, onTrack := true,
    tPressed := false, tCurPressed := false }

end CameraModel

/-! ## The wrap checks one by one -/

section WrapChecks

/-- The four wrap checks of `Track::get_point`, named after the index they
test. -/
inductive WrapCheck where
  | A : WrapCheck
  | D : WrapCheck
  | C : WrapCheck
  | B : WrapCheck
deriving DecidableEq

/-- The indices `(pA, pB, pC, pD)` before any check: `floor(s) - 2 … floor(s) + 1`. -/
def naiveIndices (k : Int) : Int × Int × Int × Int := (k - 2, k - 1, k, k + 1)

/-- One `if` of `Track::get_point` on the current `(pA, pB, pC, pD)`. -/
def applyCheck (n : Nat) : WrapCheck → Int × Int × Int × Int → Int × Int × Int × Int
  | .A, (pA, pB, pC, pD) => if pA = -1 then ((n : Int) - 1, pB, pC, pD) else (pA, pB, pC, pD)
  | .D, (pA, pB, pC, pD) => if pD = (n : Int) then (pA, pB, pC, 0) else (pA, pB, pC, pD)
  | .C, (pA, pB, pC, pD) => if pC = (n : Int) then (pA, pB, 0, 1) else (pA, pB, pC, pD)
  | .B, (pA, pB, pC, pD) => if pB = (n : Int) then (pA, 0, 1, 2) else (pA, pB, pC, pD)

/-- The checks of the list applied in order to the naive indices. -/
def applyChecks (n : Nat) (order : List WrapCheck) (k : Int) : Int × Int × Int × Int :=
  order.foldl (fun idx c => applyCheck n c idx) (naiveIndices k)

end WrapChecks

/-! ## The spline loader, the free-fly look and the heightmap grid -/
section Loaders

variable {α : Type}

/-- The `while (fscanf(file, "%f %f %f", &pt.x, &pt.y, &pt.z) != EOF)` loop of
`rc_Spline::loadSegmentFrom` on the numbers left in the file: a full triple
fills `pt`; one or two last numbers fill only its first fields (`fscanf`
returns 1 or 2, which is not `EOF`) and `pt` is pushed all the same. -/
def readTriples : Vec3 α → List α → List (Vec3 α) → List (Vec3 α)
  | _, [], m_vPoints => m_vPoints
  | pt, [x], m_vPoints => m_vPoints ++ [{ pt with x := x }]
  | pt, [x, y], m_vPoints => m_vPoints ++ [{ pt with x := x, y := y }]
  | _, x :: y :: z :: rest, m_vPoints => readTriples ⟨x, y, z⟩ rest (m_vPoints ++ [⟨x, y, z⟩])

/-- `rc_Spline::loadSegmentFrom` on an opened file that holds the integer
`iLength` and then the numbers `floats`; `pt` is the declared, unassigned
`glm::vec3 pt`. -/
def loadSegmentFrom (_iLength : Int) (floats : List α) (pt : Vec3 α)
    (m_vPoints : List (Vec3 α)) : List (Vec3 α) :=
  readTriples pt floats m_vPoints

variable [LinearOrderedField α]

/-- `Camera::updateCameraVectors`, over the given `cos`, `sin`,
`glm::radians` and square root. -/
def updateCameraVectors (sqrt cos sin radians : α → α) (cam : Camera α) : Camera α :=
  let front : Vec3 α :=
    ⟨cos (radians cam.Yaw) * cos (radians cam.Pitch), sin (radians cam.Pitch),
     sin (radians cam.Yaw) * cos (radians cam.Pitch)⟩
  let Front := normalize sqrt front
  let Right := normalize sqrt (cross Front cam.WorldUp)
  let Up := normalize sqrt (cross Right Front)
  { cam with Front := Front, Right := Right, Up := Up }

/-- `Camera::ProcessMouseMovement`. -/
def ProcessMouseMovement (sqrt cos sin radians : α → α) (xoffset yoffset : α)
    (constrainPitch : Bool) (cam : Camera α) : Camera α :=
  let xoffset := xoffset * cam.MouseSensitivity
  let yoffset := yoffset * cam.MouseSensitivity
  let cam := { cam with Yaw := cam.Yaw + xoffset }
  let cam := { cam with Pitch := cam.Pitch + yoffset }
  let cam :=
    if constrainPitch = true then
      let cam := if cam.Pitch > 89 then { cam with Pitch := 89 } else cam
      if cam.Pitch < -89 then { cam with Pitch := -89 } else cam
    else cam
  updateCameraVectors sqrt cos sin radians cam

/-- `Heightmap::make_vertex`; `data` is the image buffer, read at
`(img_x * width + img_y) * nrChannels`. -/
def make_vertex (width height nrChannels : Nat) (data : List α) (img_x img_y : Nat) :
    Option (Vertex α) :=
  match data[(img_x * width + img_y) * nrChannels]? with
  | none => none
  | some byte =>
    some
      { Position := ⟨2 * ((img_x : α) / ((width : α) - 1)) - 1, byte / 255,
                     2 * ((img_y : α) / ((height : α) - 1)) - 1⟩,
        Normal := ⟨0, 0, 0⟩,
        TexCoords := ⟨(img_x : α) / ((width : α) - 1), (img_y : α) / ((height : α) - 1)⟩ }

/-- `Heightmap::create_heightmap`: for `x` from 0 to `width - 1`, for `y` from 0
to `height - 1`, push `make_vertex(x, y)`. -/
def create_heightmap (width height nrChannels : Nat) (data : List α) :
    Option (List (Vertex α)) :=
  (List.range width).foldlM
    (fun vertices x =>
      (List.range height).foldlM
        (fun vertices y =>
          match make_vertex width height nrChannels data x y with
          | none => none
          | some v => some (vertices ++ [v]))
        vertices)
    []

/-- The indices `a, b, c, d` that `Heightmap::create_indices` computes for the
cell `(x, y)`. -/
def cellIndices (width x y : Nat) : Nat × Nat × Nat × Nat :=
  (x * width + y, x * width + y + 1, (x + 1) * width + y, (x + 1) * width + y + 1)

/-- The statement `p.Normal += normal` on `vertices[i]`. -/
def addNormal (vertices : List (Vertex α)) (i : Nat) (normal : Vec3 α) :
    Option (List (Vertex α)) :=
  match vertices[i]? with
  | none => none
  | some p => some (vertices.set i { p with Normal := p.Normal + normal })

/-- `Heightmap::set_normals` on `vertices[i1]`, `vertices[i2]`, `vertices[i3]`. -/
def Heightmap.set_normals (vertices : List (Vertex α)) (i1 i2 i3 : Nat) :
    Option (List (Vertex α)) :=
  match vertices[i1]?, vertices[i2]?, vertices[i3]? with
  | some p1, some p2, some p3 =>
    let normal := cross (p2.Position - p1.Position) (p3.Position - p1.Position)
    (addNormal vertices i1 normal).bind fun vertices =>
      (addNormal vertices i2 normal).bind fun vertices => addNormal vertices i3 normal
  | _, _, _ => none

/-- `Heightmap::create_indices`: the index list and the vertices with their
accumulated normals. -/
def create_indices (width height : Nat) (vertices : List (Vertex α)) :
    Option (List Nat × List (Vertex α)) :=
  (List.range (width - 1)).foldlM
    (fun st x =>
      (List.range (height - 1)).foldlM
        (fun st y =>
          match cellIndices width x y with
          | (a, b, c, d) =>
            let indices := st.1 ++ [a, b, c]
            match Heightmap.set_normals st.2 a b c with
            | none => none
            | some vertices =>
              let indices := indices ++ [b, d, c]
              match Heightmap.set_normals vertices b d c with
              | none => none
              | some vertices => some (indices, vertices))
        st)
    ([], vertices)

end Loaders

/-! ## The build loop with its `float` counter -/

section FloatCounter

/-- The spacing of the numbers with `p` significant bits around `x`: the
least power of two `q`, found by doubling from `q`, with `x / q < 2 ^ p`. -/
def quantumFor (p x : Nat) : Nat → Nat → Nat
  | 0, q => q
  | fuel + 1, q => if x / q < 2 ^ p then q else quantumFor p x fuel (2 * q)

/-- Rounding of the natural number `x` to `p` significant bits, to nearest,
ties to even: the conversion to `float` (`p = 24`) or `double` (`p = 53`) of a
value given in whole units. -/
def roundBits (p x : Nat) : Nat :=
  let q := quantumFor p x x 1
  let t := x / q
  let r := x % q
  if 2 * r < q then t * q
  else if q < 2 * r then (t + 1) * q
  else if t % 2 = 0 then t * q else (t + 1) * q

/-- The update `s += 0.1` of the `float s` of the build loop, on values in
units of `2^-55`: the sum of `s` and the `double` constant `0.1`
(3602879701896397 units) is rounded to `double` and stored as `float`. -/
def floatStep (X : Nat) : Nat := roundBits 24 (roundBits 53 (X + 3602879701896397))

/-- The number of iterations of `for (float s = ...; s < bound; s += 0.1)`
entered with the counter `X`; `none` when the fuel runs out first. -/
def loopCount (bound : Nat) : Nat → Nat → Option Nat
  | 0, _ => none
  | fuel + 1, X =>
    if X < bound then (loopCount bound fuel (floatStep X)).map (· + 1) else some 0

variable {α : Type} [LinearOrderedField α] [FloorRing α]

/-- An `Orientation` as the floating-point build stores it: an axis is `none`
when a division by zero went into it, so that its components are no finite
numbers. -/
structure FloatOrientation (α : Type) where
  Front : Option (Vec3 α)
  Up : Option (Vec3 α)
  Right : Option (Vec3 α)
  origin : Vec3 α

/-- The quotient `v / c` of a vector by a float, finite unless `c` is zero. -/
def divScalarFinite (v : Vec3 α) (c : α) : Option (Vec3 α) :=
  if c = 0 then none else some (v.divScalar c)

/-- The function `glm::normalize`, `v * inversesqrt(dot(v, v))`, finite unless
the square root is zero. -/
def normalizeFinite (sqrt : α → α) (v : Vec3 α) : Option (Vec3 α) :=
  if sqrt (dot v v) = 0 then none else some (normalize sqrt v)

/-- The four assignments to `ori_cur` in the loop of `create_track`; an axis
computed from an axis that is not finite is not finite. -/
def propagateFloat (sqrt : α → α) (ori_prev : FloatOrientation α) (origin : Vec3 α) :
    FloatOrientation α :=
  let front := (divScalarFinite (origin - ori_prev.origin)
      (length sqrt (origin - ori_prev.origin))).bind (normalizeFinite sqrt)
  let right := front.bind fun f => ori_prev.Up.bind fun u => normalizeFinite sqrt (cross f u)
  let up := right.bind fun r => front.bind fun f => normalizeFinite sqrt (cross r f)
  ⟨front, up, right, origin⟩

/-- The seed frame of `create_track` at the given origin. -/
def seedFloat (origin : Vec3 α) : FloatOrientation α :=
  ⟨some ⟨1, 0, 0⟩, some ⟨0, 1, 0⟩, some ⟨0, 0, 1⟩, origin⟩

end FloatCounter
/-! ## The variables the wrap checks read and write -/

section WrapVariables

/-- The four index variables of `Track::get_point`. -/
inductive IndexVar where
  | pA : IndexVar
  | pB : IndexVar
  | pC : IndexVar
  | pD : IndexVar
deriving DecidableEq

/-- The value of an index variable in `(pA, pB, pC, pD)`. -/
def getVar : IndexVar → Int × Int × Int × Int → Int
  | .pA, (pA, _, _, _) => pA
  | .pB, (_, pB, _, _) => pB
  | .pC, (_, _, pC, _) => pC
  | .pD, (_, _, _, pD) => pD

/-- The variable the condition of a check tests. -/
def readVar : WrapCheck → IndexVar
  | .A => .pA
  | .D => .pD
  | .C => .pC
  | .B => .pB

/-- The value the condition of a check compares its variable with. -/
def testValue (n : Nat) : WrapCheck → Int
  | .A => -1
  | _ => (n : Int)

/-- The variables the body of a check assigns. -/
def writtenVars : WrapCheck → List IndexVar
  | .A => [.pA]
  | .D => [.pD]
  | .C => [.pD, .pC]
  | .B => [.pD, .pC, .pB]

end WrapVariables
/-! ## Finite frames among the float frames -/

section FiniteFrames

variable {α : Type}

/-- An `Orientation` seen as a stored frame all of whose axes are finite. -/
def Orientation.toFloat (o : Orientation α) : FloatOrientation α :=
  ⟨some o.Front, some o.Up, some o.Right, o.origin⟩

end FiniteFrames

/-! ## Lemmas on the spline evaluator -/

section EvaluatorLemmas

variable {α : Type}

theorem interpolate_at_zero [Field α] (a b c d : Vec3 α) (tau : α) :
    interpolate a b c d tau 0 = b := by
  ext <;> simp [interpolate, Mat4x3.mulMat, Mat4x3.mulVec]

theorem interpolate_at_one [Field α] (a b c d : Vec3 α) (tau : α) :
    interpolate a b c d tau 1 = c := by
  ext <;> simp [interpolate, Mat4x3.mulMat, Mat4x3.mulVec] <;> ring

theorem neg_one_emod_nat (n : Nat) (hn : 3 ≤ n) : (-1 : Int) % (n : Int) = (n : Int) - 1 := by
  have h : (-1 : Int) = ((n : Int) - 1) + (n : Int) * (-1) := by ring
  rw [h, Int.add_mul_emod_self_left]
  exact Int.emod_eq_of_lt (by omega) (by omega)

theorem add_nat_emod_self (n : Nat) (r : Int) (h0 : 0 ≤ r) (h1 : r < n) :
    (r + (n : Int)) % (n : Int) = r := by
  rw [Int.add_emod_self]
  exact Int.emod_eq_of_lt h0 h1

/-- On a track of at least three points the cascading checks resolve exactly
the window of indices taken modulo `n`, for every `k` from `1` to `n + 1`. -/
theorem resolveIndices_eq_emod (n : Nat) (k : Int) (hn : 3 ≤ n) (h1 : 1 ≤ k)
    (h2 : k ≤ (n : Int) + 1) :
    resolveIndices n k
      = ((k - 2) % (n : Int), (k - 1) % (n : Int), k % (n : Int), (k + 1) % (n : Int)) := by
  have em : ∀ r : Int, 0 ≤ r → r < n → r % (n : Int) = r :=
    fun r a b => Int.emod_eq_of_lt a b
  have ew : ∀ r : Int, 0 ≤ r → r < n → (r + (n : Int)) % (n : Int) = r :=
    add_nat_emod_self n
  have hneg := neg_one_emod_nat n hn
  rcases lt_trichotomy k 1 with h | h | h
  · omega
  · subst h
    have e0 : (1 : Int) - 2 = -1 := by norm_num
    have e1 : (1 : Int) - 1 = 0 := by norm_num
    have e2 : (1 : Int) + 1 = 2 := by norm_num
    simp only [resolveIndices, e0, e1, e2, if_true]
    rw [hneg, em 0 (by omega) (by omega), em 1 (by omega) (by omega),
      em 2 (by omega) (by omega)]
    have c1 : ¬ ((2 : Int) = (n : Int)) := by omega
    have c2 : ¬ ((1 : Int) = (n : Int)) := by omega
    have c3 : ¬ ((0 : Int) = (n : Int)) := by omega
    simp [c1, c2, c3]
  · by_cases hD : k + 1 = (n : Int)
    · have kk : k = (n : Int) - 1 := by omega
      subst kk
      have c0 : ¬ ((n : Int) - 1 - 2 = -1) := by omega
      have c2 : ¬ ((n : Int) - 1 = (n : Int)) := by omega
      have c3 : ¬ ((n : Int) - 1 - 1 = (n : Int)) := by omega
      have e3 : (n : Int) - 1 + 1 = (n : Int) := by omega
      simp only [resolveIndices, c0, c2, c3, e3, if_true, if_false]
      rw [em ((n : Int) - 1 - 2) (by omega) (by omega),
        em ((n : Int) - 1 - 1) (by omega) (by omega),
        em ((n : Int) - 1) (by omega) (by omega), Int.emod_self]
    · by_cases hC : k = (n : Int)
      · subst hC
        have c0 : ¬ ((n : Int) - 2 = -1) := by omega
        have c3 : ¬ ((n : Int) - 1 = (n : Int)) := by omega
        simp only [resolveIndices, c0, hD, c3, if_true, if_false]
        have e3 : (n : Int) + 1 = 1 + (n : Int) := by ring
        rw [em ((n : Int) - 2) (by omega) (by omega),
          em ((n : Int) - 1) (by omega) (by omega), Int.emod_self, e3,
          ew 1 (by omega) (by omega)]
      · by_cases hB : k - 1 = (n : Int)
        · have kk : k = (n : Int) + 1 := by omega
          subst kk
          have c0 : ¬ ((n : Int) + 1 - 2 = -1) := by omega
          have e1 : (n : Int) + 1 - 1 = (n : Int) := by omega
          simp only [resolveIndices, c0, hD, hC, e1, if_true, if_false]
          have e2 : (n : Int) + 1 = 1 + (n : Int) := by ring
          have e3 : (n : Int) + 1 + 1 = 2 + (n : Int) := by ring
          rw [em ((n : Int) + 1 - 2) (by omega) (by omega), Int.emod_self, e3, e2,
            ew 1 (by omega) (by omega), ew 2 (by omega) (by omega)]
        · have c0 : ¬ (k - 2 = -1) := by omega
          simp only [resolveIndices, c0, hD, hC, hB, if_false]
          rw [em (k - 2) (by omega) (by omega), em (k - 1) (by omega) (by omega),
            em k (by omega) (by omega), em (k + 1) (by omega) (by omega)]

theorem controlPointAt_emod_some (cps : List (Vec3 α)) (j : Int) (hn : 3 ≤ cps.length) :
    ∃ p, controlPointAt cps (j % (cps.length : Int)) = some p := by
  have hpos : (0 : Int) < (cps.length : Int) := by omega
  have h0 : 0 ≤ j % (cps.length : Int) := Int.emod_nonneg j (by omega)
  have h1 : j % (cps.length : Int) < (cps.length : Int) := Int.emod_lt_of_pos j hpos
  have hlt : (j % (cps.length : Int)).toNat < cps.length := by omega
  refine ⟨cps[(j % (cps.length : Int)).toNat], ?_⟩
  simp [controlPointAt, h0, List.getElem?_eq_getElem hlt]

/-- Inside the handled range the window read by `get_point` is the window of
indices modulo `n`, and all four reads succeed. -/
theorem get_point_window_eq [LinearOrderedField α] [FloorRing α] (cps : List (Vec3 α))
    (k : Int) (u : α) (hn : 3 ≤ cps.length) (h1 : 1 ≤ k) (h2 : k ≤ (cps.length : Int) + 1) :
    ∃ a b c d,
      controlPointAt cps ((k - 2) % (cps.length : Int)) = some a ∧
      controlPointAt cps ((k - 1) % (cps.length : Int)) = some b ∧
      controlPointAt cps (k % (cps.length : Int)) = some c ∧
      controlPointAt cps ((k + 1) % (cps.length : Int)) = some d ∧
      get_point_window cps k u = some (interpolate a b c d (1 / 2) u) := by
  obtain ⟨a, ha⟩ := controlPointAt_emod_some cps (k - 2) hn
  obtain ⟨b, hb⟩ := controlPointAt_emod_some cps (k - 1) hn
  obtain ⟨c, hc⟩ := controlPointAt_emod_some cps k hn
  obtain ⟨d, hd⟩ := controlPointAt_emod_some cps (k + 1) hn
  refine ⟨a, b, c, d, ha, hb, hc, hd, ?_⟩
  simp only [get_point_window, resolveIndices_eq_emod cps.length k hn h1 h2, ha, hb, hc, hd]

end EvaluatorLemmas

/-! ## The spline evaluator: settled properties -/

section EvaluatorClaims

variable {α : Type} [LinearOrderedField α] [FloorRing α]

/-- C1 (as stated, refuted): on the closed square `get_point(6.0)` is not
`get_point(2.0)`; the call at `6.0` reads `controlPoints[4..7]`, outside the
vector. -/
theorem get_point_square_six_ne_two :
    get_point squareTrack 6 ≠ get_point squareTrack 2 := by
  simp [get_point, get_point_window, resolveIndices, controlPointAt, squareTrack]

/-- C1 (amended): on a track of `n ≥ 3` control points `get_point(s)` and
`get_point(s + n)` are both defined and equal for every `s` with `1 ≤ s < 2`,
while for every `s ≥ 2` the call `get_point(s + n)` reads outside
`controlPoints` (no wrap check applies from `floor = n + 2` on); on the square
`get_point(5.0) = get_point(1.0)`. -/
theorem get_point_periodic_in_range (cps : List (Vec3 α)) (hn : 3 ≤ cps.length) :
    (∀ s : α, 1 ≤ s → s < 2 →
        get_point cps s = get_point cps (s + (cps.length : α)) ∧
        (get_point cps s).isSome = true) ∧
    (∀ s : α, 2 ≤ s → get_point cps (s + (cps.length : α)) = none) ∧
    get_point squareTrack 5 = get_point squareTrack 1 := by
  refine ⟨?_, ?_, ?_⟩
  · intro s hs1 hs2
    have hf : ⌊s⌋ = 1 := by
      rw [Int.floor_eq_iff]
      constructor
      · exact_mod_cast hs1
      · push_cast
        linarith
    have hf2 : ⌊s + (cps.length : α)⌋ = 1 + (cps.length : Int) := by
      rw [Int.floor_add_nat, hf]
    obtain ⟨a, b, c, d, ha, hb, hc, hd, hw⟩ :=
      get_point_window_eq cps 1 (s - ((1 : Int) : α)) hn (by omega) (by omega)
    obtain ⟨a2, b2, c2, d2, ha2, hb2, hc2, hd2, hw2⟩ :=
      get_point_window_eq cps (1 + (cps.length : Int))
        (s + (cps.length : α) - ((1 + (cps.length : Int) : Int) : α)) hn (by omega) (by omega)
    have ea : (1 + (cps.length : Int) - 2) % (cps.length : Int)
        = (1 - 2) % (cps.length : Int) := by
      have e : (1 + (cps.length : Int) - 2) = (1 - 2) + (cps.length : Int) := by ring
      rw [e, Int.add_emod_self]
    have eb : (1 + (cps.length : Int) - 1) % (cps.length : Int)
        = (1 - 1) % (cps.length : Int) := by
      have e : (1 + (cps.length : Int) - 1) = (1 - 1) + (cps.length : Int) := by ring
      rw [e, Int.add_emod_self]
    have ec : (1 + (cps.length : Int)) % (cps.length : Int)
        = 1 % (cps.length : Int) := by
      rw [Int.add_emod_self]
    have ed : (1 + (cps.length : Int) + 1) % (cps.length : Int)
        = (1 + 1) % (cps.length : Int) := by
      have e : (1 + (cps.length : Int) + 1) = (1 + 1) + (cps.length : Int) := by ring
      rw [e, Int.add_emod_self]
    rw [ea, ha] at ha2
    rw [eb, hb] at hb2
    rw [ec, hc] at hc2
    rw [ed, hd] at hd2
    cases ha2
    cases hb2
    cases hc2
    cases hd2
    have eu : s + (cps.length : α) - ((1 + (cps.length : Int) : Int) : α)
        = s - ((1 : Int) : α) := by
      push_cast
      ring
    unfold get_point
    rw [hf2, hf, hw, hw2, eu]
    simp
  · intro s hs
    have hfl : (2 : Int) ≤ ⌊s⌋ := by
      rw [Int.le_floor]
      exact_mod_cast hs
    have hf2 : ⌊s + (cps.length : α)⌋ = ⌊s⌋ + (cps.length : Int) := Int.floor_add_nat s _
    have hA : (resolveIndices cps.length (⌊s⌋ + (cps.length : Int))).1
        = ⌊s⌋ + (cps.length : Int) - 2 := by
      have c0 : ¬ (⌊s⌋ + (cps.length : Int) - 2 = -1) := by omega
      simp [resolveIndices, c0]
    have hnone : controlPointAt cps (⌊s⌋ + (cps.length : Int) - 2) = none := by
      have h0 : 0 ≤ ⌊s⌋ + (cps.length : Int) - 2 := by omega
      have hge : cps.length ≤ (⌊s⌋ + (cps.length : Int) - 2).toNat := by omega
      simp [controlPointAt, h0, List.getElem?_eq_none hge]
    unfold get_point get_point_window
    rw [hf2]
    rcases hr : resolveIndices cps.length (⌊s⌋ + (cps.length : Int)) with ⟨pA, pB, pC, pD⟩
    rw [hr] at hA
    simp only at hA
    subst hA
    simp only [hnone]
  · simp [get_point, get_point_window, resolveIndices, controlPointAt, squareTrack]

/-- Witness for C1 (amended), on the closed square. -/
theorem get_point_periodic_in_range_witness :
    3 ≤ squareTrack.length ∧
    ((∀ s : ℚ, 1 ≤ s → s < 2 →
        get_point squareTrack s = get_point squareTrack (s + (squareTrack.length : ℚ)) ∧
        (get_point squareTrack s).isSome = true) ∧
    (∀ s : ℚ, 2 ≤ s → get_point squareTrack (s + (squareTrack.length : ℚ)) = none) ∧
    get_point squareTrack 5 = get_point squareTrack 1) :=
  ⟨by decide, get_point_periodic_in_range squareTrack (by decide)⟩

/-- C2: on a track of `n ≥ 3` control points, for every integer `k` with
`2 ≤ k ≤ n + 1`, `get_point(k)` is exactly the control point
`controlPoints[(k - 1) mod n]`, the second point of its window; hence every
control point is `get_point(k)` for some such `k`. -/
theorem get_point_at_knot (cps : List (Vec3 α)) (hn : 3 ≤ cps.length) :
    (∀ k : Int, 2 ≤ k → k ≤ (cps.length : Int) + 1 →
        get_point cps (k : α) = controlPointAt cps ((k - 1) % (cps.length : Int)) ∧
        (get_point cps (k : α)).isSome = true) ∧
    (∀ i : Nat, i < cps.length →
        ∃ k : Int, 2 ≤ k ∧ k ≤ (cps.length : Int) + 1 ∧ get_point cps (k : α) = cps[i]?) := by
  have key : ∀ k : Int, 2 ≤ k → k ≤ (cps.length : Int) + 1 →
      get_point cps (k : α) = controlPointAt cps ((k - 1) % (cps.length : Int)) ∧
      (get_point cps (k : α)).isSome = true := by
    intro k hk1 hk2
    obtain ⟨a, b, c, d, _, hb, _, _, hw⟩ :=
      get_point_window_eq cps k ((k : α) - ((k : Int) : α)) hn (by omega) hk2
    unfold get_point
    rw [Int.floor_intCast, hw, hb, sub_self, interpolate_at_zero]
    simp
  refine ⟨key, ?_⟩
  intro i hi
  have em : ∀ r : Int, 0 ≤ r → r < cps.length → r % (cps.length : Int) = r :=
    fun r a b => Int.emod_eq_of_lt a b
  rcases Nat.eq_zero_or_pos i with h0 | hpos
  · subst h0
    refine ⟨(cps.length : Int) + 1, by omega, le_refl _, ?_⟩
    rw [(key ((cps.length : Int) + 1) (by omega) (le_refl _)).1]
    have e : (cps.length : Int) + 1 - 1 = (cps.length : Int) := by ring
    rw [e, Int.emod_self]
    simp [controlPointAt]
  · refine ⟨(i : Int) + 1, by omega, by omega, ?_⟩
    rw [(key ((i : Int) + 1) (by omega) (by omega)).1]
    have e : (i : Int) + 1 - 1 = (i : Int) := by ring
    rw [e, em (i : Int) (by omega) (by omega)]
    simp [controlPointAt]

/-- Witness for C2, on the closed square. -/
theorem get_point_at_knot_witness :
    3 ≤ squareTrack.length ∧
    ((∀ k : Int, 2 ≤ k → k ≤ (squareTrack.length : Int) + 1 →
        get_point squareTrack (k : ℚ)
          = controlPointAt squareTrack ((k - 1) % (squareTrack.length : Int)) ∧
        (get_point squareTrack (k : ℚ)).isSome = true) ∧
    (∀ i : Nat, i < squareTrack.length →
        ∃ k : Int, 2 ≤ k ∧ k ≤ (squareTrack.length : Int) + 1 ∧
          get_point squareTrack (k : ℚ) = squareTrack[i]?)) :=
  ⟨by decide, get_point_at_knot squareTrack (by decide)⟩

/-- C3 (as stated, refuted): on the closed square `get_point(2.0)` is not
`(0,0,0)`. -/
theorem get_point_square_two_ne_origin :
    get_point squareTrack 2 ≠ some ⟨0, 0, 0⟩ := by
  simp [get_point, get_point_window, resolveIndices, controlPointAt, squareTrack,
    interpolate, Mat4x3.mulMat, Mat4x3.mulVec]

/-- C3 (amended): on the closed square `get_point(2.0)` is `(1,0,0)`, the
control point of index 1 (the second point of the window `0,1,2,3`). -/
theorem get_point_square_two :
    get_point squareTrack 2 = some ⟨1, 0, 0⟩ := by
  simp [get_point, get_point_window, resolveIndices, controlPointAt, squareTrack,
    interpolate, Mat4x3.mulMat, Mat4x3.mulVec]

end EvaluatorClaims

section CatmullRom

variable {α : Type} [Field α]

/-- C4: `interpolate` is the Catmull-Rom polynomial
`(-τu + 2τu² - τu³) A + (1 + (τ-3)u² + (2-τ)u³) B + (τu + (3-2τ)u² + (τ-2)u³) C
 + (-τu² + τu³) D`. -/
theorem interpolate_eq_catmull_rom (A B C D : Vec3 α) (tau u : α) :
    interpolate A B C D tau u
      = A.scale (-tau * u + 2 * tau * u ^ 2 - tau * u ^ 3)
        + B.scale (1 + (tau - 3) * u ^ 2 + (2 - tau) * u ^ 3)
        + C.scale (tau * u + (3 - 2 * tau) * u ^ 2 + (tau - 2) * u ^ 3)
        + D.scale (-tau * u ^ 2 + tau * u ^ 3) := by
  show interpolate A B C D tau u
      = Vec3.add (Vec3.add (Vec3.add
          (A.scale (-tau * u + 2 * tau * u ^ 2 - tau * u ^ 3))
          (B.scale (1 + (tau - 3) * u ^ 2 + (2 - tau) * u ^ 3)))
          (C.scale (tau * u + (3 - 2 * tau) * u ^ 2 + (tau - 2) * u ^ 3)))
          (D.scale (-tau * u ^ 2 + tau * u ^ 3))
  ext <;> simp only [interpolate, Mat4x3.mulMat, Mat4x3.mulVec, Vec3.add, Vec3.scale] <;> ring

end CatmullRom

section EvaluatorClaims

variable {α : Type} [LinearOrderedField α] [FloorRing α]

/-- C5: for `n ≥ 3` and `1 ≤ floor(s) ≤ n + 1` the cascading checks resolve
`((k-2) mod n, (k-1) mod n, k mod n, (k+1) mod n)` with `k = floor(s)`; the four
indices lie in `[0, n)` and `get_point(s)` reads inside `controlPoints`. -/
theorem resolveIndices_refines_modulo (cps : List (Vec3 α)) (s : α)
    (hn : 3 ≤ cps.length) (h1 : 1 ≤ ⌊s⌋) (h2 : ⌊s⌋ ≤ (cps.length : Int) + 1) :
    resolveIndices cps.length ⌊s⌋
      = ((⌊s⌋ - 2) % (cps.length : Int), (⌊s⌋ - 1) % (cps.length : Int),
         ⌊s⌋ % (cps.length : Int), (⌊s⌋ + 1) % (cps.length : Int)) ∧
    (match resolveIndices cps.length ⌊s⌋ with
      | (pA, pB, pC, pD) =>
        (0 ≤ pA ∧ pA < cps.length) ∧ (0 ≤ pB ∧ pB < cps.length) ∧
        (0 ≤ pC ∧ pC < cps.length) ∧ (0 ≤ pD ∧ pD < cps.length)) ∧
    (get_point cps s).isSome = true := by
  have hpos : (0 : Int) < (cps.length : Int) := by omega
  have hne : (cps.length : Int) ≠ 0 := by omega
  refine ⟨resolveIndices_eq_emod cps.length ⌊s⌋ hn h1 h2, ?_, ?_⟩
  · rw [resolveIndices_eq_emod cps.length ⌊s⌋ hn h1 h2]
    exact ⟨⟨Int.emod_nonneg _ hne, Int.emod_lt_of_pos _ hpos⟩,
      ⟨Int.emod_nonneg _ hne, Int.emod_lt_of_pos _ hpos⟩,
      ⟨Int.emod_nonneg _ hne, Int.emod_lt_of_pos _ hpos⟩,
      ⟨Int.emod_nonneg _ hne, Int.emod_lt_of_pos _ hpos⟩⟩
  · obtain ⟨a, b, c, d, _, _, _, _, hw⟩ :=
      get_point_window_eq cps ⌊s⌋ (s - (⌊s⌋ : α)) hn h1 h2
    unfold get_point
    rw [hw]
    rfl

/-- Witness for C5: the closing window of the square, at `s = 5`. -/
theorem resolveIndices_refines_modulo_witness :
    resolveIndices squareTrack.length ⌊(5 : ℚ)⌋
      = ((⌊(5 : ℚ)⌋ - 2) % (squareTrack.length : Int),
         (⌊(5 : ℚ)⌋ - 1) % (squareTrack.length : Int),
         ⌊(5 : ℚ)⌋ % (squareTrack.length : Int),
         (⌊(5 : ℚ)⌋ + 1) % (squareTrack.length : Int)) ∧
    (match resolveIndices squareTrack.length ⌊(5 : ℚ)⌋ with
      | (pA, pB, pC, pD) =>
        (0 ≤ pA ∧ pA < squareTrack.length) ∧ (0 ≤ pB ∧ pB < squareTrack.length) ∧
        (0 ≤ pC ∧ pC < squareTrack.length) ∧ (0 ≤ pD ∧ pD < squareTrack.length)) ∧
    (get_point squareTrack (5 : ℚ)).isSome = true :=
  resolveIndices_refines_modulo squareTrack 5 (by decide)
    (by simp) (by simp [squareTrack])

/-- C6: on a track of `n ≥ 3` control points, for every integer `k` with
`2 ≤ k ≤ n + 1`, the window selected by `floor(s) = k` evaluated at `u = 1`
gives the point `get_point(k + 1)` when `k ≤ n`, and `get_point(2.0)` when
`k = n + 1`; all of these are defined. -/
theorem get_point_continuous_at_knots (cps : List (Vec3 α)) (k : Int)
    (hn : 3 ≤ cps.length) (hk1 : 2 ≤ k) (hk2 : k ≤ (cps.length : Int) + 1) :
    (get_point_window cps k (1 : α)).isSome = true ∧
    (k ≤ (cps.length : Int) → get_point_window cps k (1 : α) = get_point cps ((k : α) + 1)) ∧
    (k = (cps.length : Int) + 1 → get_point_window cps k (1 : α) = get_point cps (2 : α)) := by
  obtain ⟨a, b, c, d, _, _, hc, _, hw⟩ :=
    get_point_window_eq cps k (1 : α) hn (by omega) hk2
  rw [interpolate_at_one] at hw
  refine ⟨by rw [hw]; rfl, ?_, ?_⟩
  · intro hle
    obtain ⟨a2, b2, c2, d2, _, hb2, _, _, hw2⟩ :=
      get_point_window_eq cps (k + 1) ((k : α) + 1 - ((k + 1 : Int) : α)) hn (by omega)
        (by omega)
    have e : k + 1 - 1 = k := by ring
    rw [e, hc] at hb2
    cases hb2
    have hfl : ⌊(k : α) + 1⌋ = k + 1 := by
      rw [Int.floor_add_one, Int.floor_intCast]
    unfold get_point
    rw [hfl, hw2, hw]
    have eu : (k : α) + 1 - ((k + 1 : Int) : α) = 0 := by
      push_cast
      ring
    rw [eu, interpolate_at_zero]
  · intro heq
    subst heq
    obtain ⟨a2, b2, c2, d2, _, hb2, _, _, hw2⟩ :=
      get_point_window_eq cps 2 ((2 : α) - ((2 : Int) : α)) hn (by omega) (by omega)
    have e1 : ((cps.length : Int) + 1) % (cps.length : Int) = 1 := by
      have e : (cps.length : Int) + 1 = 1 + (cps.length : Int) := by ring
      rw [e]
      exact add_nat_emod_self cps.length 1 (by omega) (by omega)
    have e2 : ((2 : Int) - 1) % (cps.length : Int) = 1 := by
      have e : (2 : Int) - 1 = 1 := by norm_num
      rw [e]
      exact Int.emod_eq_of_lt (by omega) (by omega)
    rw [e1] at hc
    rw [e2, hc] at hb2
    cases hb2
    have hfl : ⌊(2 : α)⌋ = 2 := by
      simp
    unfold get_point
    rw [hfl, hw2, hw]
    have eu : (2 : α) - ((2 : Int) : α) = 0 := by
      push_cast
      ring
    rw [eu, interpolate_at_zero]

/-- Witness for C6: the closing seam of the square, `k = n + 1 = 5`. -/
theorem get_point_continuous_at_knots_witness :
    (get_point_window squareTrack 5 (1 : ℚ)).isSome = true ∧
    ((5 : Int) ≤ (squareTrack.length : Int) →
      get_point_window squareTrack 5 (1 : ℚ) = get_point squareTrack (((5 : Int) : ℚ) + 1)) ∧
    ((5 : Int) = (squareTrack.length : Int) + 1 →
      get_point_window squareTrack 5 (1 : ℚ) = get_point squareTrack (2 : ℚ)) :=
  get_point_continuous_at_knots squareTrack 5 (by decide) (by decide) (by decide)

end EvaluatorClaims

/-! ## The rail mesh: vertex counts -/

section MeshCounts

variable {α : Type} [Field α]

/-- What a call of `make_triangle` does to the three vertex counts. -/
theorem make_triangle_lengths (posA posB posC : Vec3 α) (tA tB tC : Vec2 α)
    (flipNormal : Bool) (object : String) (placeTie : Bool) (m : TrackMesh α) :
    (make_triangle posA posB posC tA tB tC flipNormal object placeTie m).rightRailVertices.length
      = m.rightRailVertices.length + (if object = "right rail" then 3 else 0) ∧
    (make_triangle posA posB posC tA tB tC flipNormal object placeTie m).leftRailVertices.length
      = m.leftRailVertices.length + (if object = "left rail" then 3 else 0) ∧
    (make_triangle posA posB posC tA tB tC flipNormal object placeTie m).tieVertices.length
      = m.tieVertices.length + (if object = "tie" then 3 else 0) := by
  unfold make_triangle
  by_cases h1 : object = "right rail" <;> by_cases h2 : object = "left rail" <;>
    by_cases h3 : object = "tie" <;> simp [h1, h2, h3]

theorem makeRailPart_rail_lengths (ori_prev ori_cur : Orientation α)
    (railOffset leftRightOffset : Vec3 α) (railType : String) (placeTie : Bool)
    (m : TrackMesh α) :
    (makeRailPart_rail ori_prev ori_cur railOffset leftRightOffset railType placeTie
        m).rightRailVertices.length
      = m.rightRailVertices.length + (if railType = "right rail" then 24 else 0) ∧
    (makeRailPart_rail ori_prev ori_cur railOffset leftRightOffset railType placeTie
        m).leftRailVertices.length
      = m.leftRailVertices.length + (if railType = "left rail" then 24 else 0) ∧
    (makeRailPart_rail ori_prev ori_cur railOffset leftRightOffset railType placeTie
        m).tieVertices.length
      = m.tieVertices.length + (if railType = "tie" then 24 else 0) := by
  unfold makeRailPart_rail
  simp only [make_triangle_lengths]
  refine ⟨?_, ?_, ?_⟩ <;> split_ifs <;> simp

theorem makeRailPart_tie_lengths (ori_cur : Orientation α) (railOffset tieOffset : Vec3 α)
    (placeTie : Bool) (m : TrackMesh α) :
    (makeRailPart_tie ori_cur railOffset tieOffset placeTie m).rightRailVertices.length
      = m.rightRailVertices.length ∧
    (makeRailPart_tie ori_cur railOffset tieOffset placeTie m).leftRailVertices.length
      = m.leftRailVertices.length ∧
    (makeRailPart_tie ori_cur railOffset tieOffset placeTie m).tieVertices.length
      = m.tieVertices.length + 36 := by
  unfold makeRailPart_tie
  simp [make_triangle_lengths]

/-- The two passes of the `railNum` loop with their resolved arguments. -/
theorem makeRailPart_unfold (ori_prev ori_cur : Orientation α)
    (railOffset tieOffset : Vec3 α) (placeTie : Bool) (m : TrackMesh α) :
    makeRailPart ori_prev ori_cur railOffset tieOffset placeTie m
      = if placeTie = true then
          makeRailPart_tie ori_cur railOffset tieOffset placeTie
            (makeRailPart_rail ori_prev ori_cur railOffset
              (⟨-(1 / 10), -(1 / 10), -(1 / 10)⟩ : Vec3 α) "left rail" placeTie
              (makeRailPart_rail ori_prev ori_cur railOffset
                (⟨1 / 10, 1 / 10, 1 / 10⟩ : Vec3 α) "right rail" placeTie m))
        else
          makeRailPart_rail ori_prev ori_cur railOffset
            (⟨-(1 / 10), -(1 / 10), -(1 / 10)⟩ : Vec3 α) "left rail" placeTie
            (makeRailPart_rail ori_prev ori_cur railOffset
              (⟨1 / 10, 1 / 10, 1 / 10⟩ : Vec3 α) "right rail" placeTie m) := by
  have hne : ¬ ("right rail" = "left rail") := by decide
  simp only [makeRailPart, hne, if_false, if_true]

/-- What a call of `makeRailPart` does to the three vertex counts. -/
theorem makeRailPart_lengths (ori_prev ori_cur : Orientation α)
    (railOffset tieOffset : Vec3 α) (placeTie : Bool) (m : TrackMesh α) :
    (makeRailPart ori_prev ori_cur railOffset tieOffset placeTie m).rightRailVertices.length
      = m.rightRailVertices.length + 24 ∧
    (makeRailPart ori_prev ori_cur railOffset tieOffset placeTie m).leftRailVertices.length
      = m.leftRailVertices.length + 24 ∧
    (makeRailPart ori_prev ori_cur railOffset tieOffset placeTie m).tieVertices.length
      = m.tieVertices.length + (if placeTie = true then 36 else 0) := by
  unfold makeRailPart
  cases placeTie <;>
    simp [makeRailPart_rail_lengths, makeRailPart_tie_lengths]

/-- A call of `make_triangle` keeps what the three vertex vectors held. -/
theorem make_triangle_keeps (posA posB posC : Vec3 α) (tA tB tC : Vec2 α)
    (flipNormal : Bool) (object : String) (placeTie : Bool) (m : TrackMesh α) :
    m.rightRailVertices <+:
      (make_triangle posA posB posC tA tB tC flipNormal object placeTie m).rightRailVertices ∧
    m.leftRailVertices <+:
      (make_triangle posA posB posC tA tB tC flipNormal object placeTie m).leftRailVertices ∧
    m.tieVertices <+:
      (make_triangle posA posB posC tA tB tC flipNormal object placeTie m).tieVertices := by
  unfold make_triangle
  by_cases h1 : object = "right rail" <;> by_cases h2 : object = "left rail" <;>
    by_cases h3 : object = "tie" <;> simp [h1, h2, h3]

theorem makeRailPart_rail_keeps (ori_prev ori_cur : Orientation α)
    (railOffset leftRightOffset : Vec3 α) (railType : String) (placeTie : Bool)
    (m : TrackMesh α) :
    m.rightRailVertices <+:
      (makeRailPart_rail ori_prev ori_cur railOffset leftRightOffset railType placeTie
        m).rightRailVertices ∧
    m.leftRailVertices <+:
      (makeRailPart_rail ori_prev ori_cur railOffset leftRightOffset railType placeTie
        m).leftRailVertices ∧
    m.tieVertices <+:
      (makeRailPart_rail ori_prev ori_cur railOffset leftRightOffset railType placeTie
        m).tieVertices := by
  simp only [makeRailPart_rail]
  refine ⟨?_, ?_, ?_⟩
  · repeat refine List.IsPrefix.trans ?_ (make_triangle_keeps _ _ _ _ _ _ _ _ _ _).1
    exact List.prefix_refl _
  · repeat refine List.IsPrefix.trans ?_ (make_triangle_keeps _ _ _ _ _ _ _ _ _ _).2.1
    exact List.prefix_refl _
  · repeat refine List.IsPrefix.trans ?_ (make_triangle_keeps _ _ _ _ _ _ _ _ _ _).2.2
    exact List.prefix_refl _

theorem makeRailPart_tie_keeps (ori_cur : Orientation α) (railOffset tieOffset : Vec3 α)
    (placeTie : Bool) (m : TrackMesh α) :
    m.rightRailVertices <+:
      (makeRailPart_tie ori_cur railOffset tieOffset placeTie m).rightRailVertices ∧
    m.leftRailVertices <+:
      (makeRailPart_tie ori_cur railOffset tieOffset placeTie m).leftRailVertices ∧
    m.tieVertices <+:
      (makeRailPart_tie ori_cur railOffset tieOffset placeTie m).tieVertices := by
  simp only [makeRailPart_tie]
  refine ⟨?_, ?_, ?_⟩
  · repeat refine List.IsPrefix.trans ?_ (make_triangle_keeps _ _ _ _ _ _ _ _ _ _).1
    exact List.prefix_refl _
  · repeat refine List.IsPrefix.trans ?_ (make_triangle_keeps _ _ _ _ _ _ _ _ _ _).2.1
    exact List.prefix_refl _
  · repeat refine List.IsPrefix.trans ?_ (make_triangle_keeps _ _ _ _ _ _ _ _ _ _).2.2
    exact List.prefix_refl _

/-- A call of `makeRailPart` keeps what the three vertex vectors held. -/
theorem makeRailPart_keeps (ori_prev ori_cur : Orientation α)
    (railOffset tieOffset : Vec3 α) (placeTie : Bool) (m : TrackMesh α) :
    m.rightRailVertices <+:
      (makeRailPart ori_prev ori_cur railOffset tieOffset placeTie m).rightRailVertices ∧
    m.leftRailVertices <+:
      (makeRailPart ori_prev ori_cur railOffset tieOffset placeTie m).leftRailVertices ∧
    m.tieVertices <+:
      (makeRailPart ori_prev ori_cur railOffset tieOffset placeTie m).tieVertices := by
  rw [makeRailPart_unfold]
  have h1 := makeRailPart_rail_keeps ori_prev ori_cur railOffset
    (⟨1 / 10, 1 / 10, 1 / 10⟩ : Vec3 α) "right rail" placeTie m
  have h2 := makeRailPart_rail_keeps ori_prev ori_cur railOffset
    (⟨-(1 / 10), -(1 / 10), -(1 / 10)⟩ : Vec3 α) "left rail" placeTie
    (makeRailPart_rail ori_prev ori_cur railOffset (⟨1 / 10, 1 / 10, 1 / 10⟩ : Vec3 α)
      "right rail" placeTie m)
  have h3 := makeRailPart_tie_keeps ori_cur railOffset tieOffset placeTie
    (makeRailPart_rail ori_prev ori_cur railOffset
      (⟨-(1 / 10), -(1 / 10), -(1 / 10)⟩ : Vec3 α) "left rail" placeTie
      (makeRailPart_rail ori_prev ori_cur railOffset (⟨1 / 10, 1 / 10, 1 / 10⟩ : Vec3 α)
        "right rail" placeTie m))
  split_ifs
  · exact ⟨(h1.1.trans h2.1).trans h3.1, (h1.2.1.trans h2.2.1).trans h3.2.1,
      (h1.2.2.trans h2.2.2).trans h3.2.2⟩
  · exact ⟨h1.1.trans h2.1, h1.2.1.trans h2.2.1, h1.2.2.trans h2.2.2⟩

/-- C9: every call of `makeRailPart` appends exactly 24 vertices (8 triangles)
to `rightRailVertices`, exactly 24 to `leftRailVertices`, and to `tieVertices`
exactly 36 (12 triangles) when `placeTie` is true and none when it is false;
what was stored before is kept in front. -/
theorem makeRailPart_appends (ori_prev ori_cur : Orientation α)
    (railOffset tieOffset : Vec3 α) (placeTie : Bool) (m : TrackMesh α) :
    ∃ newRight newLeft newTie : List (Vertex α),
      (makeRailPart ori_prev ori_cur railOffset tieOffset placeTie m).rightRailVertices
        = m.rightRailVertices ++ newRight ∧
      (makeRailPart ori_prev ori_cur railOffset tieOffset placeTie m).leftRailVertices
        = m.leftRailVertices ++ newLeft ∧
      (makeRailPart ori_prev ori_cur railOffset tieOffset placeTie m).tieVertices
        = m.tieVertices ++ newTie ∧
      newRight.length = 8 * 3 ∧ newLeft.length = 8 * 3 ∧
      newTie.length = (if placeTie = true then 12 * 3 else 0) := by
  obtain ⟨hr, hl, ht⟩ := makeRailPart_keeps ori_prev ori_cur railOffset tieOffset placeTie m
  obtain ⟨lr, ll, lt⟩ := makeRailPart_lengths ori_prev ori_cur railOffset tieOffset placeTie m
  obtain ⟨newRight, hr⟩ := hr
  obtain ⟨newLeft, hl⟩ := hl
  obtain ⟨newTie, ht⟩ := ht
  refine ⟨newRight, newLeft, newTie, hr.symm, hl.symm, ht.symm, ?_, ?_, ?_⟩
  · rw [← hr, List.length_append] at lr
    omega
  · rw [← hl, List.length_append] at ll
    omega
  · rw [← ht, List.length_append] at lt
    split_ifs at lt ⊢ <;> omega

end MeshCounts

/-! ## The build loop: frames and mesh totals -/

section ControlPoints

variable {α : Type} [LinearOrderedField α]

theorem accumulatePoints_length (cur : Vec3 α) (pts acc : List (Vec3 α)) :
    (accumulatePoints cur pts acc).length = acc.length + pts.length := by
  induction pts generalizing cur acc with
  | nil => simp [accumulatePoints]
  | cons pt rest ih =>
    simp only [accumulatePoints, ih, List.length_append, List.length_cons, List.length_nil]
    omega

end ControlPoints

section BuildLoop

variable {α : Type} [LinearOrderedField α] [FloorRing α]

/-- Inside `[1, n + 2)` the evaluator reads inside `controlPoints`. -/
theorem get_point_defined (cps : List (Vec3 α)) (s : α) (hn : 3 ≤ cps.length)
    (h1 : 1 ≤ s) (h2 : s < (cps.length : α) + 2) : ∃ p, get_point cps s = some p := by
  have hf1 : (1 : Int) ≤ ⌊s⌋ := by
    rw [Int.le_floor]
    exact_mod_cast h1
  have hf2 : ⌊s⌋ < (cps.length : Int) + 2 := by
    rw [Int.floor_lt]
    push_cast
    exact h2
  obtain ⟨a, b, c, d, _, _, _, _, hw⟩ :=
    get_point_window_eq cps ⌊s⌋ (s - (⌊s⌋ : α)) hn hf1 (by omega)
  exact ⟨_, hw⟩

/-- Entered `j` steps of `0.1` below `n + 2`, the build loop runs exactly `j`
iterations: it stores `j` frames, `24 j` vertices per rail, and one tie of 36
vertices for every odd value the counter passes. -/
theorem create_track_loop_runs (sqrt : α → α) (cps : List (Vec3 α)) (hn : 3 ≤ cps.length)
    (j : Nat) :
    ∀ (s : α) (st : BuildState α), s = (cps.length : α) + 2 - (j : α) / 10 → 2 ≤ s →
      st.placeTie = decide (st.counter % 2 = 1) →
      ∃ st', create_track_loop sqrt cps s st = some st' ∧
        st'.orientations.length = st.orientations.length + j ∧
        st'.mesh.rightRailVertices.length = st.mesh.rightRailVertices.length + 24 * j ∧
        st'.mesh.leftRailVertices.length = st.mesh.leftRailVertices.length + 24 * j ∧
        st'.mesh.tieVertices.length + 36 * (st.counter / 2)
          = st.mesh.tieVertices.length + 36 * ((st.counter + j) / 2) := by
  induction j with
  | zero =>
    intro s st hs _ _
    have hnot : ¬ (s < (cps.length : α) + 2) := by
      rw [hs]
      simp
    refine ⟨st, ?_, by simp, by simp, by simp, by simp⟩
    rw [create_track_loop, if_neg hnot]
  | succ j ih =>
    intro s st hs h2 hinv
    have hj : (0 : α) ≤ (j : α) := Nat.cast_nonneg j
    have hlt : s < (cps.length : α) + 2 := by
      rw [hs]
      push_cast
      linarith
    obtain ⟨origin, ho⟩ := get_point_defined cps s hn (by linarith) hlt
    have hs' : s + 1 / 10 = (cps.length : α) + 2 - (j : α) / 10 := by
      rw [hs]
      push_cast
      ring
    rw [create_track_loop, if_pos hlt, ho]
    simp only
    have hinv' : (create_track_body sqrt origin st).placeTie
        = decide ((create_track_body sqrt origin st).counter % 2 = 1) := by
      by_cases hc : st.counter % 2 = 0
      · have h1 : (st.counter + 1) % 2 = 1 := by omega
        simp [create_track_body, hc, h1]
      · have h1 : ¬ ((st.counter + 1) % 2 = 1) := by omega
        simp [create_track_body, hc, h1]
    obtain ⟨st', hrun, hK, hR, hL, hT⟩ :=
      ih (s + 1 / 10) (create_track_body sqrt origin st) hs' (by linarith) hinv'
    have bK : (create_track_body sqrt origin st).orientations.length
        = st.orientations.length + 1 := by
      simp [create_track_body]
    have bC : (create_track_body sqrt origin st).counter = st.counter + 1 := rfl
    obtain ⟨bR, bL, bT⟩ := makeRailPart_lengths st.ori_prev
      (create_track_body sqrt origin st).ori_prev (⟨2 / 100, 2 / 100, 2 / 100⟩ : Vec3 α)
      (⟨15 / 100, 15 / 100, 15 / 100⟩ : Vec3 α) st.placeTie st.mesh
    have bM : (create_track_body sqrt origin st).mesh
        = makeRailPart st.ori_prev (create_track_body sqrt origin st).ori_prev
            (⟨2 / 100, 2 / 100, 2 / 100⟩ : Vec3 α) (⟨15 / 100, 15 / 100, 15 / 100⟩ : Vec3 α)
            st.placeTie st.mesh := rfl
    rw [bM] at hR hL hT
    rw [bR] at hR
    rw [bL] at hL
    rw [bT, bC, hinv] at hT
    rw [bK] at hK
    refine ⟨st', hrun, by omega, by omega, by omega, ?_⟩
    by_cases hc : st.counter % 2 = 1
    · simp only [hc, decide_True, if_true] at hT
      have e1 : (st.counter + 1) / 2 = st.counter / 2 + 1 := by omega
      have e2 : st.counter + 1 + j = st.counter + (j + 1) := by omega
      rw [e1, e2] at hT
      omega
    · simp only [hc, decide_False] at hT
      have e1 : (st.counter + 1) / 2 = st.counter / 2 := by omega
      have e2 : st.counter + 1 + j = st.counter + (j + 1) := by omega
      rw [e1, e2] at hT
      simpa using hT

/-- On at least three raw points `create_track` completes; it stores `10 n`
frames, 24 vertices per rail and frame, and 36 tie vertices per two frames. -/
theorem create_track_totals (sqrt : α → α) (points : List (Vec3 α)) (hn : 3 ≤ points.length) :
    ∃ t, create_track sqrt points = some t ∧
      t.controlPoints.length = points.length ∧
      t.orientations.length = 10 * points.length ∧
      t.mesh.rightRailVertices.length = 24 * t.orientations.length ∧
      t.mesh.leftRailVertices.length = 24 * t.orientations.length ∧
      t.mesh.tieVertices.length = 36 * (t.orientations.length / 2) := by
  have hlen : (accumulatePoints (⟨0, 0, 0⟩ : Vec3 α) points []).length = points.length := by
    rw [accumulatePoints_length]
    simp
  have hn' : 3 ≤ (accumulatePoints (⟨0, 0, 0⟩ : Vec3 α) points []).length := by omega
  obtain ⟨origin, ho⟩ := get_point_defined
    (accumulatePoints (⟨0, 0, 0⟩ : Vec3 α) points []) (19 / 10) hn' (by norm_num)
    (by
      have : (0 : α) ≤ ((accumulatePoints (⟨0, 0, 0⟩ : Vec3 α) points []).length : α) :=
        Nat.cast_nonneg _
      linarith)
  have hs : (2 : α) = ((accumulatePoints (⟨0, 0, 0⟩ : Vec3 α) points []).length : α) + 2
      - ((10 * points.length : Nat) : α) / 10 := by
    rw [hlen]
    push_cast
    ring
  obtain ⟨st', hrun, hK, hR, hL, hT⟩ := create_track_loop_runs sqrt
    (accumulatePoints (⟨0, 0, 0⟩ : Vec3 α) points []) hn' (10 * points.length) 2
    ⟨⟨⟨1, 0, 0⟩, ⟨0, 1, 0⟩, ⟨0, 0, 1⟩, origin⟩, false, 0, ⟨[], [], []⟩, []⟩ hs (le_refl _)
    (by simp)
  refine ⟨⟨accumulatePoints (⟨0, 0, 0⟩ : Vec3 α) points [], st'.mesh, st'.orientations⟩,
    ?_, hlen, ?_, ?_, ?_, ?_⟩
  · simp only [create_track, ho, hrun]
  · simpa using hK
  · simp only [List.length_nil, Nat.zero_add] at hK hR
    rw [hR, hK]
  · simp only [List.length_nil, Nat.zero_add] at hK hL
    rw [hL, hK]
  · simp only [List.length_nil, Nat.zero_add, Nat.zero_div, Nat.mul_zero, Nat.add_zero] at hK hT
    rw [hT, hK]

/-- C7 (as stated, refuted): on the closed loop of eight control points
`create_track` stores 80 frames and 1920 vertices per rail, not
`16 * 3 * (80 - 1) = 3792`. -/
theorem create_track_loop8_rails_ne_claimed :
    ∃ t, create_track sqrtQ loopOffsets = some t ∧
      t.mesh.rightRailVertices.length ≠ 16 * 3 * (t.orientations.length - 1) ∧
      t.mesh.leftRailVertices.length ≠ 16 * 3 * (t.orientations.length - 1) := by
  obtain ⟨t, ht, _, hK, hR, hL, _⟩ := create_track_totals sqrtQ loopOffsets (by decide)
  have hK' : t.orientations.length = 80 := by
    rw [hK]
    rfl
  refine ⟨t, ht, ?_, ?_⟩
  · rw [hR, hK']
    decide
  · rw [hL, hK']
    decide

/-- C7 (amended): on at least three raw points `create_track` completes, and
with `K = orientations.size()` both `rightRailVertices.size()` and
`leftRailVertices.size()` equal `8 * 3 * K`: one rail part of 8 triangles per
rail for each stored frame, the first one built from the seed frame. -/
theorem create_track_rail_totals (sqrt : α → α) (points : List (Vec3 α))
    (hn : 3 ≤ points.length) :
    ∃ t, create_track sqrt points = some t ∧
      t.mesh.rightRailVertices.length = 8 * 3 * t.orientations.length ∧
      t.mesh.leftRailVertices.length = 8 * 3 * t.orientations.length := by
  obtain ⟨t, ht, _, _, hR, hL, _⟩ := create_track_totals sqrt points hn
  exact ⟨t, ht, by omega, by omega⟩

/-- Witness for C7 (amended), on the closed square. -/
theorem create_track_rail_totals_witness :
    ∃ t, create_track sqrtQ squareOffsets = some t ∧
      t.mesh.rightRailVertices.length = 8 * 3 * t.orientations.length ∧
      t.mesh.leftRailVertices.length = 8 * 3 * t.orientations.length :=
  create_track_rail_totals sqrtQ squareOffsets (by decide)

/-- C8 (as stated, refuted): on the closed loop of eight control points
`create_track` stores 80 frames and 1440 tie vertices, not
`12 * 3 * ((80 - 1) / 2) = 1404`. -/
theorem create_track_loop8_ties_ne_claimed :
    ∃ t, create_track sqrtQ loopOffsets = some t ∧
      t.mesh.tieVertices.length ≠ 12 * 3 * ((t.orientations.length - 1) / 2) := by
  obtain ⟨t, ht, _, hK, _, _, hT⟩ := create_track_totals sqrtQ loopOffsets (by decide)
  have hK' : t.orientations.length = 80 := by
    rw [hK]
    rfl
  refine ⟨t, ht, ?_⟩
  rw [hT, hK']
  decide

/-- C8 (amended): on at least three raw points `create_track` completes, and
with `K = orientations.size()`, `tieVertices.size()` equals
`12 * 3 * floor(K / 2)`: a tie of 12 triangles at every second frame, starting
with the second. -/
theorem create_track_tie_totals (sqrt : α → α) (points : List (Vec3 α))
    (hn : 3 ≤ points.length) :
    ∃ t, create_track sqrt points = some t ∧
      t.mesh.tieVertices.length = 12 * 3 * (t.orientations.length / 2) := by
  obtain ⟨t, ht, _, _, _, _, hT⟩ := create_track_totals sqrt points hn
  exact ⟨t, ht, by omega⟩

/-- Witness for C8 (amended), on the closed square. -/
theorem create_track_tie_totals_witness :
    ∃ t, create_track sqrtQ squareOffsets = some t ∧
      t.mesh.tieVertices.length = 12 * 3 * (t.orientations.length / 2) :=
  create_track_tie_totals sqrtQ squareOffsets (by decide)

end BuildLoop

/-! ## The rail mesh: face normals -/

section FaceNormals

variable {α : Type} [LinearOrderedField α]

theorem Vec3.zero_add_eq (v : Vec3 α) : (⟨0, 0, 0⟩ : Vec3 α) + v = v := by
  show Vec3.add _ _ = _
  ext <;> simp [Vec3.add]

/-- The normals a call of `make_triangle` stores: three copies of the face
normal, in the vector its `object` names. -/
theorem make_triangle_normals (posA posB posC : Vec3 α) (tA tB tC : Vec2 α)
    (flipNormal : Bool) (object : String) (placeTie : Bool) (m : TrackMesh α) :
    (make_triangle posA posB posC tA tB tC flipNormal object placeTie
        m).rightRailVertices.map Vertex.Normal
      = m.rightRailVertices.map Vertex.Normal
        ++ (if object = "right rail"
            then List.replicate 3 (faceNormal posA posB posC flipNormal) else []) ∧
    (make_triangle posA posB posC tA tB tC flipNormal object placeTie
        m).leftRailVertices.map Vertex.Normal
      = m.leftRailVertices.map Vertex.Normal
        ++ (if object = "left rail"
            then List.replicate 3 (faceNormal posA posB posC flipNormal) else []) ∧
    (make_triangle posA posB posC tA tB tC flipNormal object placeTie
        m).tieVertices.map Vertex.Normal
      = m.tieVertices.map Vertex.Normal
        ++ (if object = "tie"
            then List.replicate 3 (faceNormal posA posB posC flipNormal) else []) := by
  unfold make_triangle
  by_cases h1 : object = "right rail" <;> by_cases h2 : object = "left rail" <;>
    by_cases h3 : object = "tie" <;> cases flipNormal <;>
    simp [h1, h2, h3, set_normals, Vertex.fresh, faceNormal, Vec3.zero_add_eq,
      List.replicate]

theorem Vec3.add_x (a b : Vec3 α) : (a + b).x = a.x + b.x := rfl
theorem Vec3.add_y (a b : Vec3 α) : (a + b).y = a.y + b.y := rfl
theorem Vec3.add_z (a b : Vec3 α) : (a + b).z = a.z + b.z := rfl
theorem Vec3.sub_x (a b : Vec3 α) : (a - b).x = a.x - b.x := rfl
theorem Vec3.sub_y (a b : Vec3 α) : (a - b).y = a.y - b.y := rfl
theorem Vec3.sub_z (a b : Vec3 α) : (a - b).z = a.z - b.z := rfl
theorem Vec3.neg_x (a : Vec3 α) : (-a).x = -a.x := rfl
theorem Vec3.neg_y (a : Vec3 α) : (-a).y = -a.y := rfl
theorem Vec3.neg_z (a : Vec3 α) : (-a).z = -a.z := rfl
theorem Vec3.mul_x (a b : Vec3 α) : (a * b).x = a.x * b.x := rfl
theorem Vec3.mul_y (a b : Vec3 α) : (a * b).y = a.y * b.y := rfl
theorem Vec3.mul_z (a b : Vec3 α) : (a * b).z = a.z * b.z := rfl

/-- In an orthonormal pair `Front`, `Up`, the vector `Right = Front × Up`
satisfies `Right × Front = Up`. -/
theorem cross_right_front (F U : Vec3 α) (hFF : dot F F = 1) (hFU : dot F U = 0) :
    cross (cross F U) F = U := by
  simp only [dot] at hFF hFU
  ext
  · simp only [cross]
    linear_combination U.x * hFF - F.x * hFU
  · simp only [cross]
    linear_combination U.y * hFF - F.y * hFU
  · simp only [cross]
    linear_combination U.z * hFF - F.z * hFU

/-- In an orthonormal pair `Front`, `Up`, the vector `Right = Front × Up`
satisfies `Right × Up = -Front`. -/
theorem cross_right_up (F U : Vec3 α) (hUU : dot U U = 1) (hFU : dot F U = 0) :
    cross (cross F U) U = -F := by
  simp only [dot] at hUU hFU
  ext
  · simp only [cross, Vec3.neg_x]
    linear_combination -F.x * hUU + U.x * hFU
  · simp only [cross, Vec3.neg_y]
    linear_combination -F.y * hUU + U.y * hFU
  · simp only [cross, Vec3.neg_z]
    linear_combination -F.z * hUU + U.z * hFU

theorem isPositiveMultipleOf_of_components (v dir : Vec3 α) (c : α) (hc : 0 < c)
    (hx : v.x = dir.x * c) (hy : v.y = dir.y * c) (hz : v.z = dir.z * c) :
    IsPositiveMultipleOf v dir :=
  ⟨c, hc, by ext <;> simp [Vec3.scale, hx, hy, hz]⟩

/-- One pass of the `railNum` loop appends its 24 normals to the vector its
`railType` names and leaves the normals of the other vectors alone. -/
theorem makeRailPart_rail_normals (ori_prev ori_cur : Orientation α)
    (railOffset leftRightOffset : Vec3 α) (railType : String) (placeTie : Bool)
    (m : TrackMesh α) :
    (makeRailPart_rail ori_prev ori_cur railOffset leftRightOffset railType placeTie
        m).rightRailVertices.map Vertex.Normal
      = m.rightRailVertices.map Vertex.Normal
        ++ (if railType = "right rail"
            then railFaceNormals ori_prev ori_cur railOffset leftRightOffset else []) ∧
    (makeRailPart_rail ori_prev ori_cur railOffset leftRightOffset railType placeTie
        m).leftRailVertices.map Vertex.Normal
      = m.leftRailVertices.map Vertex.Normal
        ++ (if railType = "left rail"
            then railFaceNormals ori_prev ori_cur railOffset leftRightOffset else []) ∧
    (makeRailPart_rail ori_prev ori_cur railOffset leftRightOffset railType placeTie
        m).tieVertices.map Vertex.Normal
      = m.tieVertices.map Vertex.Normal
        ++ (if railType = "tie"
            then railFaceNormals ori_prev ori_cur railOffset leftRightOffset else []) := by
  simp only [railFaceNormals, makeRailPart_rail, make_triangle_normals, if_true,
    List.map_nil, List.nil_append, List.append_assoc]
  refine ⟨?_, ?_, ?_⟩ <;> split_ifs <;> simp

/-- The tie block appends its 36 normals to `tieVertices` and leaves the
normals of the rails alone. -/
theorem makeRailPart_tie_normals (ori_cur : Orientation α) (railOffset tieOffset : Vec3 α)
    (placeTie : Bool) (m : TrackMesh α) :
    (makeRailPart_tie ori_cur railOffset tieOffset placeTie m).rightRailVertices.map
        Vertex.Normal = m.rightRailVertices.map Vertex.Normal ∧
    (makeRailPart_tie ori_cur railOffset tieOffset placeTie m).leftRailVertices.map
        Vertex.Normal = m.leftRailVertices.map Vertex.Normal ∧
    (makeRailPart_tie ori_cur railOffset tieOffset placeTie m).tieVertices.map Vertex.Normal
      = m.tieVertices.map Vertex.Normal ++ tieFaceNormals ori_cur railOffset tieOffset := by
  have h1 : ¬ ("tie" = "right rail") := by decide
  have h2 : ¬ ("tie" = "left rail") := by decide
  simp only [tieFaceNormals, makeRailPart_tie, make_triangle_normals, h1, h2, if_true,
    if_false, List.map_nil, List.nil_append, List.append_nil, List.append_assoc]
  simp

set_option maxHeartbeats 2000000 in
/-- Over a straight segment of an orthonormal right-handed frame the eight
triangles of a rail pass carry outward normals. -/
theorem railFaceNormals_outward (o F U R lr : Vec3 α) (d : α) (hd : 0 < d)
    (hFF : dot F F = 1) (hFU : dot F U = 0) (hR : R = cross F U) :
    List.Forall₂ IsPositiveMultipleOf
      (railFaceNormals ⟨F, U, R, o⟩ ⟨F, U, R, o + F.scale d⟩ ⟨2 / 100, 2 / 100, 2 / 100⟩ lr)
      (railOutward U R) := by
  have hRF := cross_right_front F U hFF hFU
  rw [← hR] at hRF
  have hRFx := congrArg Vec3.x hRF
  have hRFy := congrArg Vec3.y hRF
  have hRFz := congrArg Vec3.z hRF
  have hFUx := congrArg Vec3.x hR
  have hFUy := congrArg Vec3.y hR
  have hFUz := congrArg Vec3.z hR
  simp only [cross] at hRFx hRFy hRFz hFUx hFUy hFUz
  have dRFx := congrArg (fun t => d * t) hRFx
  have dRFy := congrArg (fun t => d * t) hRFy
  have dRFz := congrArg (fun t => d * t) hRFz
  have dFUx := congrArg (fun t => d * t) hFUx
  have dFUy := congrArg (fun t => d * t) hFUy
  have dFUz := congrArg (fun t => d * t) hFUz
  simp only at dRFx dRFy dRFz dFUx dFUy dFUz
  clear hR hRF hFF hFU
  simp only [railFaceNormals, makeRailPart_rail, make_triangle_normals, if_true,
    List.map_nil, List.nil_append, List.append_assoc]
  simp only [railOutward, List.replicate, List.cons_append, List.nil_append,
    List.forall₂_cons, List.forall₂_nil_left_iff, and_true]
  have hc : 0 < 4 / 100 * d := by positivity
  refine ⟨?t1, ?t1, ?t1, ?t2, ?t2, ?t2, ?b1, ?b1, ?b1, ?b2, ?b2, ?b2, ?l1, ?l1, ?l1,
    ?l2, ?l2, ?l2, ?r1, ?r1, ?r1, ?r2, ?r2, ?r2⟩ <;>
    refine isPositiveMultipleOf_of_components _ _ (4 / 100 * d) hc ?_ ?_ ?_ <;>
    simp only [faceNormal, Bool.false_eq_true, if_false, if_true, cross, Vec3.add_x,
      Vec3.add_y, Vec3.add_z, Vec3.sub_x, Vec3.sub_y, Vec3.sub_z, Vec3.neg_x, Vec3.neg_y,
      Vec3.neg_z, Vec3.mul_x, Vec3.mul_y, Vec3.mul_z, Vec3.scale]
  iterate 2
    (linear_combination (4 / 100) * dRFx
     linear_combination (4 / 100) * dRFy
     linear_combination (4 / 100) * dRFz)
  iterate 2
    (linear_combination (-(4 / 100)) * dRFx
     linear_combination (-(4 / 100)) * dRFy
     linear_combination (-(4 / 100)) * dRFz)
  iterate 2
    (linear_combination (4 / 100) * dFUx
     linear_combination (4 / 100) * dFUy
     linear_combination (4 / 100) * dFUz)
  iterate 2
    (linear_combination (-(4 / 100)) * dFUx
     linear_combination (-(4 / 100)) * dFUy
     linear_combination (-(4 / 100)) * dFUz)

set_option maxHeartbeats 2000000 in
/-- On an orthonormal right-handed frame the twelve triangles of a tie carry
outward normals. -/
theorem tieFaceNormals_outward (c F U R : Vec3 α)
    (hFF : dot F F = 1) (hUU : dot U U = 1) (hFU : dot F U = 0) (hR : R = cross F U) :
    List.Forall₂ IsPositiveMultipleOf
      (tieFaceNormals ⟨F, U, R, c⟩ ⟨2 / 100, 2 / 100, 2 / 100⟩ ⟨15 / 100, 15 / 100, 15 / 100⟩)
      (tieOutward F U R) := by
  have hRF := cross_right_front F U hFF hFU
  have hRU := cross_right_up F U hUU hFU
  rw [← hR] at hRF hRU
  have hRFx := congrArg Vec3.x hRF
  have hRFy := congrArg Vec3.y hRF
  have hRFz := congrArg Vec3.z hRF
  have hRUx := congrArg Vec3.x hRU
  have hRUy := congrArg Vec3.y hRU
  have hRUz := congrArg Vec3.z hRU
  have hFUx := congrArg Vec3.x hR
  have hFUy := congrArg Vec3.y hR
  have hFUz := congrArg Vec3.z hR
  simp only [cross, Vec3.neg_x, Vec3.neg_y, Vec3.neg_z] at hRFx hRFy hRFz hRUx hRUy hRUz
  simp only [cross] at hFUx hFUy hFUz
  clear hR hRF hRU hFF hUU hFU
  have h1 : ¬ ("tie" = "right rail") := by decide
  have h2 : ¬ ("tie" = "left rail") := by decide
  simp only [tieFaceNormals, makeRailPart_tie, make_triangle_normals, h1, h2, if_true,
    if_false, List.map_nil, List.nil_append, List.append_nil, List.append_assoc]
  simp only [tieOutward, List.replicate, List.cons_append, List.nil_append,
    List.forall₂_cons, List.forall₂_nil_left_iff, and_true]
  have hc1 : (0 : α) < 6 / 1000 := by norm_num
  have hc2 : (0 : α) < 6 / 10000 := by norm_num
  have hc3 : (0 : α) < 9 / 1000 := by norm_num
  refine ⟨?t1, ?t1, ?t1, ?t2, ?t2, ?t2, ?b1, ?b1, ?b1, ?b2, ?b2, ?b2, ?r1, ?r1, ?r1,
    ?r2, ?r2, ?r2, ?l1, ?l1, ?l1, ?l2, ?l2, ?l2, ?f1, ?f1, ?f1, ?f2, ?f2, ?f2,
    ?k1, ?k1, ?k1, ?k2, ?k2, ?k2⟩
  case t1 | t2 =>
    refine isPositiveMultipleOf_of_components _ _ (6 / 1000) hc1 ?_ ?_ ?_ <;>
      simp only [faceNormal, Bool.false_eq_true, if_false, if_true, cross, Vec3.add_x,
      Vec3.add_y, Vec3.add_z, Vec3.sub_x, Vec3.sub_y, Vec3.sub_z, Vec3.neg_x, Vec3.neg_y,
      Vec3.neg_z, Vec3.mul_x, Vec3.mul_y, Vec3.mul_z, Vec3.scale]
    · linear_combination (6 / 1000) * hRFx
    · linear_combination (6 / 1000) * hRFy
    · linear_combination (6 / 1000) * hRFz
  case b1 | b2 =>
    refine isPositiveMultipleOf_of_components _ _ (6 / 1000) hc1 ?_ ?_ ?_ <;>
      simp only [faceNormal, Bool.false_eq_true, if_false, if_true, cross, Vec3.add_x,
      Vec3.add_y, Vec3.add_z, Vec3.sub_x, Vec3.sub_y, Vec3.sub_z, Vec3.neg_x, Vec3.neg_y,
      Vec3.neg_z, Vec3.mul_x, Vec3.mul_y, Vec3.mul_z, Vec3.scale]
    · linear_combination (-(6 / 1000)) * hRFx
    · linear_combination (-(6 / 1000)) * hRFy
    · linear_combination (-(6 / 1000)) * hRFz
  case r1 | r2 =>
    refine isPositiveMultipleOf_of_components _ _ (6 / 10000) hc2 ?_ ?_ ?_ <;>
      simp only [faceNormal, Bool.false_eq_true, if_false, if_true, cross, Vec3.add_x,
      Vec3.add_y, Vec3.add_z, Vec3.sub_x, Vec3.sub_y, Vec3.sub_z, Vec3.neg_x, Vec3.neg_y,
      Vec3.neg_z, Vec3.mul_x, Vec3.mul_y, Vec3.mul_z, Vec3.scale]
    · linear_combination (-(6 / 10000)) * hFUx
    · linear_combination (-(6 / 10000)) * hFUy
    · linear_combination (-(6 / 10000)) * hFUz
  case l1 | l2 =>
    refine isPositiveMultipleOf_of_components _ _ (6 / 10000) hc2 ?_ ?_ ?_ <;>
      simp only [faceNormal, Bool.false_eq_true, if_false, if_true, cross, Vec3.add_x,
      Vec3.add_y, Vec3.add_z, Vec3.sub_x, Vec3.sub_y, Vec3.sub_z, Vec3.neg_x, Vec3.neg_y,
      Vec3.neg_z, Vec3.mul_x, Vec3.mul_y, Vec3.mul_z, Vec3.scale]
    · linear_combination (6 / 10000) * hFUx
    · linear_combination (6 / 10000) * hFUy
    · linear_combination (6 / 10000) * hFUz
  case f1 | f2 =>
    refine isPositiveMultipleOf_of_components _ _ (9 / 1000) hc3 ?_ ?_ ?_ <;>
      simp only [faceNormal, Bool.false_eq_true, if_false, if_true, cross, Vec3.add_x,
      Vec3.add_y, Vec3.add_z, Vec3.sub_x, Vec3.sub_y, Vec3.sub_z, Vec3.neg_x, Vec3.neg_y,
      Vec3.neg_z, Vec3.mul_x, Vec3.mul_y, Vec3.mul_z, Vec3.scale]
    · linear_combination (-(9 / 1000)) * hRUx
    · linear_combination (-(9 / 1000)) * hRUy
    · linear_combination (-(9 / 1000)) * hRUz
  case k1 | k2 =>
    refine isPositiveMultipleOf_of_components _ _ (9 / 1000) hc3 ?_ ?_ ?_ <;>
      simp only [faceNormal, Bool.false_eq_true, if_false, if_true, cross, Vec3.add_x,
      Vec3.add_y, Vec3.add_z, Vec3.sub_x, Vec3.sub_y, Vec3.sub_z, Vec3.neg_x, Vec3.neg_y,
      Vec3.neg_z, Vec3.mul_x, Vec3.mul_y, Vec3.mul_z, Vec3.scale]
    · linear_combination (9 / 1000) * hRUx
    · linear_combination (9 / 1000) * hRUy
    · linear_combination (9 / 1000) * hRUz

/-- The normals `makeRailPart` appends: the 24 of each rail pass, and the 36
of the tie when `placeTie` is set. -/
theorem makeRailPart_normals (ori_prev ori_cur : Orientation α)
    (railOffset tieOffset : Vec3 α) (placeTie : Bool) (m : TrackMesh α) :
    ((makeRailPart ori_prev ori_cur railOffset tieOffset placeTie m).rightRailVertices.drop
        m.rightRailVertices.length).map Vertex.Normal
      = railFaceNormals ori_prev ori_cur railOffset ⟨1 / 10, 1 / 10, 1 / 10⟩ ∧
    ((makeRailPart ori_prev ori_cur railOffset tieOffset placeTie m).leftRailVertices.drop
        m.leftRailVertices.length).map Vertex.Normal
      = railFaceNormals ori_prev ori_cur railOffset ⟨-(1 / 10), -(1 / 10), -(1 / 10)⟩ ∧
    ((makeRailPart ori_prev ori_cur railOffset tieOffset placeTie m).tieVertices.drop
        m.tieVertices.length).map Vertex.Normal
      = if placeTie = true then tieFaceNormals ori_cur railOffset tieOffset else [] := by
  have h1 : ¬ ("right rail" = "left rail") := by decide
  have h2 : ¬ ("left rail" = "right rail") := by decide
  have h3 : ¬ ("right rail" = "tie") := by decide
  have h4 : ¬ ("left rail" = "tie") := by decide
  have hdrop : ∀ (l : List (Vertex α)) (xs ys : List (Vec3 α)),
      xs = l.map Vertex.Normal ++ ys → List.drop l.length xs = ys := by
    intro l xs ys h
    rw [h]
    exact List.drop_left' (by simp)
  rw [makeRailPart_unfold]
  cases placeTie
  · simp only [Bool.false_eq_true, if_false, List.map_drop]
    refine ⟨hdrop _ _ _ ?_, hdrop _ _ _ ?_, hdrop _ _ _ ?_⟩
    · rw [(makeRailPart_rail_normals _ _ _ _ _ _ _).1, (makeRailPart_rail_normals _ _ _ _ _ _ _).1]
      simp [h2]
    · rw [(makeRailPart_rail_normals _ _ _ _ _ _ _).2.1,
        (makeRailPart_rail_normals _ _ _ _ _ _ _).2.1]
      simp [h1]
    · rw [(makeRailPart_rail_normals _ _ _ _ _ _ _).2.2,
        (makeRailPart_rail_normals _ _ _ _ _ _ _).2.2]
      simp [h3, h4]
  · simp only [if_true, List.map_drop]
    refine ⟨hdrop _ _ _ ?_, hdrop _ _ _ ?_, hdrop _ _ _ ?_⟩
    · rw [(makeRailPart_tie_normals _ _ _ _ _).1, (makeRailPart_rail_normals _ _ _ _ _ _ _).1,
        (makeRailPart_rail_normals _ _ _ _ _ _ _).1]
      simp [h2]
    · rw [(makeRailPart_tie_normals _ _ _ _ _).2.1,
        (makeRailPart_rail_normals _ _ _ _ _ _ _).2.1,
        (makeRailPart_rail_normals _ _ _ _ _ _ _).2.1]
      simp [h1]
    · rw [(makeRailPart_tie_normals _ _ _ _ _).2.2,
        (makeRailPart_rail_normals _ _ _ _ _ _ _).2.2,
        (makeRailPart_rail_normals _ _ _ _ _ _ _).2.2]
      simp [h3, h4]

/-- C10: for a segment whose previous and current frames share one
orthonormal basis with `Right = Front × Up` and `cur.origin = prev.origin +
d * Front`, `d > 0`, every vertex `makeRailPart` appends (with the offsets of
`create_track`) stores a normal that is a strictly positive multiple of the
outward direction of its face: per rail top `+Up`, bottom `-Up`, 'left'
`-Right`, 'right' `+Right`; with `placeTie` set, tie top `+Up`, bottom `-Up`,
right `+Right`, left `-Right`, front `+Front`, back `-Front`. -/
theorem makeRailPart_normals_outward (o F U R : Vec3 α) (d : α) (placeTie : Bool)
    (m : TrackMesh α) (hd : 0 < d) (hFF : dot F F = 1) (hUU : dot U U = 1)
    (hFU : dot F U = 0) (hR : R = cross F U) :
    List.Forall₂ IsPositiveMultipleOf
      (((makeRailPart ⟨F, U, R, o⟩ ⟨F, U, R, o + F.scale d⟩ ⟨2 / 100, 2 / 100, 2 / 100⟩
          ⟨15 / 100, 15 / 100, 15 / 100⟩ placeTie m).rightRailVertices.drop
        m.rightRailVertices.length).map Vertex.Normal)
      (railOutward U R) ∧
    List.Forall₂ IsPositiveMultipleOf
      (((makeRailPart ⟨F, U, R, o⟩ ⟨F, U, R, o + F.scale d⟩ ⟨2 / 100, 2 / 100, 2 / 100⟩
          ⟨15 / 100, 15 / 100, 15 / 100⟩ placeTie m).leftRailVertices.drop
        m.leftRailVertices.length).map Vertex.Normal)
      (railOutward U R) ∧
    (placeTie = true →
      List.Forall₂ IsPositiveMultipleOf
        (((makeRailPart ⟨F, U, R, o⟩ ⟨F, U, R, o + F.scale d⟩ ⟨2 / 100, 2 / 100, 2 / 100⟩
            ⟨15 / 100, 15 / 100, 15 / 100⟩ placeTie m).tieVertices.drop
          m.tieVertices.length).map Vertex.Normal)
        (tieOutward F U R)) := by
  obtain ⟨hr, hl, ht⟩ := makeRailPart_normals (⟨F, U, R, o⟩ : Orientation α)
    ⟨F, U, R, o + F.scale d⟩ ⟨2 / 100, 2 / 100, 2 / 100⟩ ⟨15 / 100, 15 / 100, 15 / 100⟩
    placeTie m
  refine ⟨?_, ?_, ?_⟩
  · rw [hr]
    exact railFaceNormals_outward o F U R _ d hd hFF hFU hR
  · rw [hl]
    exact railFaceNormals_outward o F U R _ d hd hFF hFU hR
  · intro hp
    rw [ht, if_pos hp]
    exact tieFaceNormals_outward (o + F.scale d) F U R hFF hUU hFU hR

/-- Witness for C10: the axis-aligned frame of the seed, a step of length 1
along `Front`, on an empty mesh. -/
theorem makeRailPart_normals_outward_witness :
    List.Forall₂ IsPositiveMultipleOf
      (((makeRailPart (⟨⟨1, 0, 0⟩, ⟨0, 1, 0⟩, ⟨0, 0, 1⟩, ⟨0, 0, 0⟩⟩ : Orientation ℚ)
          ⟨⟨1, 0, 0⟩, ⟨0, 1, 0⟩, ⟨0, 0, 1⟩, (⟨0, 0, 0⟩ : Vec3 ℚ) + Vec3.scale ⟨1, 0, 0⟩ 1⟩
          ⟨2 / 100, 2 / 100, 2 / 100⟩ ⟨15 / 100, 15 / 100, 15 / 100⟩ true
          ⟨[], [], []⟩).rightRailVertices.drop
        (⟨[], [], []⟩ : TrackMesh ℚ).rightRailVertices.length).map Vertex.Normal)
      (railOutward ⟨0, 1, 0⟩ ⟨0, 0, 1⟩) ∧
    List.Forall₂ IsPositiveMultipleOf
      (((makeRailPart (⟨⟨1, 0, 0⟩, ⟨0, 1, 0⟩, ⟨0, 0, 1⟩, ⟨0, 0, 0⟩⟩ : Orientation ℚ)
          ⟨⟨1, 0, 0⟩, ⟨0, 1, 0⟩, ⟨0, 0, 1⟩, (⟨0, 0, 0⟩ : Vec3 ℚ) + Vec3.scale ⟨1, 0, 0⟩ 1⟩
          ⟨2 / 100, 2 / 100, 2 / 100⟩ ⟨15 / 100, 15 / 100, 15 / 100⟩ true
          ⟨[], [], []⟩).leftRailVertices.drop
        (⟨[], [], []⟩ : TrackMesh ℚ).leftRailVertices.length).map Vertex.Normal)
      (railOutward ⟨0, 1, 0⟩ ⟨0, 0, 1⟩) ∧
    (true = true →
      List.Forall₂ IsPositiveMultipleOf
        (((makeRailPart (⟨⟨1, 0, 0⟩, ⟨0, 1, 0⟩, ⟨0, 0, 1⟩, ⟨0, 0, 0⟩⟩ : Orientation ℚ)
            ⟨⟨1, 0, 0⟩, ⟨0, 1, 0⟩, ⟨0, 0, 1⟩, (⟨0, 0, 0⟩ : Vec3 ℚ) + Vec3.scale ⟨1, 0, 0⟩ 1⟩
            ⟨2 / 100, 2 / 100, 2 / 100⟩ ⟨15 / 100, 15 / 100, 15 / 100⟩ true
            ⟨[], [], []⟩).tieVertices.drop
          (⟨[], [], []⟩ : TrackMesh ℚ).tieVertices.length).map Vertex.Normal)
        (tieOutward ⟨1, 0, 0⟩ ⟨0, 1, 0⟩ ⟨0, 0, 1⟩)) :=
  makeRailPart_normals_outward ⟨0, 0, 0⟩ ⟨1, 0, 0⟩ ⟨0, 1, 0⟩ ⟨0, 0, 1⟩ 1 true ⟨[], [], []⟩
    (by norm_num) (by norm_num [dot]) (by norm_num [dot]) (by norm_num [dot])
    (by simp [cross])

end FaceNormals

/-! ## Steps, times and chains -/

section StepLemmas

variable {α : Type} [LinearOrderedField α]

theorem advance_in_range (n : Nat) (s : α) (hn : 1 ≤ n) (h1 : 2 ≤ s) (_h2 : s < (n : α) + 2) :
    2 ≤ advance n s ∧ advance n s < (n : α) + 2 := by
  have hn' : (1 : α) ≤ (n : α) := by exact_mod_cast hn
  unfold advance
  simp only
  split_ifs with h
  · constructor <;> linarith
  · constructor <;> linarith

theorem addTime_degenerate (pt : Option α) (d : α) (velocity : Option α)
    (hv : velocity = none ∨ velocity = some 0) : addTime pt d velocity = none := by
  rcases hv with h | h <;> subst h <;> cases pt <;> simp [addTime]

/-- At or above `hmax` the velocity is undefined (above) or zero (at). -/
theorem velocityOf_at_or_above (sqrt : α → α) (hmax h : α) (hs0 : sqrt 0 = 0)
    (hh : hmax ≤ h) :
    (hmax < h → velocityOf sqrt hmax h = none) ∧
    (hmax = h → velocityOf sqrt hmax h = some 0) ∧
    (velocityOf sqrt hmax h = none ∨ velocityOf sqrt hmax h = some 0) := by
  have hlt : hmax < h → velocityOf sqrt hmax h = none := by
    intro hl
    have : ¬ (0 ≤ velocityArg hmax h) := by
      unfold velocityArg
      linarith
    simp [velocityOf, this]
  have heq : hmax = h → velocityOf sqrt hmax h = some 0 := by
    intro he
    have : velocityArg hmax h = 0 := by
      unfold velocityArg
      rw [he]
      ring
    simp [velocityOf, this, hs0]
  refine ⟨hlt, heq, ?_⟩
  rcases lt_or_eq_of_le hh with hl | he
  · exact Or.inl (hlt hl)
  · exact Or.inr (heq he)

/-- In a frame chain every frame is propagated from its predecessor in the
list that starts with the seed. -/
theorem IsFrameChain.propagated (sqrt : α → α) (frames : List (Orientation α)) :
    ∀ (first : Orientation α), IsFrameChain sqrt first frames →
      ∀ (i : Nat) (prev cur : Orientation α), (first :: frames)[i]? = some prev →
        frames[i]? = some cur → cur = propagateFrame sqrt prev cur.origin := by
  induction frames with
  | nil =>
    intro first _ i prev cur _ hcur
    simp at hcur
  | cons f rest ih =>
    intro first hchain i prev cur hprev hcur
    obtain ⟨hf, hrest⟩ := hchain
    cases i with
    | zero =>
      simp only [List.getElem?_cons_zero, Option.some.injEq] at hprev hcur
      subst hprev
      subst hcur
      exact hf
    | succ i =>
      rw [List.getElem?_cons_succ] at hprev hcur
      exact ih f hrest i prev cur hprev hcur

theorem advance_iterate_in_range (n : Nat) (s : α) (hn : 1 ≤ n) (h1 : 2 ≤ s)
    (h2 : s < (n : α) + 2) (k : Nat) :
    2 ≤ (advance n)^[k] s ∧ (advance n)^[k] s < (n : α) + 2 := by
  induction k with
  | zero => exact ⟨h1, h2⟩
  | succ k ih =>
    rw [Function.iterate_succ_apply']
    exact advance_in_range n _ hn ih.1 ih.2

end StepLemmas
/-! ## The camera: height bound, frame lookup and toggle -/

section CameraBasics

variable {α : Type} [LinearOrderedField α] [FloorRing α]

/-- C11 (the code at the failing input): on two frames of heights `1` and
`6/5` the scan returns `hmax = 3/2`, while the highest frame height plus the
clearance is `6/5 + 1/2 = 17/10`: the second frame is compared with the
running `hmax`, which already holds the clearance of the first. -/
theorem hmaxOf_misses_higher_frame :
    hmaxOf [seedFrame (⟨0, 1, 0⟩ : Vec3 ℚ), seedFrame ⟨1, 6 / 5, 0⟩] = 3 / 2 ∧
    max (seedFrame (⟨0, 1, 0⟩ : Vec3 ℚ)).origin.y (seedFrame (⟨1, 6 / 5, 0⟩ : Vec3 ℚ)).origin.y
      + 1 / 2 = 17 / 10 := by
  constructor
  · norm_num [hmaxOf, seedFrame]
  · norm_num [seedFrame]

/-- Bounds of the frame lookup of `ProcessTrackMovement` on a table of `10 n`
frames. -/
theorem frameIndex_bounds (n : Nat) (orientations : List (Orientation α)) (s : α)
    (hn : 1 ≤ n) (hK : orientations.length = 10 * n) (h1 : 2 ≤ s) (h2 : s < (n : α) + 2) :
    (0 ≤ frameIndex s ∧ frameIndex s < (orientations.length : Int)) ∧
    (0 ≤ (frameIndex s + 1) % (orientations.length : Int) ∧
      (frameIndex s + 1) % (orientations.length : Int) < (orientations.length : Int)) ∧
    (0 ≤ frameBlend s ∧ frameBlend s < 1) ∧
    (frameAt orientations (frameIndex s)).isSome = true ∧
    (frameAt orientations
      ((frameIndex s + 1) % (orientations.length : Int))).isSome = true := by
  have hKpos : (0 : Int) < (orientations.length : Int) := by omega
  have hi0 : 0 ≤ frameIndex s := by
    unfold frameIndex
    rw [Int.le_floor]
    push_cast
    linarith
  have hi1 : frameIndex s < (orientations.length : Int) := by
    unfold frameIndex
    rw [Int.floor_lt, hK]
    push_cast
    linarith
  have hm0 : 0 ≤ (frameIndex s + 1) % (orientations.length : Int) :=
    Int.emod_nonneg _ (by omega)
  have hm1 : (frameIndex s + 1) % (orientations.length : Int) < (orientations.length : Int) :=
    Int.emod_lt_of_pos _ hKpos
  have hb0 : 0 ≤ frameBlend s := by
    unfold frameBlend frameIndex
    linarith [Int.floor_le ((s - 2) * 10)]
  have hb1 : frameBlend s < 1 := by
    unfold frameBlend frameIndex
    linarith [Int.lt_floor_add_one ((s - 2) * 10)]
  have look : ∀ i : Int, 0 ≤ i → i < (orientations.length : Int) →
      (frameAt orientations i).isSome = true := by
    intro i h0 hlt
    have hlt' : i.toNat < orientations.length := by omega
    simp [frameAt, h0, List.getElem?_eq_getElem hlt']
  exact ⟨⟨hi0, hi1⟩, ⟨hm0, hm1⟩, ⟨hb0, hb1⟩, look _ hi0 hi1, look _ hm0 hm1⟩

/-- C18: for `n ≥ 1` control points, a frame table of `K = 10 n` frames and
`2 ≤ s < n + 2`, the index `floor((s - 2) * 10)` lies in `[0, K)`, its
successor modulo `K` lies in `[0, K)`, the blend lies in `[0, 1)`, and both
`orientations.at` lookups succeed. -/
theorem frame_lookup_in_range (n : Nat) (orientations : List (Orientation α)) (s : α)
    (hn : 1 ≤ n) (hK : orientations.length = 10 * n) (h1 : 2 ≤ s) (h2 : s < (n : α) + 2) :
    (0 ≤ frameIndex s ∧ frameIndex s < (orientations.length : Int)) ∧
    (0 ≤ (frameIndex s + 1) % (orientations.length : Int) ∧
      (frameIndex s + 1) % (orientations.length : Int) < (orientations.length : Int)) ∧
    (0 ≤ frameBlend s ∧ frameBlend s < 1) ∧
    (frameAt orientations (frameIndex s)).isSome = true ∧
    (frameAt orientations
      ((frameIndex s + 1) % (orientations.length : Int))).isSome = true :=
  frameIndex_bounds n orientations s hn hK h1 h2

/-- Witness for C18: one control point, ten frames, `s = 29/10` (the last
frame, whose successor wraps to the first). -/
theorem frame_lookup_in_range_witness :
    (0 ≤ frameIndex (29 / 10 : ℚ) ∧
      frameIndex (29 / 10 : ℚ)
        < ((List.replicate 10 (seedFrame (⟨0, 0, 0⟩ : Vec3 ℚ))).length : Int)) ∧
    (0 ≤ (frameIndex (29 / 10 : ℚ) + 1)
        % ((List.replicate 10 (seedFrame (⟨0, 0, 0⟩ : Vec3 ℚ))).length : Int) ∧
      (frameIndex (29 / 10 : ℚ) + 1)
        % ((List.replicate 10 (seedFrame (⟨0, 0, 0⟩ : Vec3 ℚ))).length : Int)
        < ((List.replicate 10 (seedFrame (⟨0, 0, 0⟩ : Vec3 ℚ))).length : Int)) ∧
    (0 ≤ frameBlend (29 / 10 : ℚ) ∧ frameBlend (29 / 10 : ℚ) < 1) ∧
    (frameAt (List.replicate 10 (seedFrame (⟨0, 0, 0⟩ : Vec3 ℚ)))
      (frameIndex (29 / 10 : ℚ))).isSome = true ∧
    (frameAt (List.replicate 10 (seedFrame (⟨0, 0, 0⟩ : Vec3 ℚ)))
      ((frameIndex (29 / 10 : ℚ) + 1)
        % ((List.replicate 10 (seedFrame (⟨0, 0, 0⟩ : Vec3 ℚ))).length : Int))).isSome = true :=
  frame_lookup_in_range 1 (List.replicate 10 (seedFrame (⟨0, 0, 0⟩ : Vec3 ℚ))) (29 / 10)
    (by decide) (by simp) (by norm_num) (by norm_num)

end CameraBasics

section Toggle

variable {α : Type}

theorem processInput_onTrack (key : Bool) (cam : Camera α) :
    (processInput key cam).onTrack
      = (if (!cam.tPressed && key) = true then !cam.onTrack else cam.onTrack) ∧
    (processInput key cam).tPressed = key := by
  cases key <;> cases h1 : cam.tPressed <;> cases h2 : cam.onTrack <;>
    simp [processInput, h1, h2]

theorem processInput_fold_onTrack (keys : List Bool) :
    ∀ cam : Camera α,
      (keys.foldl (fun c k => processInput k c) cam).onTrack
        = (if risingEdges cam.tPressed keys % 2 = 1 then !cam.onTrack else cam.onTrack) := by
  induction keys with
  | nil => intro cam; simp [risingEdges]
  | cons key rest ih =>
    intro cam
    rw [List.foldl_cons, ih (processInput key cam), (processInput_onTrack key cam).1,
      (processInput_onTrack key cam).2]
    simp only [risingEdges]
    by_cases he : (!cam.tPressed && key) = true
    · simp only [he, if_true]
      by_cases hp : risingEdges key rest % 2 = 1
      · have h2 : ¬ ((1 + risingEdges key rest) % 2 = 1) := by omega
        simp [hp, h2]
      · have h2 : (1 + risingEdges key rest) % 2 = 1 := by omega
        simp [hp, h2]
    · simp only [he, if_false, Nat.zero_add]
      simp

theorem risingEdges_held (k : Nat) : risingEdges false (List.replicate (k + 1) true) = 1 := by
  have held : ∀ j : Nat, risingEdges true (List.replicate j true) = 0 := by
    intro j
    induction j with
    | zero => simp [risingEdges]
    | succ j ih => simp [List.replicate_succ, risingEdges, ih]
  simp [List.replicate_succ, risingEdges, held]

/-- C20: the toggle of `processInput` flips `onTrack` exactly when the key is
pressed now and `tPressed` was false, and sets `tPressed` to the current key
state; over any sequence of samples the final `onTrack` is the initial one
flipped once per press edge; a key held over `k + 1` consecutive samples after
a released one flips it once; and the check inside a micro-step of
`ProcessTrackMovement`, which runs with `onTrack` set, acts the same way. -/
theorem processInput_edge_triggered (cam : Camera α) :
    (∀ key : Bool,
      (processInput key cam).onTrack
        = (if (!cam.tPressed && key) = true then !cam.onTrack else cam.onTrack) ∧
      (processInput key cam).tPressed = key) ∧
    (∀ keys : List Bool,
      (keys.foldl (fun c k => processInput k c) cam).onTrack
        = (if risingEdges cam.tPressed keys % 2 = 1 then !cam.onTrack else cam.onTrack)) ∧
    (∀ k : Nat,
      ((List.replicate (k + 1) true).foldl (fun c k => processInput k c)
        { cam with tPressed := false }).onTrack = !cam.onTrack) ∧
    (∀ key : Bool,
      (trackPoll key { cam with onTrack := true }).onTrack
        = (processInput key { cam with onTrack := true }).onTrack ∧
      (trackPoll key { cam with onTrack := true }).tPressed
        = (processInput key { cam with onTrack := true }).tPressed) := by
  refine ⟨fun key => processInput_onTrack key cam,
    fun keys => processInput_fold_onTrack keys cam, ?_, ?_⟩
  · intro k
    rw [processInput_fold_onTrack]
    simp [risingEdges_held]
  · intro key
    cases key <;> cases h1 : cam.tPressed <;> simp [processInput, trackPoll, h1]

end Toggle

/-! ## The micro-step loop -/

section MicroSteps

variable {α : Type} [LinearOrderedField α] [FloorRing α]

/-- A micro-step that sees a press edge returns at once. -/
theorem trackLoop_toggle (sqrt : α → α) (cps : List (Vec3 α)) (deltaTime : α)
    (velocity : Option α) (fuel : Nat) (keys : Nat → Bool) (st : MoveState α)
    (ht : timeLeft st.passed_time deltaTime = true) (hp : st.tPressed = false)
    (hk : keys 0 = true) :
    trackLoop sqrt cps deltaTime velocity (fuel + 1) keys st
      = .toggled { st with tPressed := true, tCurPressed := true } := by
  simp [trackLoop, ht, hp, hk]

/-- A micro-step that sees no press edge advances `s`, moves to the new point
and adds the time of the step. -/
theorem trackLoop_step (sqrt : α → α) (cps : List (Vec3 α)) (deltaTime : α)
    (velocity : Option α) (fuel : Nat) (keys : Nat → Bool) (st : MoveState α) (p : Vec3 α)
    (ht : timeLeft st.passed_time deltaTime = true)
    (hk : (!st.tPressed && keys 0) = false)
    (hp : get_point cps (advance cps.length st.s) = some p) :
    trackLoop sqrt cps deltaTime velocity (fuel + 1) keys st
      = trackLoop sqrt cps deltaTime velocity fuel (fun k => keys (k + 1))
          ⟨advance cps.length st.s, p,
            addTime st.passed_time (length sqrt (p - st.currentPos)) velocity,
            keys 0, keys 0⟩ := by
  rw [trackLoop]
  simp only [ht, if_true, hk, hp]
  simp

/-- The loop ends as soon as the loop condition fails. -/
theorem trackLoop_done (sqrt : α → α) (cps : List (Vec3 α)) (deltaTime : α)
    (velocity : Option α) (fuel : Nat) (keys : Nat → Bool) (st : MoveState α)
    (ht : timeLeft st.passed_time deltaTime = false) :
    trackLoop sqrt cps deltaTime velocity fuel keys st = .finished st := by
  cases fuel <;> simp [trackLoop, ht]

/-- With a velocity that is zero or undefined the loop ends after exactly one
micro-step, `passed_time` being no finite number from then on. -/
theorem trackLoop_degenerate (sqrt : α → α) (cps : List (Vec3 α)) (deltaTime : α)
    (velocity : Option α) (fuel : Nat) (keys : Nat → Bool) (st : MoveState α) (p : Vec3 α)
    (hv : velocity = none ∨ velocity = some 0)
    (ht : timeLeft st.passed_time deltaTime = true)
    (hk : (!st.tPressed && keys 0) = false)
    (hp : get_point cps (advance cps.length st.s) = some p) :
    trackLoop sqrt cps deltaTime velocity (fuel + 1) keys st
      = .finished ⟨advance cps.length st.s, p, none, keys 0, keys 0⟩ := by
  rw [trackLoop_step sqrt cps deltaTime velocity fuel keys st p ht hk hp,
    addTime_degenerate _ _ _ hv]
  exact trackLoop_done _ _ _ _ _ _ _ rfl

/-- When the loop ends by its condition after at least one micro-step, the
current position is the curve point at the final `s`. -/
theorem trackLoop_finished_on_curve (sqrt : α → α) (cps : List (Vec3 α)) (deltaTime : α)
    (velocity : Option α) (fuel : Nat) :
    ∀ (keys : Nat → Bool) (st st' : MoveState α),
      trackLoop sqrt cps deltaTime velocity fuel keys st = .finished st' →
      timeLeft st.passed_time deltaTime = true →
      get_point cps st'.s = some st'.currentPos := by
  induction fuel with
  | zero =>
    intro keys st st' h ht
    simp [trackLoop, ht] at h
  | succ fuel ih =>
    intro keys st st' h ht
    by_cases hk : (!st.tPressed && keys 0) = true
    · simp [trackLoop, ht, hk] at h
    · have hk' : (!st.tPressed && keys 0) = false := by simpa using hk
      cases hp : get_point cps (advance cps.length st.s) with
      | none =>
        rw [trackLoop] at h
        simp only [ht, if_true, hk', hp] at h
        simp at h
      | some p =>
        rw [trackLoop_step sqrt cps deltaTime velocity fuel keys st p ht hk' hp] at h
        by_cases ht' : timeLeft
            (addTime st.passed_time (length sqrt (p - st.currentPos)) velocity) deltaTime = true
        · exact ih _ _ _ h ht'
        · have ht'' : timeLeft
              (addTime st.passed_time (length sqrt (p - st.currentPos)) velocity) deltaTime
              = false := by simpa using ht'
          rw [trackLoop_done _ _ _ _ _ _ _ ht''] at h
          cases h
          exact hp

end MicroSteps

/-! ## Scenarios on concrete tracks -/

section Scenarios

theorem sqrtQ_mul_self (r : ℚ) (hr : 0 ≤ r) : sqrtQ (r * r) = r := by
  unfold sqrtQ
  rw [Rat.mul_self_num, Rat.mul_self_den]
  have hnum : 0 ≤ r.num := Rat.num_nonneg.mpr hr
  obtain ⟨m, hm⟩ := Int.eq_ofNat_of_zero_le hnum
  have e : (r.num * r.num).toNat = m * m := by
    rw [hm]
    exact_mod_cast Int.toNat_natCast (m * m)
  rw [e, Nat.sqrt_eq, Nat.sqrt_eq]
  have h2 : ((m : ℤ) : ℚ) / (r.den : ℚ) = r := by
    rw [← hm]
    exact Rat.num_div_den r
  rw [Int.cast_natCast] at h2
  exact h2

theorem sqrtQ_nonneg (x : ℚ) : 0 ≤ sqrtQ x := by
  unfold sqrtQ
  positivity

theorem sqrtQ_zero : sqrtQ 0 = 0 := by
  have h := sqrtQ_mul_self 0 (le_refl _)
  simpa using h

/-- On the line track the curve is `(s - 2, 0, 0)` for `2 ≤ s < 3`. -/
theorem lineTrack_get_point (s : ℚ) (h1 : 2 ≤ s) (h2 : s < 3) :
    get_point lineTrack.controlPoints s = some ⟨s - 2, 0, 0⟩ := by
  have hf : ⌊s⌋ = 2 := by
    rw [Int.floor_eq_iff]
    constructor
    · exact_mod_cast h1
    · push_cast
      linarith
  unfold get_point
  rw [hf]
  simp only [get_point_window, resolveIndices, controlPointAt, lineTrack]
  norm_num
  ext <;> simp [interpolate, Mat4x3.mulMat, Mat4x3.mulVec]
  ring

theorem lineTrack_hmax : hmaxOf lineTrack.orientations = 1 := by
  norm_num [hmaxOf, lineTrack, seedFrame, frameWithUp, List.replicate]

end Scenarios

section CameraClaims

variable {α : Type} [LinearOrderedField α] [FloorRing α]

/-- C13: when the micro-step starting in the loop state `st` observes a press
edge (`tPressed` false, the key pressed now), the loop returns at once with
`s`, the position and the passed time as they were before that micro-step; and
a call whose loop returns so ends with `onTrack = false`, that `s`, and
`Position`, `Front`, `Up` and `Right` untouched. -/
theorem toggle_leaves_s (sqrt : α → α) (deltaTime : α) (track : Track α) (fuel : Nat)
    (keys : Nat → Bool) (cam : Camera α) (st : MoveState α)
    (ht : timeLeft st.passed_time deltaTime = true) (hp : st.tPressed = false)
    (hk : keys 0 = true) :
    (∃ st', trackLoop sqrt track.controlPoints deltaTime
          (velocityOf sqrt (hmaxOf track.orientations)
            (cam.Position - cam.Up.divScalar (375 / 100)).y) (fuel + 1) keys st
        = .toggled st' ∧
      st'.s = st.s ∧ st'.currentPos = st.currentPos ∧ st'.passed_time = st.passed_time) ∧
    (∀ (fuel' : Nat) (keys' : Nat → Bool) (st' : MoveState α),
      trackLoop sqrt track.controlPoints deltaTime
          (velocityOf sqrt (hmaxOf track.orientations)
            (cam.Position - cam.Up.divScalar (375 / 100)).y) fuel' keys'
          ⟨cam.s, cam.Position - cam.Up.divScalar (375 / 100), some 0, cam.tPressed,
            cam.tCurPressed⟩
        = .toggled st' →
      ∃ cam', ProcessTrackMovement sqrt fuel' deltaTime track keys' cam = .done cam' ∧
        cam'.onTrack = false ∧ cam'.s = st'.s ∧ cam'.Position = cam.Position ∧
        cam'.Front = cam.Front ∧ cam'.Up = cam.Up ∧ cam'.Right = cam.Right) := by
  constructor
  · exact ⟨_, trackLoop_toggle sqrt _ deltaTime _ fuel keys st ht hp hk, rfl, rfl, rfl⟩
  · intro fuel' keys' st' h
    refine ⟨{ cam with s := st'.s, onTrack := false, tPressed := st'.tPressed,
                       tCurPressed := st'.tCurPressed }, ?_, rfl, rfl, rfl, rfl, rfl, rfl⟩
    simp only [ProcessTrackMovement, h]

/-- Witness for C13: the very first micro-step of a call on the line track,
with the key already down at the first poll. -/
theorem toggle_leaves_s_witness :
    (∃ st', trackLoop sqrtQ lineTrack.controlPoints (1 : ℚ)
          (velocityOf sqrtQ (hmaxOf lineTrack.orientations)
            ((cameraAt ⟨0, 4 / 15, 0⟩).Position
              - (cameraAt ⟨0, 4 / 15, 0⟩).Up.divScalar (375 / 100)).y) (0 + 1)
          (fun _ => true) ⟨2, ⟨0, 0, 0⟩, some 0, false, false⟩
        = .toggled st' ∧
      st'.s = (⟨2, ⟨0, 0, 0⟩, some 0, false, false⟩ : MoveState ℚ).s ∧
      st'.currentPos = (⟨2, ⟨0, 0, 0⟩, some 0, false, false⟩ : MoveState ℚ).currentPos ∧
      st'.passed_time = (⟨2, ⟨0, 0, 0⟩, some 0, false, false⟩ : MoveState ℚ).passed_time) :=
  (toggle_leaves_s sqrtQ 1 lineTrack 0 (fun _ => true) (cameraAt ⟨0, 4 / 15, 0⟩)
    ⟨2, ⟨0, 0, 0⟩, some 0, false, false⟩ (by simp [timeLeft]) rfl rfl).1

end CameraClaims

section VelocityClaims

variable {α : Type} [LinearOrderedField α] [FloorRing α]

/-- C12 (as stated, refuted): for the upright camera at height 2 over the
line track, whose `hmax` is 1, the velocity is the square root of a negative
number: nothing clamps `hmax - h`. -/
theorem velocity_undefined_above_hmax :
    velocityArg (hmaxOf lineTrack.orientations)
        ((cameraAt ⟨0, 2, 0⟩).Position - (cameraAt ⟨0, 2, 0⟩).Up.divScalar (375 / 100)).y < 0 ∧
    velocityOf sqrtQ (hmaxOf lineTrack.orientations)
        ((cameraAt ⟨0, 2, 0⟩).Position - (cameraAt ⟨0, 2, 0⟩).Up.divScalar (375 / 100)).y
      = none := by
  have e : ((cameraAt ⟨0, 2, 0⟩).Position
      - (cameraAt ⟨0, 2, 0⟩).Up.divScalar (375 / 100)).y = 26 / 15 := by
    show (2 : ℚ) - 1 / (375 / 100) = 26 / 15
    norm_num
  rw [e, lineTrack_hmax]
  constructor
  · norm_num [velocityArg]
  · norm_num [velocityOf, velocityArg]

/-- C12 (amended): `ProcessTrackMovement` does not clamp `hmax - h`.  For a
camera height above `hmax` the velocity is undefined (the square root of a
negative number), at `hmax` it is zero and `passed_time += distance / velocity`
divides by zero; in both cases `passed_time` is no finite number after the
first micro-step, so on a track of `n ≥ 3` control points and `10 n` frames,
with `2 ≤ s < n + 2`, `deltaTime > 0` and no press edge at the first poll, the
call completes after exactly one micro-step. -/
theorem velocity_unguarded (sqrt : α → α) (fuel : Nat) (deltaTime : α) (track : Track α)
    (keys : Nat → Bool) (cam : Camera α) (hs0 : sqrt 0 = 0)
    (hn : 3 ≤ track.controlPoints.length)
    (hK : track.orientations.length = 10 * track.controlPoints.length)
    (h1 : 2 ≤ cam.s) (h2 : cam.s < (track.controlPoints.length : α) + 2)
    (hd : 0 < deltaTime) (hk : (!cam.tPressed && keys 0) = false)
    (hh : hmaxOf track.orientations ≤ (cam.Position - cam.Up.divScalar (375 / 100)).y) :
    (hmaxOf track.orientations < (cam.Position - cam.Up.divScalar (375 / 100)).y →
      velocityOf sqrt (hmaxOf track.orientations)
        (cam.Position - cam.Up.divScalar (375 / 100)).y = none) ∧
    (hmaxOf track.orientations = (cam.Position - cam.Up.divScalar (375 / 100)).y →
      velocityOf sqrt (hmaxOf track.orientations)
        (cam.Position - cam.Up.divScalar (375 / 100)).y = some 0) ∧
    (∃ p, get_point track.controlPoints (advance track.controlPoints.length cam.s) = some p ∧
      trackLoop sqrt track.controlPoints deltaTime
          (velocityOf sqrt (hmaxOf track.orientations)
            (cam.Position - cam.Up.divScalar (375 / 100)).y) (fuel + 1) keys
          ⟨cam.s, cam.Position - cam.Up.divScalar (375 / 100), some 0, cam.tPressed,
            cam.tCurPressed⟩
        = .finished ⟨advance track.controlPoints.length cam.s, p, none, keys 0, keys 0⟩) ∧
    (∃ cam', ProcessTrackMovement sqrt (fuel + 1) deltaTime track keys cam = .done cam' ∧
      cam'.s = advance track.controlPoints.length cam.s ∧ cam'.onTrack = cam.onTrack) := by
  obtain ⟨hlt, heq, hv⟩ := velocityOf_at_or_above sqrt (hmaxOf track.orientations)
    (cam.Position - cam.Up.divScalar (375 / 100)).y hs0 hh
  obtain ⟨r1, r2⟩ := advance_in_range track.controlPoints.length cam.s (by omega) h1 h2
  obtain ⟨p, hp⟩ := get_point_defined track.controlPoints
    (advance track.controlPoints.length cam.s) hn (by linarith) r2
  have hloop := trackLoop_degenerate sqrt track.controlPoints deltaTime _ fuel keys
    ⟨cam.s, cam.Position - cam.Up.divScalar (375 / 100), some 0, cam.tPressed,
      cam.tCurPressed⟩ p hv (by simp [timeLeft, hd]) hk hp
  refine ⟨hlt, heq, ⟨p, hp, hloop⟩, ?_⟩
  obtain ⟨_, _, _, l1, l2⟩ := frameIndex_bounds track.controlPoints.length track.orientations
    (advance track.controlPoints.length cam.s) (by omega) hK r1 r2
  obtain ⟨f1, hf1⟩ := Option.isSome_iff_exists.mp l1
  obtain ⟨f2, hf2⟩ := Option.isSome_iff_exists.mp l2
  simp only [ProcessTrackMovement, hloop, hf1, hf2]
  exact ⟨_, rfl, rfl, rfl⟩

/-- Witness for C12 (amended): the upright camera at height 2 over the line
track, whose `hmax` is 1. -/
theorem velocity_unguarded_witness :
    (∃ cam', ProcessTrackMovement sqrtQ (0 + 1) (1 : ℚ) lineTrack (fun _ => false)
        (cameraAt ⟨0, 2, 0⟩) = .done cam' ∧
      cam'.s = advance lineTrack.controlPoints.length (cameraAt ⟨0, 2, 0⟩).s ∧
      cam'.onTrack = (cameraAt ⟨0, 2, 0⟩).onTrack) :=
  (velocity_unguarded sqrtQ 0 1 lineTrack (fun _ => false) (cameraAt ⟨0, 2, 0⟩) sqrtQ_zero
    (by decide) (by simp [lineTrack]) (by norm_num [cameraAt])
    (by norm_num [cameraAt, lineTrack]) (by norm_num) (by simp [cameraAt])
    (by
      rw [lineTrack_hmax]
      show (1 : ℚ) ≤ 2 - 1 / (375 / 100)
      norm_num)).2.2.2

end VelocityClaims

section PositionClaims

variable {α : Type} [LinearOrderedField α] [FloorRing α]

/-- C19 (what the code does): after a call that completes without a toggle and
performs at least one micro-step, `Position` is `get_point(s)` plus the offset
`Up / 3.75` of the `Up` the camera had before the call (`cameraOffset` is
computed once, before `Up` is blended), while `carPosition` takes its offset
`Up / 5` from the blended `Up`. -/
theorem position_offset_from_previous_up (sqrt : α → α) (fuel : Nat) (deltaTime : α)
    (track : Track α) (keys : Nat → Bool) (cam cam' : Camera α) (p : Vec3 α)
    (hcall : ProcessTrackMovement sqrt fuel deltaTime track keys cam = .done cam')
    (hon : cam'.onTrack = true) (hd : 0 < deltaTime)
    (hp : get_point track.controlPoints cam'.s = some p) :
    cam'.Position = p + cam.Up.divScalar (375 / 100) ∧
    cam'.carPosition
      = p + cam.Up.divScalar (375 / 100) - cam.Up.divScalar (375 / 100)
        + cam'.Up.divScalar 5 := by
  unfold ProcessTrackMovement at hcall
  simp only at hcall
  cases hloop : trackLoop sqrt track.controlPoints deltaTime
      (velocityOf sqrt (hmaxOf track.orientations)
        (cam.Position - cam.Up.divScalar (375 / 100)).y) fuel keys
      ⟨cam.s, cam.Position - cam.Up.divScalar (375 / 100), some 0, cam.tPressed,
        cam.tCurPressed⟩ with
  | outOfFuel => rw [hloop] at hcall; cases hcall
  | outOfRange => rw [hloop] at hcall; cases hcall
  | toggled st =>
    rw [hloop] at hcall
    simp only [CallResult.done.injEq] at hcall
    rw [← hcall] at hon
    simp at hon
  | finished st =>
    have hcurve := trackLoop_finished_on_curve sqrt track.controlPoints deltaTime _ fuel keys
      _ st hloop (by simp [timeLeft, hd])
    rw [hloop] at hcall
    simp only at hcall
    cases h1 : frameAt track.orientations (frameIndex st.s) with
    | none => simp [h1] at hcall
    | some ori_prev =>
      cases h2 : frameAt track.orientations
          ((frameIndex st.s + 1) % (track.orientations.length : Int)) with
      | none => simp [h1, h2] at hcall
      | some ori_next =>
        simp only [h1, h2, CallResult.done.injEq] at hcall
        subst hcall
        simp only at hp
        rw [hcurve] at hp
        cases hp
        exact ⟨rfl, rfl⟩

/-- The result of a call whose loop ends by its condition in the state `st`,
with both frame lookups succeeding. -/
theorem ProcessTrackMovement_finished (sqrt : α → α) (fuel : Nat) (deltaTime : α)
    (track : Track α) (keys : Nat → Bool) (cam : Camera α) (st : MoveState α)
    (ori_prev ori_next : Orientation α)
    (hloop : trackLoop sqrt track.controlPoints deltaTime
        (velocityOf sqrt (hmaxOf track.orientations)
          (cam.Position - cam.Up.divScalar (375 / 100)).y) fuel keys
        ⟨cam.s, cam.Position - cam.Up.divScalar (375 / 100), some 0, cam.tPressed,
          cam.tCurPressed⟩ = .finished st)
    (h1 : frameAt track.orientations (frameIndex st.s) = some ori_prev)
    (h2 : frameAt track.orientations
        ((frameIndex st.s + 1) % (track.orientations.length : Int)) = some ori_next) :
    ∃ cam', ProcessTrackMovement sqrt fuel deltaTime track keys cam = .done cam' ∧
      cam'.onTrack = cam.onTrack ∧ cam'.s = st.s ∧
      cam'.Up = ori_prev.Up.scale (1 - frameBlend st.s) + ori_next.Up.scale (frameBlend st.s) ∧
      cam'.Position = st.currentPos + cam.Up.divScalar (375 / 100) := by
  simp only [ProcessTrackMovement, hloop, h1, h2]
  exact ⟨_, rfl, rfl, rfl, rfl, rfl⟩

end PositionClaims

section RideScenario

/-- One tick on the line track: the upright camera at the start of the curve,
`hmax = 1`, velocity 2, and a `deltaTime` that the first micro-step of length
`1/1000` uses up. -/
theorem lineTrack_ride :
    ∃ cam', ProcessTrackMovement sqrtQ 1 (1 / 2000 : ℚ) lineTrack (fun _ => false)
        (cameraAt ⟨0, 4 / 15, 0⟩) = .done cam' ∧
      cam'.onTrack = true ∧ cam'.s = 2001 / 1000 ∧ cam'.Up = ⟨0, 99 / 100, 1 / 100⟩ := by
  have hoff : (cameraAt ⟨0, 4 / 15, 0⟩).Position
      - (cameraAt ⟨0, 4 / 15, 0⟩).Up.divScalar (375 / 100) = (⟨0, 0, 0⟩ : Vec3 ℚ) := by
    show Vec3.sub _ _ = _
    ext <;> norm_num [cameraAt, Vec3.sub, Vec3.divScalar]
  have hvel : velocityOf sqrtQ (1 : ℚ) 0 = some 2 := by
    have h4 : velocityArg (1 : ℚ) 0 = 2 * 2 := by norm_num [velocityArg]
    have h0 : (0 : ℚ) ≤ 2 * 2 := by norm_num
    simp only [velocityOf, h4, h0, if_true, sqrtQ_mul_self 2 (by norm_num)]
  have hadv : advance lineTrack.controlPoints.length (2 : ℚ) = 2001 / 1000 := by
    norm_num [advance, lineTrack]
  have hpt : get_point lineTrack.controlPoints (2001 / 1000 : ℚ) = some ⟨1 / 1000, 0, 0⟩ := by
    rw [lineTrack_get_point _ (by norm_num) (by norm_num)]
    norm_num
  have hlen : length sqrtQ ((⟨1 / 1000, 0, 0⟩ : Vec3 ℚ) - ⟨0, 0, 0⟩) = 1 / 1000 := by
    have hdot : dot ((⟨1 / 1000, 0, 0⟩ : Vec3 ℚ) - ⟨0, 0, 0⟩)
        ((⟨1 / 1000, 0, 0⟩ : Vec3 ℚ) - ⟨0, 0, 0⟩) = (1 / 1000) * (1 / 1000) := by
      show dot (Vec3.sub _ _) (Vec3.sub _ _) = _
      norm_num [dot, Vec3.sub]
    rw [length, hdot, sqrtQ_mul_self _ (by norm_num)]
  have hloop : trackLoop sqrtQ lineTrack.controlPoints (1 / 2000 : ℚ) (some 2) 1
      (fun _ => false) ⟨2, ⟨0, 0, 0⟩, some 0, false, false⟩
      = .finished ⟨2001 / 1000, ⟨1 / 1000, 0, 0⟩, some (1 / 2000), false, false⟩ := by
    rw [trackLoop_step sqrtQ _ _ _ 0 _ _ ⟨1 / 1000, 0, 0⟩ (by simp [timeLeft]) (by simp)
      (by rw [hadv]; exact hpt)]
    simp only [hadv, hlen]
    have ht : addTime (some (0 : ℚ)) (1 / 1000) (some 2) = some (1 / 2000) := by
      norm_num [addTime]
    rw [ht]
    exact trackLoop_done _ _ _ _ _ _ _ (by simp [timeLeft])
  have hidx : frameIndex (2001 / 1000 : ℚ) = 0 := by
    unfold frameIndex
    rw [Int.floor_eq_iff]
    constructor <;> norm_num
  have hblend : frameBlend (2001 / 1000 : ℚ) = 1 / 100 := by
    unfold frameBlend
    rw [hidx]
    norm_num
  have hf0 : frameAt lineTrack.orientations (frameIndex (2001 / 1000 : ℚ))
      = some (seedFrame ⟨0, 0, 0⟩) := by
    rw [hidx]
    simp [frameAt, lineTrack]
  have hf1 : frameAt lineTrack.orientations
      ((frameIndex (2001 / 1000 : ℚ) + 1) % (lineTrack.orientations.length : Int))
      = some (frameWithUp ⟨0, 0, 1⟩ ⟨1 / 10, 1 / 2, 0⟩) := by
    have hK : (lineTrack.orientations.length : Int) = 60 := by simp [lineTrack]
    rw [hidx, hK]
    simp [frameAt, lineTrack, List.replicate]
  have hloop' : trackLoop sqrtQ lineTrack.controlPoints (1 / 2000 : ℚ)
      (velocityOf sqrtQ (hmaxOf lineTrack.orientations)
        ((cameraAt ⟨0, 4 / 15, 0⟩).Position
          - (cameraAt ⟨0, 4 / 15, 0⟩).Up.divScalar (375 / 100)).y) 1 (fun _ => false)
      ⟨(cameraAt ⟨0, 4 / 15, 0⟩).s,
        (cameraAt ⟨0, 4 / 15, 0⟩).Position
          - (cameraAt ⟨0, 4 / 15, 0⟩).Up.divScalar (375 / 100), some 0,
        (cameraAt ⟨0, 4 / 15, 0⟩).tPressed, (cameraAt ⟨0, 4 / 15, 0⟩).tCurPressed⟩
      = .finished ⟨2001 / 1000, ⟨1 / 1000, 0, 0⟩, some (1 / 2000), false, false⟩ := by
    rw [hoff, lineTrack_hmax, hvel]
    exact hloop
  obtain ⟨cam', hcall, hon, hs, hup, _⟩ := ProcessTrackMovement_finished sqrtQ 1 (1 / 2000)
    lineTrack (fun _ => false) (cameraAt ⟨0, 4 / 15, 0⟩) _ _ _ hloop' hf0 hf1
  refine ⟨cam', hcall, hon, hs, ?_⟩
  rw [hup]
  simp only [hblend]
  show Vec3.add _ _ = _
  ext <;> norm_num [Vec3.add, Vec3.scale, seedFrame, frameWithUp]

/-- Witness for C19: one tick on the line track from `s = 2`; the call ends at
`s = 2.001` with the blended `Up = (0, 0.99, 0.01)`, and `Position` is
`get_point(2.001)` plus the offset of the earlier `Up = (0, 1, 0)`, which is
not `get_point(2.001)` plus the offset of the blended `Up`. -/
theorem position_offset_from_previous_up_witness :
    ∃ cam' p, ProcessTrackMovement sqrtQ 1 (1 / 2000 : ℚ) lineTrack (fun _ => false)
        (cameraAt ⟨0, 4 / 15, 0⟩) = .done cam' ∧
      get_point lineTrack.controlPoints cam'.s = some p ∧
      cam'.Up = ⟨0, 99 / 100, 1 / 100⟩ ∧
      cam'.Position = p + (cameraAt ⟨0, 4 / 15, 0⟩).Up.divScalar (375 / 100) ∧
      cam'.Position ≠ p + cam'.Up.divScalar (375 / 100) := by
  obtain ⟨cam', hcall, hon, hs, hup⟩ := lineTrack_ride
  have hp : get_point lineTrack.controlPoints cam'.s = some ⟨1 / 1000, 0, 0⟩ := by
    rw [hs, lineTrack_get_point _ (by norm_num) (by norm_num)]
    norm_num
  have h := position_offset_from_previous_up sqrtQ 1 (1 / 2000) lineTrack (fun _ => false)
    (cameraAt ⟨0, 4 / 15, 0⟩) cam' ⟨1 / 1000, 0, 0⟩ hcall hon (by norm_num) hp
  refine ⟨cam', _, hcall, hp, hup, h.1, ?_⟩
  rw [h.1, hup]
  intro hne
  have hz := congrArg Vec3.z hne
  have hz' : (0 : ℚ) + 0 / (375 / 100) = 0 + (1 / 100) / (375 / 100) := hz
  norm_num at hz'

end RideScenario

section Termination

variable {α : Type} [LinearOrderedField α] [FloorRing α]

/-- With a positive velocity, once the camera is on the curve, `m` further
micro-steps of length at least `δ` use up the time that is left. -/
theorem trackLoop_ends_within (sqrt : α → α) (cps : List (Vec3 α)) (deltaTime v δ s0 : α)
    (N : Nat) (hn : 3 ≤ cps.length) (h1 : 2 ≤ s0) (h2 : s0 < (cps.length : α) + 2)
    (hv : 0 < v)
    (hstep : ∀ k : Nat, 1 ≤ k → k ≤ N → ∀ p q : Vec3 α,
      get_point cps ((advance cps.length)^[k] s0) = some p →
      get_point cps ((advance cps.length)^[k + 1] s0) = some q →
      δ ≤ length sqrt (q - p)) (m : Nat) :
    ∀ (j : Nat) (keys : Nat → Bool) (st : MoveState α) (t : α) (fuel : Nat),
      1 ≤ j → j + m ≤ N + 1 → st.s = (advance cps.length)^[j] s0 →
      get_point cps st.s = some st.currentPos → st.passed_time = some t →
      deltaTime ≤ t + (m : α) * (δ / v) → m ≤ fuel →
      (trackLoop sqrt cps deltaTime (some v) fuel keys st).ended = true := by
  induction m with
  | zero =>
    intro j keys st t fuel _ _ _ _ hpt hle _
    have ht : timeLeft st.passed_time deltaTime = false := by
      rw [hpt]
      simp only [timeLeft, decide_eq_false_iff_not, not_lt]
      simpa using hle
    rw [trackLoop_done _ _ _ _ _ _ _ ht]
    rfl
  | succ m ih =>
    intro j keys st t fuel hj hjm hs hcur hpt hle hfuel
    by_cases ht : timeLeft st.passed_time deltaTime = true
    · obtain ⟨fuel', rfl⟩ : ∃ f, fuel = f + 1 := ⟨fuel - 1, by omega⟩
      by_cases hk : (!st.tPressed && keys 0) = true
      · simp [trackLoop, ht, hk, LoopResult.ended]
      · have hk' : (!st.tPressed && keys 0) = false := by simpa using hk
        obtain ⟨r1, r2⟩ := advance_iterate_in_range cps.length s0 (by omega) h1 h2 (j + 1)
        have hs' : advance cps.length st.s = (advance cps.length)^[j + 1] s0 := by
          rw [Function.iterate_succ_apply', hs]
        obtain ⟨q, hq⟩ := get_point_defined cps (advance cps.length st.s) hn
          (by rw [hs']; linarith) (by rw [hs']; exact r2)
        rw [trackLoop_step sqrt cps deltaTime (some v) fuel' keys st q ht hk' hq]
        have hd : δ ≤ length sqrt (q - st.currentPos) :=
          hstep j hj (by omega) st.currentPos q (by rw [← hs]; exact hcur)
            (by rw [← hs']; exact hq)
        have hadd : addTime st.passed_time (length sqrt (q - st.currentPos)) (some v)
            = some (t + length sqrt (q - st.currentPos) / v) := by
          rw [hpt]
          simp [addTime, ne_of_gt hv]
        rw [hadd]
        refine ih (j + 1) _ _ (t + length sqrt (q - st.currentPos) / v) fuel' (by omega)
          (by omega) hs' hq rfl ?_ (by omega)
        have hdv : δ / v ≤ length sqrt (q - st.currentPos) / v :=
          div_le_div_of_nonneg_right hd (le_of_lt hv)
        push_cast at hle
        linarith
    · have ht' : timeLeft st.passed_time deltaTime = false := by simpa using ht
      rw [trackLoop_done _ _ _ _ _ _ _ ht']
      rfl

/-- C14 (amended): on a track of `n ≥ 3` control points, entered with
`2 ≤ s < n + 2` and `passed_time = 0`, the micro-step loop ends (by its
condition or by the toggle) after at most one micro-step when the velocity is
zero or undefined, and, for a velocity `v > 0`, within `N + 1` micro-steps
whenever each of the `N` micro-steps after the first moves the point by at
least `δ` and `N * δ ≥ v * deltaTime`.  The loop has no bound of its own. -/
theorem trackLoop_terminates (sqrt : α → α) (cps : List (Vec3 α)) (deltaTime : α)
    (keys : Nat → Bool) (st : MoveState α) (hn : 3 ≤ cps.length) (h1 : 2 ≤ st.s)
    (h2 : st.s < (cps.length : α) + 2) (h0 : st.passed_time = some 0) :
    (∀ (velocity : Option α) (fuel : Nat), velocity = none ∨ velocity = some 0 → 1 ≤ fuel →
      (trackLoop sqrt cps deltaTime velocity fuel keys st).ended = true) ∧
    (∀ (v δ : α) (N fuel : Nat), 0 < v → (∀ x : α, 0 ≤ sqrt x) →
      deltaTime * v ≤ (N : α) * δ →
      (∀ k : Nat, 1 ≤ k → k ≤ N → ∀ p q : Vec3 α,
        get_point cps ((advance cps.length)^[k] st.s) = some p →
        get_point cps ((advance cps.length)^[k + 1] st.s) = some q →
        δ ≤ length sqrt (q - p)) →
      N + 1 ≤ fuel →
      (trackLoop sqrt cps deltaTime (some v) fuel keys st).ended = true) := by
  obtain ⟨r1, r2⟩ := advance_in_range cps.length st.s (by omega) h1 h2
  obtain ⟨q, hq⟩ := get_point_defined cps (advance cps.length st.s) hn (by linarith) r2
  constructor
  · intro velocity fuel hv hfuel
    obtain ⟨fuel', rfl⟩ : ∃ f, fuel = f + 1 := ⟨fuel - 1, by omega⟩
    by_cases ht : timeLeft st.passed_time deltaTime = true
    · by_cases hk : (!st.tPressed && keys 0) = true
      · simp [trackLoop, ht, hk, LoopResult.ended]
      · have hk' : (!st.tPressed && keys 0) = false := by simpa using hk
        rw [trackLoop_degenerate sqrt cps deltaTime velocity fuel' keys st q hv ht hk' hq]
        rfl
    · have ht' : timeLeft st.passed_time deltaTime = false := by simpa using ht
      rw [trackLoop_done _ _ _ _ _ _ _ ht']
      rfl
  · intro v δ N fuel hv hsq hN hstep hfuel
    obtain ⟨fuel', rfl⟩ : ∃ f, fuel = f + 1 := ⟨fuel - 1, by omega⟩
    by_cases ht : timeLeft st.passed_time deltaTime = true
    · by_cases hk : (!st.tPressed && keys 0) = true
      · simp [trackLoop, ht, hk, LoopResult.ended]
      · have hk' : (!st.tPressed && keys 0) = false := by simpa using hk
        rw [trackLoop_step sqrt cps deltaTime (some v) fuel' keys st q ht hk' hq]
        have hadd : addTime st.passed_time (length sqrt (q - st.currentPos)) (some v)
            = some (0 + length sqrt (q - st.currentPos) / v) := by
          rw [h0]
          simp [addTime, ne_of_gt hv]
        rw [hadd]
        refine trackLoop_ends_within sqrt cps deltaTime v δ st.s N hn h1 h2 hv hstep N 1 _ _
          (0 + length sqrt (q - st.currentPos) / v) fuel' (le_refl _) (by omega) rfl hq rfl
          ?_ (by omega)
        have hd0 : 0 ≤ length sqrt (q - st.currentPos) / v :=
          div_nonneg (hsq _) (le_of_lt hv)
        have hdiv : deltaTime ≤ (N : α) * (δ / v) := by
          rw [← mul_div_assoc, le_div_iff₀ hv]
          exact hN
        linarith
    · have ht' : timeLeft st.passed_time deltaTime = false := by simpa using ht
      rw [trackLoop_done _ _ _ _ _ _ _ ht']
      rfl

end Termination

section TerminationScenarios

theorem controlPointAt_mem {α : Type} (cps : List (Vec3 α)) (i : Int) (p : Vec3 α)
    (h : controlPointAt cps i = some p) : p ∈ cps := by
  unfold controlPointAt at h
  split_ifs at h
  exact List.getElem?_mem h

/-- On the point track the curve is the origin throughout. -/
theorem pointTrack_get_point (s : ℚ) (h1 : 1 ≤ s) (h2 : s < 5) :
    get_point pointTrack.controlPoints s = some ⟨0, 0, 0⟩ := by
  have hf1 : (1 : Int) ≤ ⌊s⌋ := by
    rw [Int.le_floor]
    exact_mod_cast h1
  have hf2 : ⌊s⌋ < 5 := by
    rw [Int.floor_lt]
    exact_mod_cast h2
  have hlen : pointTrack.controlPoints.length = 3 := rfl
  obtain ⟨a, b, c, d, ha, hb, hc, hd, hw⟩ :=
    get_point_window_eq pointTrack.controlPoints ⌊s⌋ (s - (⌊s⌋ : ℚ)) (by decide) hf1
      (by rw [hlen]; omega)
  have zero : ∀ p : Vec3 ℚ, p ∈ pointTrack.controlPoints → p = ⟨0, 0, 0⟩ := by
    intro p hp
    simpa [pointTrack] using hp
  have ea := zero a (controlPointAt_mem _ _ _ ha)
  have eb := zero b (controlPointAt_mem _ _ _ hb)
  have ec := zero c (controlPointAt_mem _ _ _ hc)
  have ed := zero d (controlPointAt_mem _ _ _ hd)
  unfold get_point
  rw [hw, ea, eb, ec, ed]
  congr 1
  ext <;> simp [interpolate, Mat4x3.mulMat, Mat4x3.mulVec]

/-- On the point track, with velocity 2 and the current position on the
curve, every micro-step has length zero and the loop is still running whatever
the fuel. -/
theorem pointTrack_loop_runs_on (fuel : Nat) :
    ∀ (s t : ℚ) (b : Bool), 2 ≤ s → s < 5 → t < 1 →
      trackLoop sqrtQ pointTrack.controlPoints (1 : ℚ) (some 2) fuel (fun _ => false)
        ⟨s, ⟨0, 0, 0⟩, some t, b, b⟩ = .outOfFuel := by
  induction fuel with
  | zero =>
    intro s t b _ _ ht
    simp [trackLoop, timeLeft, ht]
  | succ fuel ih =>
    intro s t b h1 h2 ht
    obtain ⟨r1, r2⟩ := advance_in_range pointTrack.controlPoints.length s (by decide) h1
      (by
        have : (pointTrack.controlPoints.length : ℚ) = 3 := by simp [pointTrack]
        rw [this]
        linarith)
    have r2' : advance pointTrack.controlPoints.length s < 5 := by
      have : (pointTrack.controlPoints.length : ℚ) = 3 := by simp [pointTrack]
      rw [this] at r2
      linarith
    have hp := pointTrack_get_point (advance pointTrack.controlPoints.length s)
      (by linarith) r2'
    have htl : timeLeft (some t) (1 : ℚ) = true := by simp [timeLeft, ht]
    rw [trackLoop_step sqrtQ pointTrack.controlPoints 1 (some 2) fuel (fun _ => false)
      ⟨s, ⟨0, 0, 0⟩, some t, b, b⟩ ⟨0, 0, 0⟩ htl (by simp) hp]
    have hlen : length sqrtQ ((⟨0, 0, 0⟩ : Vec3 ℚ) - ⟨0, 0, 0⟩) = 0 := by
      have hdot : dot ((⟨0, 0, 0⟩ : Vec3 ℚ) - ⟨0, 0, 0⟩) ((⟨0, 0, 0⟩ : Vec3 ℚ) - ⟨0, 0, 0⟩)
          = 0 := by
        show dot (Vec3.sub _ _) (Vec3.sub _ _) = _
        norm_num [dot, Vec3.sub]
      rw [length, hdot, sqrtQ_zero]
    have hadd : addTime (some t) (0 : ℚ) (some 2) = some t := by
      norm_num [addTime]
    simp only [hlen, hadd]
    exact ih _ t false r1 r2' ht

/-- C14 (as stated, refuted): on the track whose three control points coincide,
for the upright camera one unit below it (velocity 2) and `deltaTime = 1` with
the key never pressed, the micro-step loop is still running after any number of
micro-steps: every step after the first has length zero and `passed_time`
stays at `1/2`. -/
theorem pointTrack_loop_never_ends :
    ¬ ∃ fuel : Nat,
      ProcessTrackMovement sqrtQ fuel (1 : ℚ) pointTrack (fun _ => false)
        (cameraAt ⟨0, -11 / 15, 0⟩) ≠ .outOfFuel := by
  rintro ⟨fuel, hne⟩
  apply hne
  have hoff : (cameraAt ⟨0, -11 / 15, 0⟩).Position
      - (cameraAt ⟨0, -11 / 15, 0⟩).Up.divScalar (375 / 100) = (⟨0, -1, 0⟩ : Vec3 ℚ) := by
    show Vec3.sub _ _ = _
    ext <;> norm_num [cameraAt, Vec3.sub, Vec3.divScalar]
  have hmax : hmaxOf pointTrack.orientations = 0 := by
    norm_num [hmaxOf, pointTrack, seedFrame, List.replicate]
  have hvel : velocityOf sqrtQ (0 : ℚ) (-1) = some 2 := by
    have h4 : velocityArg (0 : ℚ) (-1) = 2 * 2 := by norm_num [velocityArg]
    have h0 : (0 : ℚ) ≤ 2 * 2 := by norm_num
    simp only [velocityOf, h4, h0, if_true, sqrtQ_mul_self 2 (by norm_num)]
  have hloop : trackLoop sqrtQ pointTrack.controlPoints (1 : ℚ) (some 2) fuel
      (fun _ => false) ⟨2, ⟨0, -1, 0⟩, some 0, false, false⟩ = .outOfFuel := by
    cases fuel with
    | zero => simp [trackLoop, timeLeft]
    | succ fuel =>
      have hadv : advance pointTrack.controlPoints.length (2 : ℚ) = 2001 / 1000 := by
        norm_num [advance, pointTrack]
      have hp := pointTrack_get_point (2001 / 1000) (by norm_num) (by norm_num)
      have htl : timeLeft (some (0 : ℚ)) (1 : ℚ) = true := by simp [timeLeft]
      rw [trackLoop_step sqrtQ pointTrack.controlPoints 1 (some 2) fuel (fun _ => false)
        ⟨2, ⟨0, -1, 0⟩, some 0, false, false⟩ ⟨0, 0, 0⟩ htl (by simp)
        (by rw [hadv]; exact hp)]
      have hlen : length sqrtQ ((⟨0, 0, 0⟩ : Vec3 ℚ) - ⟨0, -1, 0⟩) = 1 := by
        have hdot : dot ((⟨0, 0, 0⟩ : Vec3 ℚ) - ⟨0, -1, 0⟩) ((⟨0, 0, 0⟩ : Vec3 ℚ) - ⟨0, -1, 0⟩)
            = 1 * 1 := by
          show dot (Vec3.sub _ _) (Vec3.sub _ _) = _
          norm_num [dot, Vec3.sub]
        rw [length, hdot, sqrtQ_mul_self 1 (by norm_num)]
      have hadd : addTime (some (0 : ℚ)) 1 (some 2) = some (1 / 2) := by
        norm_num [addTime]
      simp only [hlen, hadd, hadv]
      exact pointTrack_loop_runs_on fuel _ _ false (by norm_num) (by norm_num) (by norm_num)
  have hloop' : trackLoop sqrtQ pointTrack.controlPoints (1 : ℚ)
      (velocityOf sqrtQ (hmaxOf pointTrack.orientations)
        ((cameraAt ⟨0, -11 / 15, 0⟩).Position
          - (cameraAt ⟨0, -11 / 15, 0⟩).Up.divScalar (375 / 100)).y) fuel (fun _ => false)
      ⟨(cameraAt ⟨0, -11 / 15, 0⟩).s,
        (cameraAt ⟨0, -11 / 15, 0⟩).Position
          - (cameraAt ⟨0, -11 / 15, 0⟩).Up.divScalar (375 / 100), some 0,
        (cameraAt ⟨0, -11 / 15, 0⟩).tPressed, (cameraAt ⟨0, -11 / 15, 0⟩).tCurPressed⟩
      = .outOfFuel := by
    rw [hoff, hmax, hvel]
    exact hloop
  simp only [ProcessTrackMovement, hloop']

/-- Witness for C14 (amended): on the line track from `s = 2`, with an
undefined velocity the loop ends within one micro-step, and with velocity 2
and `deltaTime = 1/2000` it ends within two, the step from `s = 2.001` to
`s = 2.002` being `1/1000` long. -/
theorem trackLoop_terminates_witness :
    (trackLoop sqrtQ lineTrack.controlPoints (1 / 2000 : ℚ) none 1 (fun _ => false)
      ⟨2, ⟨0, 0, 0⟩, some 0, false, false⟩).ended = true ∧
    (trackLoop sqrtQ lineTrack.controlPoints (1 / 2000 : ℚ) (some 2) 2 (fun _ => false)
      ⟨2, ⟨0, 0, 0⟩, some 0, false, false⟩).ended = true := by
  have h := trackLoop_terminates sqrtQ lineTrack.controlPoints (1 / 2000 : ℚ)
    (fun _ => false) ⟨2, ⟨0, 0, 0⟩, some 0, false, false⟩ (by decide) (by norm_num)
    (by norm_num [lineTrack]) rfl
  refine ⟨h.1 none 1 (Or.inl rfl) (le_refl _), ?_⟩
  refine h.2 2 (1 / 1000) 1 2 (by norm_num) sqrtQ_nonneg (by norm_num) ?_ (by norm_num)
  intro k hk1 hk2 p q hp hq
  have hk : k = 1 := by omega
  subst hk
  have e1 : (advance lineTrack.controlPoints.length)^[1] (2 : ℚ) = 2001 / 1000 := by
    norm_num [advance, lineTrack]
  have e2 : (advance lineTrack.controlPoints.length)^[1 + 1] (2 : ℚ) = 1001 / 500 := by
    norm_num [advance, lineTrack]
  simp only at hp hq
  rw [e1, lineTrack_get_point _ (by norm_num) (by norm_num)] at hp
  rw [e2, lineTrack_get_point _ (by norm_num) (by norm_num)] at hq
  cases hp
  cases hq
  have hdot : dot ((⟨1001 / 500 - 2, 0, 0⟩ : Vec3 ℚ) - ⟨2001 / 1000 - 2, 0, 0⟩)
      ((⟨1001 / 500 - 2, 0, 0⟩ : Vec3 ℚ) - ⟨2001 / 1000 - 2, 0, 0⟩)
      = (1 / 1000) * (1 / 1000) := by
    show dot (Vec3.sub _ _) (Vec3.sub _ _) = _
    norm_num [dot, Vec3.sub]
  rw [length, hdot, sqrtQ_mul_self _ (by norm_num)]

end TerminationScenarios

/-! ## The frame table -/

section FrameTable

variable {α : Type} [LinearOrderedField α] [FloorRing α]

/-- Entered `j` steps of `0.1` below `n + 2`, the build loop appends `j`
frames: each is propagated from the one before it, and the `i`-th of them sits
at `get_point(s + i/10)`. -/
theorem create_track_loop_frames (sqrt : α → α) (cps : List (Vec3 α)) (hn : 3 ≤ cps.length)
    (j : Nat) :
    ∀ (s : α) (st : BuildState α), s = (cps.length : α) + 2 - (j : α) / 10 → 2 ≤ s →
      ∃ st' new, create_track_loop sqrt cps s st = some st' ∧
        st'.orientations = st.orientations ++ new ∧ new.length = j ∧
        IsFrameChain sqrt st.ori_prev new ∧
        ∀ i : Nat, i < j →
          (new[i]?).map Orientation.origin = get_point cps (s + (i : α) / 10) := by
  induction j with
  | zero =>
    intro s st hs _
    have hnot : ¬ (s < (cps.length : α) + 2) := by
      rw [hs]
      simp
    refine ⟨st, [], ?_, by simp, rfl, trivial, ?_⟩
    · rw [create_track_loop, if_neg hnot]
    · intro i hi
      omega
  | succ j ih =>
    intro s st hs h2
    have hj : (0 : α) ≤ (j : α) := Nat.cast_nonneg j
    have hlt : s < (cps.length : α) + 2 := by
      rw [hs]
      push_cast
      linarith
    obtain ⟨origin, ho⟩ := get_point_defined cps s hn (by linarith) hlt
    have hs' : s + 1 / 10 = (cps.length : α) + 2 - (j : α) / 10 := by
      rw [hs]
      push_cast
      ring
    obtain ⟨st', new, hrun, hO, hlen, hchain, horig⟩ :=
      ih (s + 1 / 10) (create_track_body sqrt origin st) hs' (by linarith)
    have bO : (create_track_body sqrt origin st).orientations
        = st.orientations ++ [propagateFrame sqrt st.ori_prev origin] := rfl
    have bP : (create_track_body sqrt origin st).ori_prev
        = propagateFrame sqrt st.ori_prev origin := rfl
    refine ⟨st', propagateFrame sqrt st.ori_prev origin :: new, ?_, ?_, ?_, ?_, ?_⟩
    · rw [create_track_loop, if_pos hlt, ho]
      exact hrun
    · rw [hO, bO]
      simp
    · simp [hlen]
    · rw [bP] at hchain
      exact ⟨rfl, hchain⟩
    · intro i hi
      cases i with
      | zero =>
        simp only [List.getElem?_cons_zero, Option.map_some', Nat.cast_zero, zero_div, add_zero]
        exact ho.symm
      | succ i =>
        rw [List.getElem?_cons_succ, horig i (by omega)]
        congr 1
        push_cast
        ring

/-- On at least three raw points `create_track` completes with `10 n` frames
in a chain that starts at the seed frame, the `i`-th at `get_point(2 + i/10)`. -/
theorem create_track_frames (sqrt : α → α) (points : List (Vec3 α)) (hn : 3 ≤ points.length) :
    ∃ t seedOrigin, create_track sqrt points = some t ∧
      get_point t.controlPoints (19 / 10) = some seedOrigin ∧
      t.controlPoints = accumulatePoints (⟨0, 0, 0⟩ : Vec3 α) points [] ∧
      t.controlPoints.length = points.length ∧
      t.orientations.length = 10 * points.length ∧
      IsFrameChain sqrt (seedFrame seedOrigin) t.orientations ∧
      ∀ i : Nat, i < 10 * points.length →
        (t.orientations[i]?).map Orientation.origin
          = get_point t.controlPoints (2 + (i : α) / 10) := by
  have hlen : (accumulatePoints (⟨0, 0, 0⟩ : Vec3 α) points []).length = points.length := by
    rw [accumulatePoints_length]
    simp
  have hn' : 3 ≤ (accumulatePoints (⟨0, 0, 0⟩ : Vec3 α) points []).length := by omega
  obtain ⟨origin, ho⟩ := get_point_defined
    (accumulatePoints (⟨0, 0, 0⟩ : Vec3 α) points []) (19 / 10) hn' (by norm_num)
    (by
      have : (0 : α) ≤ ((accumulatePoints (⟨0, 0, 0⟩ : Vec3 α) points []).length : α) :=
        Nat.cast_nonneg _
      linarith)
  have hs : (2 : α) = ((accumulatePoints (⟨0, 0, 0⟩ : Vec3 α) points []).length : α) + 2
      - ((10 * points.length : Nat) : α) / 10 := by
    rw [hlen]
    push_cast
    ring
  obtain ⟨st', new, hrun, hO, hK, hchain, horig⟩ := create_track_loop_frames sqrt
    (accumulatePoints (⟨0, 0, 0⟩ : Vec3 α) points []) hn' (10 * points.length) 2
    ⟨seedFrame origin, false, 0, ⟨[], [], []⟩, []⟩ hs (le_refl _)
  simp only [List.nil_append] at hO
  refine ⟨⟨accumulatePoints (⟨0, 0, 0⟩ : Vec3 α) points [], st'.mesh, st'.orientations⟩,
    origin, ?_, ho, rfl, hlen, ?_, ?_, ?_⟩
  · simp only [create_track, ho]
    have e : (⟨⟨1, 0, 0⟩, ⟨0, 1, 0⟩, ⟨0, 0, 1⟩, origin⟩ : Orientation α) = seedFrame origin :=
      rfl
    rw [e, hrun]
  · simp only [hO, hK]
  · simp only [hO]
    exact hchain
  · intro i hi
    simp only [hO]
    exact horig i hi

end FrameTable

section ShortTracks

variable {α : Type} [LinearOrderedField α] [FloorRing α]

theorem get_point_of_floor (cps : List (Vec3 α)) (s : α) (k : Int) (h : ⌊s⌋ = k) :
    get_point cps s = get_point_window cps k (s - (k : α)) := by
  unfold get_point
  rw [h]

theorem floor_seed : ⌊(19 / 10 : α)⌋ = 1 := by
  rw [Int.floor_eq_iff]
  constructor <;> norm_num

/-- With fewer than three control points `get_point` reads outside
`controlPoints` at `s = 1.9` (none or one point) or at `s = 3` (two points),
so `create_track` has no defined result. -/
theorem create_track_short (sqrt : α → α) (points : List (Vec3 α)) (hn : points.length < 3) :
    create_track sqrt points = none := by
  have hlen : (accumulatePoints (⟨0, 0, 0⟩ : Vec3 α) points []).length = points.length := by
    rw [accumulatePoints_length]
    simp
  generalize hc : accumulatePoints (⟨0, 0, 0⟩ : Vec3 α) points [] = cps at hlen
  have hcase : cps.length = 0 ∨ cps.length = 1 ∨ cps.length = 2 := by omega
  rcases hcase with h0 | h1 | h2
  · rw [List.length_eq_zero] at h0
    subst h0
    have hg : get_point ([] : List (Vec3 α)) (19 / 10) = none := by
      rw [get_point_of_floor _ _ 1 floor_seed]
      simp [get_point_window, resolveIndices, controlPointAt]
    simp only [create_track, hc, hg]
  · obtain ⟨a, ha⟩ := List.length_eq_one.mp h1
    subst ha
    have hg : get_point [a] (19 / 10) = none := by
      rw [get_point_of_floor _ _ 1 floor_seed]
      simp [get_point_window, resolveIndices, controlPointAt]
    simp only [create_track, hc, hg]
  · obtain ⟨a, b, hab⟩ := List.length_eq_two.mp h2
    subst hab
    have hsome : ∀ s : α, 2 ≤ s → s < 3 → ∃ p, get_point [a, b] s = some p := by
      intro s h1 h2
      have hf : ⌊s⌋ = 2 := by
        rw [Int.floor_eq_iff]
        constructor
        · exact_mod_cast h1
        · push_cast
          linarith
      rw [get_point_of_floor _ _ 2 hf]
      simp [get_point_window, resolveIndices, controlPointAt]
    have hnone : get_point [a, b] (3 : α) = none := by
      have hf : ⌊(3 : α)⌋ = 3 := by
        rw [Int.floor_eq_iff]
        constructor <;> norm_num
      rw [get_point_of_floor _ _ 3 hf]
      simp [get_point_window, resolveIndices, controlPointAt]
    have hloop : ∀ j : Nat, j ≤ 10 → ∀ st : BuildState α,
        create_track_loop sqrt [a, b] (3 - (j : α) / 10) st = none := by
      intro j
      induction j with
      | zero =>
        intro _ st
        have e : (3 : α) - ((0 : Nat) : α) / 10 = 3 := by simp
        have hlt : (3 : α) < (([a, b] : List (Vec3 α)).length : α) + 2 := by
          simp only [List.length_cons, List.length_nil]
          norm_num
        rw [e, create_track_loop, if_pos hlt, hnone]
      | succ j ih =>
        intro hj st
        have hj10 : ((j : α) + 1) ≤ 10 := by exact_mod_cast hj
        have hj0 : (0 : α) ≤ (j : α) := Nat.cast_nonneg j
        have h1 : (2 : α) ≤ 3 - ((j + 1 : Nat) : α) / 10 := by
          push_cast
          linarith
        have h2 : (3 : α) - ((j + 1 : Nat) : α) / 10 < 3 := by
          push_cast
          linarith
        have hlt : (3 : α) - ((j + 1 : Nat) : α) / 10
            < (([a, b] : List (Vec3 α)).length : α) + 2 := by
          simp only [List.length_cons, List.length_nil]
          push_cast
          linarith
        obtain ⟨p, hp⟩ := hsome _ h1 h2
        have e : (3 : α) - ((j + 1 : Nat) : α) / 10 + 1 / 10 = 3 - (j : α) / 10 := by
          push_cast
          ring
        rw [create_track_loop, if_pos hlt, hp]
        simp only
        rw [e]
        exact ih (by omega) _
    have e2 : (2 : α) = 3 - ((10 : Nat) : α) / 10 := by norm_num
    simp only [create_track, hc]
    cases hg : get_point [a, b] (19 / 10 : α) with
    | none => rfl
    | some origin =>
      simp only
      rw [e2, hloop 10 (le_refl _)]

end ShortTracks

section UnitFrames

variable {α : Type} [LinearOrderedField α]

theorem dot_self_nonneg (v : Vec3 α) : 0 ≤ dot v v := by
  unfold dot
  nlinarith [mul_self_nonneg v.x, mul_self_nonneg v.y, mul_self_nonneg v.z]

theorem dot_self_eq_zero (v : Vec3 α) (h : dot v v = 0) : v = ⟨0, 0, 0⟩ := by
  unfold dot at h
  have hx : v.x = 0 := by
    nlinarith [mul_self_nonneg v.x, mul_self_nonneg v.y, mul_self_nonneg v.z]
  have hy : v.y = 0 := by
    nlinarith [mul_self_nonneg v.x, mul_self_nonneg v.y, mul_self_nonneg v.z]
  have hz : v.z = 0 := by
    nlinarith [mul_self_nonneg v.x, mul_self_nonneg v.y, mul_self_nonneg v.z]
  ext <;> assumption

theorem dot_self_pos (v : Vec3 α) (h : v ≠ ⟨0, 0, 0⟩) : 0 < dot v v :=
  lt_of_le_of_ne (dot_self_nonneg v) (fun e => h (dot_self_eq_zero v e.symm))

theorem sqrt_ne_zero (sqrt : α → α) (hsq : IsSqrt sqrt) (x : α) (hx : 0 < x) : sqrt x ≠ 0 := by
  intro h0
  have h := (hsq x (le_of_lt hx)).2
  rw [h0] at h
  simp at h
  exact absurd h (ne_of_lt hx)

theorem sqrt_one (sqrt : α → α) (hsq : IsSqrt sqrt) : sqrt 1 = 1 := by
  obtain ⟨h0, h1⟩ := hsq 1 zero_le_one
  nlinarith

/-- Normalizing a non-zero vector gives a vector of squared length 1. -/
theorem normalize_unit (sqrt : α → α) (hsq : IsSqrt sqrt) (v : Vec3 α) (h : v ≠ ⟨0, 0, 0⟩) :
    dot (normalize sqrt v) (normalize sqrt v) = 1 := by
  have hpos := dot_self_pos v h
  have hr := (hsq (dot v v) (le_of_lt hpos)).2
  have hne := sqrt_ne_zero sqrt hsq (dot v v) hpos
  have e : dot (normalize sqrt v) (normalize sqrt v)
      = dot v v * (1 / sqrt (dot v v)) * (1 / sqrt (dot v v)) := by
    simp only [normalize, Vec3.scale, dot]
    ring
  rw [e]
  field_simp
  exact hr.symm

theorem divScalar_ne_zero (v : Vec3 α) (c : α) (h : v ≠ ⟨0, 0, 0⟩) (hc : c ≠ 0) :
    v.divScalar c ≠ ⟨0, 0, 0⟩ := by
  intro e
  apply h
  have hx := congrArg Vec3.x e
  have hy := congrArg Vec3.y e
  have hz := congrArg Vec3.z e
  simp only [Vec3.divScalar, div_eq_zero_iff, hc, or_false] at hx hy hz
  ext <;> assumption

theorem sub_ne_zero_of_ne (a b : Vec3 α) (h : a ≠ b) : a - b ≠ ⟨0, 0, 0⟩ := by
  intro e
  apply h
  have hx := congrArg Vec3.x e
  have hy := congrArg Vec3.y e
  have hz := congrArg Vec3.z e
  have hx' : a.x - b.x = 0 := hx
  have hy' : a.y - b.y = 0 := hy
  have hz' : a.z - b.z = 0 := hz
  ext <;> linarith

theorem dot_cross_left (a b : Vec3 α) : dot (cross a b) a = 0 := by
  simp only [dot, cross]
  ring

/-- Lagrange's identity for `glm::cross`. -/
theorem dot_cross_self (a b : Vec3 α) :
    dot (cross a b) (cross a b) = dot a a * dot b b - dot a b * dot a b := by
  simp only [dot, cross]
  ring

end UnitFrames

section FrameClaims

variable {α : Type} [LinearOrderedField α] [FloorRing α]

end FrameClaims

/-! ## Control points as running sums -/

section RunningSums

variable {α : Type} [LinearOrderedField α]

theorem accumulatePoints_append (pts : List (Vec3 α)) (cur : Vec3 α) (acc : List (Vec3 α)) :
    accumulatePoints cur pts acc = acc ++ accumulatePoints cur pts [] := by
  induction pts generalizing cur acc with
  | nil => simp [accumulatePoints]
  | cons p rest ih =>
    simp only [accumulatePoints]
    rw [ih (cur + p) (acc ++ [cur + p]), ih (cur + p) ([] ++ [cur + p])]
    simp

theorem accumulatePoints_cons (p : Vec3 α) (rest : List (Vec3 α)) (cur : Vec3 α) :
    accumulatePoints cur (p :: rest) [] = (cur + p) :: accumulatePoints (cur + p) rest [] := by
  simp only [accumulatePoints]
  rw [accumulatePoints_append]
  simp

theorem accumulatePoints_succ (pts : List (Vec3 α)) (cur : Vec3 α) (i : Nat) (p q : Vec3 α)
    (hp : (accumulatePoints cur pts [])[i]? = some p) (hq : pts[i + 1]? = some q) :
    (accumulatePoints cur pts [])[i + 1]? = some (p + q) := by
  induction pts generalizing cur i with
  | nil => simp at hq
  | cons a rest ih =>
    rw [accumulatePoints_cons] at hp ⊢
    cases i with
    | zero =>
      simp only [List.getElem?_cons_zero, Option.some.injEq] at hp
      simp only [zero_add, List.getElem?_cons_succ] at hq ⊢
      cases rest with
      | nil => simp at hq
      | cons b rest2 =>
        simp only [List.getElem?_cons_zero, Option.some.injEq] at hq
        rw [accumulatePoints_cons, hp, hq]
        simp
    | succ j =>
      simp only [List.getElem?_cons_succ] at hp hq ⊢
      exact ih (cur + a) j hp hq

theorem accumulatePoints_head (pts : List (Vec3 α)) :
    (accumulatePoints ⟨0, 0, 0⟩ pts [])[0]? = pts[0]? := by
  cases pts with
  | nil => simp [accumulatePoints]
  | cons a rest => rw [accumulatePoints_cons, Vec3.zero_add_eq]; simp

end RunningSums

section RunningSumsClaim

variable {α : Type} [LinearOrderedField α] [FloorRing α]

/-- C21: the control points `create_track` stores are the running sums of the
raw offsets: as many as the offsets, the first one equal to the first offset,
and each later one the one before it plus the offset of the same index; every
track `create_track` returns has this list as its `controlPoints`. -/
theorem controlPoints_running_sums (points : List (Vec3 α)) :
    (accumulatePoints ⟨0, 0, 0⟩ points []).length = points.length ∧
    (accumulatePoints ⟨0, 0, 0⟩ points [])[0]? = points[0]? ∧
    (∀ (i : Nat) (p q : Vec3 α), (accumulatePoints ⟨0, 0, 0⟩ points [])[i]? = some p →
      points[i + 1]? = some q →
      (accumulatePoints ⟨0, 0, 0⟩ points [])[i + 1]? = some (p + q)) ∧
    (∀ i, i < points.length → ∃ p, (accumulatePoints ⟨0, 0, 0⟩ points [])[i]? = some p) ∧
    (∀ (sqrt : α → α) (t : Track α), create_track sqrt points = some t →
      t.controlPoints = accumulatePoints ⟨0, 0, 0⟩ points []) ∧
    (3 ≤ points.length → ∀ sqrt : α → α, ∃ t, create_track sqrt points = some t) := by
  have hlen := accumulatePoints_length (⟨0, 0, 0⟩ : Vec3 α) points []
  simp only [List.length_nil, zero_add] at hlen
  refine ⟨hlen, accumulatePoints_head points, ?_, ?_, ?_, ?_⟩
  · intro i p q hp hq
    exact accumulatePoints_succ points _ i p q hp hq
  · intro i hi
    exact ⟨_, List.getElem?_eq_getElem (by rw [hlen]; exact hi)⟩
  · intro sqrt t ht
    by_cases hn : 3 ≤ points.length
    · obtain ⟨t', _, ht', _, hc, _⟩ := create_track_frames sqrt points hn
      rw [ht] at ht'
      cases ht'
      exact hc
    · rw [create_track_short sqrt points (by omega)] at ht
      cases ht
  · intro hn sqrt
    obtain ⟨t, _, ht, _⟩ := create_track_frames sqrt points hn
    exact ⟨t, ht⟩

end RunningSumsClaim

/-! ## The triangle builder -/

section Triangles

variable {α : Type} [LinearOrderedField α]

/-- C24: `make_triangle` appends to the vector its `object` names exactly three
vertices, with the three given positions and texture coordinates, each with the
same normal: `cross(posB - posA, posC - posA)`, negated when `flipNormal` is
set, added to a zero normal and not normalized; the other vectors are kept. -/
theorem make_triangle_appends (posA posB posC : Vec3 α) (tA tB tC : Vec2 α)
    (flipNormal : Bool) (object : String) (placeTie : Bool) (m : TrackMesh α) :
    (make_triangle posA posB posC tA tB tC flipNormal object placeTie m).rightRailVertices
      = m.rightRailVertices
        ++ (if object = "right rail"
            then [⟨posA, faceNormal posA posB posC flipNormal, tA⟩,
                  ⟨posB, faceNormal posA posB posC flipNormal, tB⟩,
                  ⟨posC, faceNormal posA posB posC flipNormal, tC⟩] else []) ∧
    (make_triangle posA posB posC tA tB tC flipNormal object placeTie m).leftRailVertices
      = m.leftRailVertices
        ++ (if object = "left rail"
            then [⟨posA, faceNormal posA posB posC flipNormal, tA⟩,
                  ⟨posB, faceNormal posA posB posC flipNormal, tB⟩,
                  ⟨posC, faceNormal posA posB posC flipNormal, tC⟩] else []) ∧
    (make_triangle posA posB posC tA tB tC flipNormal object placeTie m).tieVertices
      = m.tieVertices
        ++ (if object = "tie"
            then [⟨posA, faceNormal posA posB posC flipNormal, tA⟩,
                  ⟨posB, faceNormal posA posB posC flipNormal, tB⟩,
                  ⟨posC, faceNormal posA posB posC flipNormal, tC⟩] else []) ∧
    faceNormal posA posB posC false = cross (posB - posA) (posC - posA) ∧
    faceNormal posA posB posC true = -(cross (posB - posA) (posC - posA)) := by
  unfold make_triangle
  refine ⟨?_, ?_, ?_, ?_, ?_⟩
  · by_cases h1 : object = "right rail" <;> by_cases h2 : object = "left rail" <;>
      by_cases h3 : object = "tie" <;> cases flipNormal <;>
      simp [h1, h2, h3, set_normals, Vertex.fresh, faceNormal, Vec3.zero_add_eq]
  · by_cases h1 : object = "right rail" <;> by_cases h2 : object = "left rail" <;>
      by_cases h3 : object = "tie" <;> cases flipNormal <;>
      simp [h1, h2, h3, set_normals, Vertex.fresh, faceNormal, Vec3.zero_add_eq]
  · by_cases h1 : object = "right rail" <;> by_cases h2 : object = "left rail" <;>
      by_cases h3 : object = "tie" <;> cases flipNormal <;>
      simp [h1, h2, h3, set_normals, Vertex.fresh, faceNormal, Vec3.zero_add_eq]
  · simp [faceNormal]
  · simp [faceNormal]

end Triangles

/-! ## The track parameter and the height bound -/

section ParameterRange

variable {α : Type} [LinearOrderedField α] [FloorRing α]

/-- C25: on a track of `n ≥ 1` control points, a micro-step that starts with
`2 ≤ s < n + 2` ends with `2 ≤ s < n + 2`, so the `get_point(s)` call of the
step is made with `2 ≤ floor(s) ≤ n + 1`. -/
theorem advance_keeps_range (n : Nat) (s : α) (hn : 1 ≤ n) (h1 : 2 ≤ s)
    (h2 : s < (n : α) + 2) :
    2 ≤ advance n s ∧ advance n s < (n : α) + 2 ∧
    2 ≤ ⌊advance n s⌋ ∧ ⌊advance n s⌋ ≤ (n : Int) + 1 := by
  obtain ⟨ha, hb⟩ := advance_in_range n s hn h1 h2
  refine ⟨ha, hb, ?_, ?_⟩
  · exact Int.le_floor.2 (by exact_mod_cast ha)
  · have h : ⌊advance n s⌋ < (n : Int) + 2 := Int.floor_lt.2 (by push_cast; exact hb)
    omega

/-- Witness for C25: a step from `s = 2999/1000` on a one-point track, which
resets `s` to 2. -/
theorem advance_keeps_range_witness :
    (1 : Nat) ≤ 1 ∧ (2 : ℚ) ≤ 2999 / 1000 ∧ (2999 / 1000 : ℚ) < ((1 : Nat) : ℚ) + 2 ∧
    2 ≤ advance 1 (2999 / 1000 : ℚ) ∧ advance 1 (2999 / 1000 : ℚ) < ((1 : Nat) : ℚ) + 2 ∧
    2 ≤ ⌊advance 1 (2999 / 1000 : ℚ)⌋ ∧ ⌊advance 1 (2999 / 1000 : ℚ)⌋ ≤ ((1 : Nat) : Int) + 1 :=
  ⟨le_refl 1, by norm_num, by norm_num,
    advance_keeps_range 1 (2999 / 1000 : ℚ) (le_refl 1) (by norm_num) (by norm_num)⟩

end ParameterRange

section HeightBound

variable {α : Type} [LinearOrderedField α]

theorem hmaxOf_fold_bounds (orientations : List (Orientation α)) (init : α) :
    init ≤ orientations.foldl
        (fun hmax o => if o.origin.y > hmax then o.origin.y + 1 / 2 else hmax) init ∧
    ∀ o ∈ orientations, o.origin.y ≤ orientations.foldl
        (fun hmax o => if o.origin.y > hmax then o.origin.y + 1 / 2 else hmax) init := by
  induction orientations generalizing init with
  | nil => simp
  | cons a rest ih =>
    simp only [List.foldl_cons, List.mem_cons, forall_eq_or_imp]
    obtain ⟨h1, h2⟩ := ih (if a.origin.y > init then a.origin.y + 1 / 2 else init)
    have hstep : init ≤ (if a.origin.y > init then a.origin.y + 1 / 2 else init) ∧
        a.origin.y ≤ (if a.origin.y > init then a.origin.y + 1 / 2 else init) := by
      split_ifs with h
      · constructor <;> linarith
      · exact ⟨le_refl _, not_lt.1 h⟩
    exact ⟨le_trans hstep.1 h1, le_trans hstep.2 h1, h2⟩

/-- C27: the `hmax` that `ProcessTrackMovement` computes is at least 0 and at
least the height `origin.y` of every stored frame (0 for an empty table), so
`hmax - h` is not negative for the height `h` of any stored frame origin. -/
theorem hmaxOf_bounds (orientations : List (Orientation α)) :
    0 ≤ hmaxOf orientations ∧
    (∀ o ∈ orientations, o.origin.y ≤ hmaxOf orientations) ∧
    (∀ o ∈ orientations, 0 ≤ hmaxOf orientations - o.origin.y) ∧
    hmaxOf ([] : List (Orientation α)) = 0 := by
  obtain ⟨h1, h2⟩ := hmaxOf_fold_bounds orientations 0
  refine ⟨h1, h2, ?_, rfl⟩
  intro o ho
  have := h2 o ho
  unfold hmaxOf
  linarith

end HeightBound

/-! ## The free-fly look: pitch clamp -/

section PitchClamp

variable {α : Type} [LinearOrderedField α]

/-- C23: after `ProcessMouseMovement` with `constrainPitch` set, `Pitch` lies
in `[-89, 89]`, whatever the pitch before the call and the mouse offsets. -/
theorem ProcessMouseMovement_pitch_clamped (sqrt cos sin radians : α → α)
    (xoffset yoffset : α) (cam : Camera α) :
    -89 ≤ (ProcessMouseMovement sqrt cos sin radians xoffset yoffset true cam).Pitch ∧
    (ProcessMouseMovement sqrt cos sin radians xoffset yoffset true cam).Pitch ≤ 89 := by
  simp only [ProcessMouseMovement, updateCameraVectors, if_true]
  split_ifs with h1 h2 h3
  · norm_num at h2
  · norm_num
  · norm_num
  · simp only [not_lt] at h1 h3
    exact ⟨h3, h1⟩

end PitchClamp

/-! ## Orthogonal frames -/

section OrthogonalFrames

variable {α : Type} [LinearOrderedField α]

/-- For a unit `F` and an `R` orthogonal to it, `F`, `cross R F` and `R` are
pairwise orthogonal and `cross F (cross R F) = R`. -/
theorem cross_back (F R : Vec3 α) (hF : dot F F = 1) (hRF : dot R F = 0) :
    dot F R = 0 ∧ dot F (cross R F) = 0 ∧ dot R (cross R F) = 0 ∧
    cross F (cross R F) = R := by
  simp only [dot] at hF hRF
  refine ⟨?_, ?_, ?_, ?_⟩
  · simp only [dot]; linear_combination hRF
  · simp only [dot, cross]; ring
  · simp only [dot, cross]; ring
  · ext
    · simp only [cross]; linear_combination R.x * hF - F.x * hRF
    · simp only [cross]; linear_combination R.y * hF - F.y * hRF
    · simp only [cross]; linear_combination R.z * hF - F.z * hRF

/-- The frame propagated over a step of non-zero length, with the new `Front`
not parallel to the previous `Up`, is orthogonal and right-handed. -/
theorem propagateFrame_orthogonal (sqrt : α → α) (hsq : IsSqrt sqrt) (prev : Orientation α)
    (origin : Vec3 α) (hne : origin ≠ prev.origin)
    (hpar : cross (propagateFrame sqrt prev origin).Front prev.Up ≠ ⟨0, 0, 0⟩) :
    dot (propagateFrame sqrt prev origin).Front (propagateFrame sqrt prev origin).Right = 0 ∧
    dot (propagateFrame sqrt prev origin).Front (propagateFrame sqrt prev origin).Up = 0 ∧
    dot (propagateFrame sqrt prev origin).Right (propagateFrame sqrt prev origin).Up = 0 ∧
    cross (propagateFrame sqrt prev origin).Front (propagateFrame sqrt prev origin).Up
      = (propagateFrame sqrt prev origin).Right := by
  have hv := sub_ne_zero_of_ne origin prev.origin hne
  have hlen : length sqrt (origin - prev.origin) ≠ 0 :=
    sqrt_ne_zero sqrt hsq _ (dot_self_pos _ hv)
  have hw := divScalar_ne_zero _ _ hv hlen
  have hF : dot (propagateFrame sqrt prev origin).Front (propagateFrame sqrt prev origin).Front
      = 1 := normalize_unit sqrt hsq _ hw
  have hR : dot (propagateFrame sqrt prev origin).Right (propagateFrame sqrt prev origin).Right
      = 1 := normalize_unit sqrt hsq _ hpar
  have hRF : dot (propagateFrame sqrt prev origin).Right (propagateFrame sqrt prev origin).Front
      = 0 := by
    have h0 := dot_cross_left (propagateFrame sqrt prev origin).Front prev.Up
    have e : dot (propagateFrame sqrt prev origin).Right (propagateFrame sqrt prev origin).Front
        = dot (cross (propagateFrame sqrt prev origin).Front prev.Up)
            (propagateFrame sqrt prev origin).Front
          * (1 / sqrt (dot (cross (propagateFrame sqrt prev origin).Front prev.Up)
              (cross (propagateFrame sqrt prev origin).Front prev.Up))) := by
      simp only [propagateFrame, normalize, Vec3.scale, dot]
      ring
    rw [e, h0, zero_mul]
  have hcc : dot (cross (propagateFrame sqrt prev origin).Right
        (propagateFrame sqrt prev origin).Front)
      (cross (propagateFrame sqrt prev origin).Right (propagateFrame sqrt prev origin).Front)
      = 1 := by
    rw [dot_cross_self, hR, hF, hRF]
    ring
  have hUp : (propagateFrame sqrt prev origin).Up
      = cross (propagateFrame sqrt prev origin).Right (propagateFrame sqrt prev origin).Front := by
    have e : (propagateFrame sqrt prev origin).Up
        = normalize sqrt (cross (propagateFrame sqrt prev origin).Right
            (propagateFrame sqrt prev origin).Front) := rfl
    rw [e, normalize, hcc, sqrt_one sqrt hsq]
    ext <;> simp [Vec3.scale]
  rw [hUp]
  exact cross_back _ _ hF hRF

end OrthogonalFrames

section OrthogonalClaim

variable {α : Type} [LinearOrderedField α] [FloorRing α]

/-- C26: with an exact square root, every frame `create_track` stores whose
origin differs from the origin of the frame before it (the seed frame for the
first) and whose `Front` is not parallel to that frame's `Up` is orthogonal and
right-handed: `Front·Right = 0`, `Front·Up = 0`, `Right·Up = 0` and
`cross(Front, Up) = Right`; the seed frame satisfies the same equations. -/
theorem create_track_frames_orthogonal (sqrt : α → α) (points : List (Vec3 α))
    (hsq : IsSqrt sqrt) (hn : 3 ≤ points.length) :
    ∃ t seedOrigin, create_track sqrt points = some t ∧
      get_point t.controlPoints (19 / 10) = some seedOrigin ∧
      (dot (seedFrame seedOrigin).Front (seedFrame seedOrigin).Right = 0 ∧
       dot (seedFrame seedOrigin).Front (seedFrame seedOrigin).Up = 0 ∧
       dot (seedFrame seedOrigin).Right (seedFrame seedOrigin).Up = 0 ∧
       cross (seedFrame seedOrigin).Front (seedFrame seedOrigin).Up
         = (seedFrame seedOrigin).Right) ∧
      ∀ (i : Nat) (prev cur : Orientation α),
        (seedFrame seedOrigin :: t.orientations)[i]? = some prev →
        t.orientations[i]? = some cur →
        cur.origin ≠ prev.origin → cross cur.Front prev.Up ≠ ⟨0, 0, 0⟩ →
        dot cur.Front cur.Right = 0 ∧ dot cur.Front cur.Up = 0 ∧ dot cur.Right cur.Up = 0 ∧
          cross cur.Front cur.Up = cur.Right := by
  obtain ⟨t, seedOrigin, ht, hseed, _, _, _, hchain, _⟩ := create_track_frames sqrt points hn
  refine ⟨t, seedOrigin, ht, hseed, ?_, ?_⟩
  · simp [seedFrame, dot, cross]
  · intro i prev cur hprev hcur hne hpar
    have hp := IsFrameChain.propagated sqrt t.orientations _ hchain i prev cur hprev hcur
    rw [hp] at hpar ⊢
    exact propagateFrame_orthogonal sqrt hsq prev cur.origin hne hpar

/-- Witness for C26: the closed square over the reals, with the real square
root. -/
theorem create_track_frames_orthogonal_witness :
    ∃ t seedOrigin,
      create_track Real.sqrt
        ([⟨0, 0, 0⟩, ⟨1, 0, 0⟩, ⟨0, 1, 0⟩, ⟨-1, 0, 0⟩] : List (Vec3 ℝ)) = some t ∧
      get_point t.controlPoints (19 / 10) = some seedOrigin ∧
      (dot (seedFrame seedOrigin).Front (seedFrame seedOrigin).Right = 0 ∧
       dot (seedFrame seedOrigin).Front (seedFrame seedOrigin).Up = 0 ∧
       dot (seedFrame seedOrigin).Right (seedFrame seedOrigin).Up = 0 ∧
       cross (seedFrame seedOrigin).Front (seedFrame seedOrigin).Up
         = (seedFrame seedOrigin).Right) ∧
      ∀ (i : Nat) (prev cur : Orientation ℝ),
        (seedFrame seedOrigin :: t.orientations)[i]? = some prev →
        t.orientations[i]? = some cur →
        cur.origin ≠ prev.origin → cross cur.Front prev.Up ≠ ⟨0, 0, 0⟩ →
        dot cur.Front cur.Right = 0 ∧ dot cur.Front cur.Up = 0 ∧ dot cur.Right cur.Up = 0 ∧
          cross cur.Front cur.Up = cur.Right :=
  create_track_frames_orthogonal Real.sqrt _
    (fun x hx => ⟨Real.sqrt_nonneg x, Real.mul_self_sqrt hx⟩) (by simp)

end OrthogonalClaim

/-! ## Blended camera axes -/

section BlendedAxes

variable {α : Type} [LinearOrderedField α]

theorem sqrt_le_one (sqrt : α → α) (hsq : IsSqrt sqrt) (x : α) (h0 : 0 ≤ x) (h1 : x ≤ 1) :
    sqrt x ≤ 1 := by
  obtain ⟨ha, hb⟩ := hsq x h0
  by_contra hc
  push_neg at hc
  nlinarith

theorem sqrt_lt_one (sqrt : α → α) (hsq : IsSqrt sqrt) (x : α) (h0 : 0 ≤ x) (h1 : x < 1) :
    sqrt x < 1 := by
  obtain ⟨ha, hb⟩ := hsq x h0
  by_contra hc
  push_neg at hc
  nlinarith

theorem dot_blend (F G : Vec3 α) (b : α) (hF : dot F F = 1) (hG : dot G G = 1) :
    dot (F.scale (1 - b) + G.scale b) (F.scale (1 - b) + G.scale b)
      = 1 - 2 * b * (1 - b) * (1 - dot F G) := by
  have e : dot (F.scale (1 - b) + G.scale b) (F.scale (1 - b) + G.scale b)
      = (1 - b) * (1 - b) * dot F F + 2 * b * (1 - b) * dot F G + b * b * dot G G := by
    simp only [dot, Vec3.scale, Vec3.add_x, Vec3.add_y, Vec3.add_z]
    ring
  rw [e, hF, hG]
  ring

theorem dot_le_one (F G : Vec3 α) (hF : dot F F = 1) (hG : dot G G = 1) : dot F G ≤ 1 := by
  have h := dot_self_nonneg (F - G)
  have e : dot (F - G) (F - G) = dot F F + dot G G - 2 * dot F G := by
    simp only [dot, Vec3.sub_x, Vec3.sub_y, Vec3.sub_z]
    ring
  rw [e, hF, hG] at h
  linarith

theorem dot_lt_one (F G : Vec3 α) (hF : dot F F = 1) (hG : dot G G = 1) (hne : F ≠ G) :
    dot F G < 1 := by
  have h := dot_self_pos (F - G) (sub_ne_zero_of_ne F G hne)
  have e : dot (F - G) (F - G) = dot F F + dot G G - 2 * dot F G := by
    simp only [dot, Vec3.sub_x, Vec3.sub_y, Vec3.sub_z]
    ring
  rw [e, hF, hG] at h
  linarith

end BlendedAxes

/-! ## The order of the wrap checks -/

section WrapOrder

theorem applyCheck_A (n : Nat) (pA pB pC pD : Int) :
    applyCheck n .A (pA, pB, pC, pD)
      = if pA = -1 then ((n : Int) - 1, pB, pC, pD) else (pA, pB, pC, pD) := rfl

theorem applyCheck_D (n : Nat) (pA pB pC pD : Int) :
    applyCheck n .D (pA, pB, pC, pD)
      = if pD = (n : Int) then (pA, pB, pC, 0) else (pA, pB, pC, pD) := rfl

theorem applyCheck_C (n : Nat) (pA pB pC pD : Int) :
    applyCheck n .C (pA, pB, pC, pD)
      = if pC = (n : Int) then (pA, pB, 0, 1) else (pA, pB, pC, pD) := rfl

theorem applyCheck_B (n : Nat) (pA pB pC pD : Int) :
    applyCheck n .B (pA, pB, pC, pD)
      = if pB = (n : Int) then (pA, 0, 1, 2) else (pA, pB, pC, pD) := rfl

theorem applyChecks_source_order (n : Nat) (k : Int) :
    applyChecks n [.A, .D, .C, .B] k = resolveIndices n k := by
  by_cases hA : k - 2 = -1 <;> by_cases hD : k + 1 = (n : Int) <;>
    by_cases hC : k = (n : Int) <;> by_cases hB : k - 1 = (n : Int) <;>
    first
      | omega
      | simp (disch := omega) only [applyChecks, naiveIndices, List.foldl, applyCheck_A,
          applyCheck_D, applyCheck_C, applyCheck_B, resolveIndices, if_pos, if_neg]

end WrapOrder

/-! ## The spline loader -/

section Loader

variable {α : Type}

theorem readTriples_length_aux (m : Nat) : ∀ (floats : List α) (pt : Vec3 α)
    (pts : List (Vec3 α)), floats.length ≤ m →
    (readTriples pt floats pts).length = pts.length + (floats.length + 2) / 3 := by
  induction m with
  | zero =>
    intro floats pt pts h
    have : floats = [] := List.length_eq_zero.1 (Nat.le_zero.1 h)
    subst this
    simp [readTriples]
  | succ m ih =>
    intro floats pt pts h
    match floats, h with
    | [], _ => simp [readTriples]
    | [x], _ => simp [readTriples]
    | [x, y], _ => simp [readTriples]
    | x :: y :: z :: rest, h =>
      simp only [readTriples]
      rw [ih rest _ _ (by simp only [List.length_cons] at h; omega)]
      simp only [List.length_append, List.length_cons, List.length_nil]
      omega

theorem readTriples_length (floats : List α) (pt : Vec3 α) (pts : List (Vec3 α)) :
    (readTriples pt floats pts).length = pts.length + (floats.length + 2) / 3 :=
  readTriples_length_aux floats.length floats pt pts (le_refl _)
/-- C22 (the code departs from it): the file `2  0 0 0  1 0 0  2 0 0`
declares two points and holds three triples; `loadSegmentFrom` appends three
points, the third triple included.  In general it appends one point for every
triple in the file (and one more for one or two numbers left over), whatever
the declared count. -/
theorem loadSegmentFrom_ignores_count :
    loadSegmentFrom 2 [0, 0, 0, 1, 0, 0, 2, 0, 0] ⟨0, 0, 0⟩ ([] : List (Vec3 ℚ))
      = [⟨0, 0, 0⟩, ⟨1, 0, 0⟩, ⟨2, 0, 0⟩] ∧
    (loadSegmentFrom 2 [0, 0, 0, 1, 0, 0, 2, 0, 0] ⟨0, 0, 0⟩ ([] : List (Vec3 ℚ))).length ≠ 2 ∧
    ∀ (c : Int) (floats : List ℚ) (pt : Vec3 ℚ) (pts : List (Vec3 ℚ)),
      (loadSegmentFrom c floats pt pts).length = pts.length + (floats.length + 2) / 3 := by
  refine ⟨?_, ?_, ?_⟩
  · simp [loadSegmentFrom, readTriples]
  · simp [loadSegmentFrom, readTriples]
  · intro c floats pt pts
    exact readTriples_length floats pt pts

end Loader

/-! ## The heightmap grid -/

section HeightmapGrid

/-- C30 (the code departs from it): on a heightmap 2 wide and 3 high
`create_heightmap` stores the vertex of grid point `(x, y)` at position
`3 * x + y`, while `create_indices` computes `2 * x + y`: for the cell `(0, 0)`
the index `c = 2` addresses the vertex of grid point `(0, 2)`, not that of
`(1, 0)`, which is at position 3, and `d = 3` addresses the vertex of `(1, 0)`,
not that of `(1, 1)`.  On a heightmap 3 wide and 2 high the cell `(1, 0)` gets
`d = 7`, past the 6 vertices. -/
theorem create_indices_wrong_stride :
    ∃ vertices : List (Vertex ℚ),
      create_heightmap 2 3 1 [10, 20, 30, 40, 50, 60] = some vertices ∧
      vertices.length = 2 * 3 ∧
      cellIndices 2 0 0 = (0, 1, 2, 3) ∧
      vertices[2]? = make_vertex 2 3 1 [10, 20, 30, 40, 50, 60] 0 2 ∧
      vertices[3]? = make_vertex 2 3 1 [10, 20, 30, 40, 50, 60] 1 0 ∧
      vertices[4]? = make_vertex 2 3 1 [10, 20, 30, 40, 50, 60] 1 1 ∧
      vertices[2]? ≠ make_vertex 2 3 1 [10, 20, 30, 40, 50, 60] 1 0 ∧
      vertices[3]? ≠ make_vertex 2 3 1 [10, 20, 30, 40, 50, 60] 1 1 ∧
      (create_indices 2 3 vertices).map Prod.fst = some [0, 1, 2, 1, 3, 2, 1, 2, 3, 2, 4, 3] ∧
      cellIndices 3 1 0 = (3, 4, 6, 7) ∧ ¬ (7 < 3 * 2) := by
  refine ⟨[⟨⟨-1, 10 / 255, -1⟩, ⟨0, 0, 0⟩, ⟨0, 0⟩⟩, ⟨⟨-1, 20 / 255, 0⟩, ⟨0, 0, 0⟩, ⟨0, 1 / 2⟩⟩,
    ⟨⟨-1, 30 / 255, 1⟩, ⟨0, 0, 0⟩, ⟨0, 1⟩⟩, ⟨⟨1, 30 / 255, -1⟩, ⟨0, 0, 0⟩, ⟨1, 0⟩⟩,
    ⟨⟨1, 40 / 255, 0⟩, ⟨0, 0, 0⟩, ⟨1, 1 / 2⟩⟩, ⟨⟨1, 50 / 255, 1⟩, ⟨0, 0, 0⟩, ⟨1, 1⟩⟩],
    ?_, ?_, ?_, ?_, ?_, ?_, ?_, ?_, ?_, ?_, ?_⟩
  · simp [create_heightmap, make_vertex, List.range, List.range.loop]
    norm_num
  · rfl
  · rfl
  · simp [make_vertex]
    norm_num
  · simp [make_vertex]
    norm_num
  · simp [make_vertex]
    norm_num
  · simp [make_vertex]
  · simp [make_vertex]
    norm_num
  · simp [create_indices, cellIndices, Heightmap.set_normals, addNormal, List.range,
      List.range.loop]
  · rfl
  · decide

end HeightmapGrid

/-! ## The float counter of the build loop -/

section FloatCounterLemmas

end FloatCounterLemmas

section FloatValues

variable {α : Type} [LinearOrderedField α]

end FloatValues

section FloatFrames

variable {α : Type} [LinearOrderedField α] [FloorRing α]

end FloatFrames

section FiniteFrameLemmas

variable {α : Type} [LinearOrderedField α]

/-- Where none of the four divisors of a propagation step is zero, the frame
with possibly non-finite axes is the frame `propagateFrame` computes. -/
theorem propagateFloat_of_finite (sqrt : α → α) (prev : Orientation α) (origin : Vec3 α)
    (h1 : length sqrt (origin - prev.origin) ≠ 0)
    (h2 : sqrt (dot ((origin - prev.origin).divScalar (length sqrt (origin - prev.origin)))
        ((origin - prev.origin).divScalar (length sqrt (origin - prev.origin)))) ≠ 0)
    (h3 : sqrt (dot (cross (propagateFrame sqrt prev origin).Front prev.Up)
        (cross (propagateFrame sqrt prev origin).Front prev.Up)) ≠ 0)
    (h4 : sqrt (dot (cross (propagateFrame sqrt prev origin).Right
          (propagateFrame sqrt prev origin).Front)
        (cross (propagateFrame sqrt prev origin).Right
          (propagateFrame sqrt prev origin).Front)) ≠ 0) :
    propagateFloat sqrt prev.toFloat origin = (propagateFrame sqrt prev origin).toFloat := by
  simp only [propagateFrame] at h3 h4
  simp [propagateFloat, propagateFrame, Orientation.toFloat, divScalarFinite, normalizeFinite,
    h1, h2, h3, h4]

theorem seedFloat_eq (origin : Vec3 α) : seedFloat origin = (seedFrame origin).toFloat := rfl

end FiniteFrameLemmas

section LoopCountFuel

/-- More fuel does not change the count. -/
theorem loopCount_mono (bound : Nat) : ∀ (fuel X K : Nat), loopCount bound fuel X = some K →
    ∀ fuel', fuel ≤ fuel' → loopCount bound fuel' X = some K := by
  intro fuel
  induction fuel with
  | zero =>
    intro X K h
    simp [loopCount] at h
  | succ fuel ih =>
    intro X K h fuel' hle
    cases fuel' with
    | zero => omega
    | succ f =>
      simp only [loopCount] at h ⊢
      split_ifs at h ⊢ with hlt
      · cases hrec : loopCount bound fuel (floatStep X) with
        | none => rw [hrec] at h; simp at h
        | some K' =>
          rw [hrec] at h
          rw [ih (floatStep X) K' hrec f (by omega)]
          exact h
      · exact h

end LoopCountFuel

section FrameLoopFuel

variable {α : Type} [LinearOrderedField α] [FloorRing α]

end FrameLoopFuel

section FloatValueBounds

variable {α : Type} [LinearOrderedField α]

end FloatValueBounds

section FloatFrameClaims

variable {α : Type} [LinearOrderedField α] [FloorRing α]

end FloatFrameClaims

/-! ## The blended axes of the camera -/

section BlendBounds

variable {α : Type} [LinearOrderedField α]

/-- Squared length of a blend of two unit vectors with a weight in `[0, 1)`. -/
theorem blend_dot_bounds (F G : Vec3 α) (b : α) (hF : dot F F = 1) (hG : dot G G = 1)
    (hb0 : 0 ≤ b) (hb1 : b < 1) :
    dot (F.scale (1 - b) + G.scale b) (F.scale (1 - b) + G.scale b) ≤ 1 ∧
    (b = 0 → dot (F.scale (1 - b) + G.scale b) (F.scale (1 - b) + G.scale b) = 1) ∧
    (0 < b → F ≠ G →
      dot (F.scale (1 - b) + G.scale b) (F.scale (1 - b) + G.scale b) < 1) := by
  have hd := dot_blend F G b hF hG
  have hle := dot_le_one F G hF hG
  refine ⟨?_, ?_, ?_⟩
  · rw [hd]
    have : 0 ≤ b * (1 - b) * (1 - dot F G) :=
      mul_nonneg (mul_nonneg hb0 (by linarith)) (by linarith)
    linarith
  · intro h0
    rw [hd, h0]
    ring
  · intro hpos hne
    have hlt := dot_lt_one F G hF hG hne
    rw [hd]
    have : 0 < b * (1 - b) * (1 - dot F G) :=
      mul_pos (mul_pos hpos (by linarith)) (by linarith)
    linarith

/-- Length of a blend of two unit vectors with a weight in `[0, 1)`, for an
exact square root. -/
theorem blend_length_bounds (root : α → α) (hsq : IsSqrt root) (F G : Vec3 α) (b : α)
    (hF : dot F F = 1) (hG : dot G G = 1) (hb0 : 0 ≤ b) (hb1 : b < 1) :
    length root (F.scale (1 - b) + G.scale b) ≤ 1 ∧
    (b = 0 → length root (F.scale (1 - b) + G.scale b) = 1) ∧
    (0 < b → F ≠ G → length root (F.scale (1 - b) + G.scale b) < 1) := by
  obtain ⟨h1, h2, h3⟩ := blend_dot_bounds F G b hF hG hb0 hb1
  have hnn := dot_self_nonneg (F.scale (1 - b) + G.scale b)
  refine ⟨sqrt_le_one root hsq _ hnn h1, ?_, ?_⟩
  · intro h0
    unfold length
    rw [h2 h0]
    exact sqrt_one root hsq
  · intro hpos hne
    exact sqrt_lt_one root hsq _ hnn (h3 hpos hne)

end BlendBounds

section FrameLookup

theorem frameAt_mem {α : Type} (orientations : List (Orientation α)) (i : Int)
    (o : Orientation α) (h : frameAt orientations i = some o) : o ∈ orientations := by
  unfold frameAt at h
  split_ifs at h
  exact List.getElem?_mem h

end FrameLookup

section BlendedCamera

variable {α : Type} [LinearOrderedField α] [FloorRing α]

/-- The blend weight is the fractional part of `(s - 2) * 10`. -/
theorem frameBlend_range (s : α) : 0 ≤ frameBlend s ∧ frameBlend s < 1 := by
  unfold frameBlend frameIndex
  constructor
  · linarith [Int.floor_le ((s - 2) * 10)]
  · linarith [Int.lt_floor_add_one ((s - 2) * 10)]

/-- After a call that completes without a toggle, the three camera axes are
the blends of the axes of the two frames looked up at the final `s`. -/
theorem ProcessTrackMovement_axes (sqrt : α → α) (fuel : Nat) (deltaTime : α)
    (track : Track α) (keys : Nat → Bool) (cam cam' : Camera α)
    (hcall : ProcessTrackMovement sqrt fuel deltaTime track keys cam = .done cam')
    (hon : cam'.onTrack = true) :
    ∃ ori_prev ori_next,
      frameAt track.orientations (frameIndex cam'.s) = some ori_prev ∧
      frameAt track.orientations
        ((frameIndex cam'.s + 1) % (track.orientations.length : Int)) = some ori_next ∧
      cam'.Front = ori_prev.Front.scale (1 - frameBlend cam'.s)
        + ori_next.Front.scale (frameBlend cam'.s) ∧
      cam'.Up = ori_prev.Up.scale (1 - frameBlend cam'.s)
        + ori_next.Up.scale (frameBlend cam'.s) ∧
      cam'.Right = ori_prev.Right.scale (1 - frameBlend cam'.s)
        + ori_next.Right.scale (frameBlend cam'.s) := by
  unfold ProcessTrackMovement at hcall
  simp only at hcall
  cases hloop : trackLoop sqrt track.controlPoints deltaTime
      (velocityOf sqrt (hmaxOf track.orientations)
        (cam.Position - cam.Up.divScalar (375 / 100)).y) fuel keys
      ⟨cam.s, cam.Position - cam.Up.divScalar (375 / 100), some 0, cam.tPressed,
        cam.tCurPressed⟩ with
  | outOfFuel => rw [hloop] at hcall; cases hcall
  | outOfRange => rw [hloop] at hcall; cases hcall
  | toggled st =>
    rw [hloop] at hcall
    simp only [CallResult.done.injEq] at hcall
    rw [← hcall] at hon
    simp at hon
  | finished st =>
    rw [hloop] at hcall
    simp only at hcall
    cases h1 : frameAt track.orientations (frameIndex st.s) with
    | none => simp [h1] at hcall
    | some ori_prev =>
      cases h2 : frameAt track.orientations
          ((frameIndex st.s + 1) % (track.orientations.length : Int)) with
      | none => simp [h1, h2] at hcall
      | some ori_next =>
        simp only [h1, h2, CallResult.done.injEq] at hcall
        subst hcall
        exact ⟨ori_prev, ori_next, h1, h2, rfl, rfl, rfl⟩

/-- C29: after a call of `ProcessTrackMovement` that completes without a
toggle, on a frame table whose axes all have length 1, the camera's `Front`,
`Up` and `Right` are the blends `F_prev * (1 - b) + F_next * b` of the axes of
the two frames looked up at the final `s`, with `b = frameBlend s` in `[0, 1)`;
each has squared length, and for an exact square root length, at most 1,
exactly 1 when `b = 0`, and below 1 when `0 < b` and the two blended vectors
differ. -/
theorem blended_axis_length (sqrt : α → α) (fuel : Nat) (deltaTime : α)
    (track : Track α) (keys : Nat → Bool) (cam cam' : Camera α)
    (hcall : ProcessTrackMovement sqrt fuel deltaTime track keys cam = .done cam')
    (hon : cam'.onTrack = true)
    (hunit : ∀ o ∈ track.orientations,
      dot o.Front o.Front = 1 ∧ dot o.Up o.Up = 1 ∧ dot o.Right o.Right = 1) :
    ∃ ori_prev ori_next,
      frameAt track.orientations (frameIndex cam'.s) = some ori_prev ∧
      frameAt track.orientations
        ((frameIndex cam'.s + 1) % (track.orientations.length : Int)) = some ori_next ∧
      0 ≤ frameBlend cam'.s ∧ frameBlend cam'.s < 1 ∧
      cam'.Front = ori_prev.Front.scale (1 - frameBlend cam'.s)
        + ori_next.Front.scale (frameBlend cam'.s) ∧
      cam'.Up = ori_prev.Up.scale (1 - frameBlend cam'.s)
        + ori_next.Up.scale (frameBlend cam'.s) ∧
      cam'.Right = ori_prev.Right.scale (1 - frameBlend cam'.s)
        + ori_next.Right.scale (frameBlend cam'.s) ∧
      (dot cam'.Front cam'.Front ≤ 1 ∧ dot cam'.Up cam'.Up ≤ 1 ∧
        dot cam'.Right cam'.Right ≤ 1) ∧
      (frameBlend cam'.s = 0 →
        dot cam'.Front cam'.Front = 1 ∧ dot cam'.Up cam'.Up = 1 ∧
          dot cam'.Right cam'.Right = 1) ∧
      (0 < frameBlend cam'.s →
        (ori_prev.Front ≠ ori_next.Front → dot cam'.Front cam'.Front < 1) ∧
        (ori_prev.Up ≠ ori_next.Up → dot cam'.Up cam'.Up < 1) ∧
        (ori_prev.Right ≠ ori_next.Right → dot cam'.Right cam'.Right < 1)) ∧
      ∀ root : α → α, IsSqrt root →
        (length root cam'.Front ≤ 1 ∧ length root cam'.Up ≤ 1 ∧
          length root cam'.Right ≤ 1) ∧
        (frameBlend cam'.s = 0 →
          length root cam'.Front = 1 ∧ length root cam'.Up = 1 ∧
            length root cam'.Right = 1) ∧
        (0 < frameBlend cam'.s →
          (ori_prev.Front ≠ ori_next.Front → length root cam'.Front < 1) ∧
          (ori_prev.Up ≠ ori_next.Up → length root cam'.Up < 1) ∧
          (ori_prev.Right ≠ ori_next.Right → length root cam'.Right < 1)) := by
  obtain ⟨ori_prev, ori_next, h1, h2, eF, eU, eR⟩ :=
    ProcessTrackMovement_axes sqrt fuel deltaTime track keys cam cam' hcall hon
  obtain ⟨hb0, hb1⟩ := frameBlend_range cam'.s
  obtain ⟨pF, pU, pR⟩ := hunit ori_prev (frameAt_mem _ _ _ h1)
  obtain ⟨nF, nU, nR⟩ := hunit ori_next (frameAt_mem _ _ _ h2)
  obtain ⟨f1, f2, f3⟩ := blend_dot_bounds ori_prev.Front ori_next.Front _ pF nF hb0 hb1
  obtain ⟨u1, u2, u3⟩ := blend_dot_bounds ori_prev.Up ori_next.Up _ pU nU hb0 hb1
  obtain ⟨r1, r2, r3⟩ := blend_dot_bounds ori_prev.Right ori_next.Right _ pR nR hb0 hb1
  refine ⟨ori_prev, ori_next, h1, h2, hb0, hb1, eF, eU, eR, ?_, ?_, ?_, ?_⟩
  · rw [eF, eU, eR]
    exact ⟨f1, u1, r1⟩
  · intro h0
    rw [eF, eU, eR]
    exact ⟨f2 h0, u2 h0, r2 h0⟩
  · intro hpos
    rw [eF, eU, eR]
    exact ⟨f3 hpos, u3 hpos, r3 hpos⟩
  · intro root hsq
    obtain ⟨g1, g2, g3⟩ :=
      blend_length_bounds root hsq ori_prev.Front ori_next.Front _ pF nF hb0 hb1
    obtain ⟨v1, v2, v3⟩ := blend_length_bounds root hsq ori_prev.Up ori_next.Up _ pU nU hb0 hb1
    obtain ⟨w1, w2, w3⟩ :=
      blend_length_bounds root hsq ori_prev.Right ori_next.Right _ pR nR hb0 hb1
    rw [eF, eU, eR]
    exact ⟨⟨g1, v1, w1⟩, fun h0 => ⟨g2 h0, v2 h0, w2 h0⟩,
      fun hpos => ⟨g3 hpos, v3 hpos, w3 hpos⟩⟩

end BlendedCamera

section BlendedCameraWitness

/-- Witness for C29: one tick on the line track over the rationals, which ends
at `s = 2.001` with blend `0.01`; and, over the reals with the real square
root, a tick of no duration at `s = 2.05` on a table of two frames, blend
`0.5`. -/
theorem blended_axis_length_witness :
    (∃ cam', ProcessTrackMovement sqrtQ 1 (1 / 2000 : ℚ) lineTrack (fun _ => false)
        (cameraAt ⟨0, 4 / 15, 0⟩) = .done cam' ∧
      cam'.onTrack = true ∧
      (∀ o ∈ lineTrack.orientations,
        dot o.Front o.Front = 1 ∧ dot o.Up o.Up = 1 ∧ dot o.Right o.Right = 1) ∧
      ∃ ori_prev ori_next,
        frameAt lineTrack.orientations (frameIndex cam'.s) = some ori_prev ∧
        frameAt lineTrack.orientations
          ((frameIndex cam'.s + 1) % (lineTrack.orientations.length : Int)) = some ori_next ∧
        0 ≤ frameBlend cam'.s ∧ frameBlend cam'.s < 1 ∧
        cam'.Front = ori_prev.Front.scale (1 - frameBlend cam'.s)
          + ori_next.Front.scale (frameBlend cam'.s) ∧
        cam'.Up = ori_prev.Up.scale (1 - frameBlend cam'.s)
          + ori_next.Up.scale (frameBlend cam'.s) ∧
        cam'.Right = ori_prev.Right.scale (1 - frameBlend cam'.s)
          + ori_next.Right.scale (frameBlend cam'.s) ∧
        (dot cam'.Front cam'.Front ≤ 1 ∧ dot cam'.Up cam'.Up ≤ 1 ∧
          dot cam'.Right cam'.Right ≤ 1) ∧
        (frameBlend cam'.s = 0 →
          dot cam'.Front cam'.Front = 1 ∧ dot cam'.Up cam'.Up = 1 ∧
            dot cam'.Right cam'.Right = 1) ∧
        (0 < frameBlend cam'.s →
          (ori_prev.Front ≠ ori_next.Front → dot cam'.Front cam'.Front < 1) ∧
          (ori_prev.Up ≠ ori_next.Up → dot cam'.Up cam'.Up < 1) ∧
          (ori_prev.Right ≠ ori_next.Right → dot cam'.Right cam'.Right < 1)) ∧
        ∀ root : ℚ → ℚ, IsSqrt root →
          (length root cam'.Front ≤ 1 ∧ length root cam'.Up ≤ 1 ∧
            length root cam'.Right ≤ 1) ∧
          (frameBlend cam'.s = 0 →
            length root cam'.Front = 1 ∧ length root cam'.Up = 1 ∧
              length root cam'.Right = 1) ∧
          (0 < frameBlend cam'.s →
            (ori_prev.Front ≠ ori_next.Front → length root cam'.Front < 1) ∧
            (ori_prev.Up ≠ ori_next.Up → length root cam'.Up < 1) ∧
            (ori_prev.Right ≠ ori_next.Right → length root cam'.Right < 1))) ∧
    (∃ cam', ProcessTrackMovement Real.sqrt 1 (0 : ℝ)
        (⟨[⟨0, 0, 0⟩, ⟨0, 0, 0⟩, ⟨0, 0, 0⟩], ⟨[], [], []⟩,
          [seedFrame ⟨0, 0, 0⟩, frameWithUp ⟨0, 0, 1⟩ ⟨0, 0, 0⟩]⟩ : Track ℝ)
        (fun _ => false)
        ({ Position := ⟨0, 4 / 15, 0⟩, Front := ⟨1, 0, 0⟩, Up := ⟨0, 1, 0⟩, Right := ⟨0, 0, 1⟩,
           carPosition := ⟨0, 0, 0⟩, WorldUp := ⟨0, 1, 0⟩, Yaw := -90, Pitch := 0,
           MovementSpeed := 5, MouseSensitivity := 1 / 10, Zoom := 45, s := 41 / 20,
           onTrack := true, tPressed := false, tCurPressed := false } : Camera ℝ) = .done cam' ∧
      cam'.onTrack = true ∧
      (∀ o ∈ (⟨[⟨0, 0, 0⟩, ⟨0, 0, 0⟩, ⟨0, 0, 0⟩], ⟨[], [], []⟩,
          [seedFrame ⟨0, 0, 0⟩, frameWithUp ⟨0, 0, 1⟩ ⟨0, 0, 0⟩]⟩ : Track ℝ).orientations,
        dot o.Front o.Front = 1 ∧ dot o.Up o.Up = 1 ∧ dot o.Right o.Right = 1) ∧
      ∃ ori_prev ori_next,
        frameAt (⟨[⟨0, 0, 0⟩, ⟨0, 0, 0⟩, ⟨0, 0, 0⟩], ⟨[], [], []⟩,
          [seedFrame ⟨0, 0, 0⟩, frameWithUp ⟨0, 0, 1⟩ ⟨0, 0, 0⟩]⟩ : Track ℝ).orientations (frameIndex cam'.s) = some ori_prev ∧
        frameAt (⟨[⟨0, 0, 0⟩, ⟨0, 0, 0⟩, ⟨0, 0, 0⟩], ⟨[], [], []⟩,
          [seedFrame ⟨0, 0, 0⟩, frameWithUp ⟨0, 0, 1⟩ ⟨0, 0, 0⟩]⟩ : Track ℝ).orientations
          ((frameIndex cam'.s + 1) % ((⟨[⟨0, 0, 0⟩, ⟨0, 0, 0⟩, ⟨0, 0, 0⟩], ⟨[], [], []⟩,
          [seedFrame ⟨0, 0, 0⟩, frameWithUp ⟨0, 0, 1⟩ ⟨0, 0, 0⟩]⟩ : Track ℝ).orientations.length : Int)) = some ori_next ∧
        0 ≤ frameBlend cam'.s ∧ frameBlend cam'.s < 1 ∧
        cam'.Front = ori_prev.Front.scale (1 - frameBlend cam'.s)
          + ori_next.Front.scale (frameBlend cam'.s) ∧
        cam'.Up = ori_prev.Up.scale (1 - frameBlend cam'.s)
          + ori_next.Up.scale (frameBlend cam'.s) ∧
        cam'.Right = ori_prev.Right.scale (1 - frameBlend cam'.s)
          + ori_next.Right.scale (frameBlend cam'.s) ∧
        (dot cam'.Front cam'.Front ≤ 1 ∧ dot cam'.Up cam'.Up ≤ 1 ∧
          dot cam'.Right cam'.Right ≤ 1) ∧
        (frameBlend cam'.s = 0 →
          dot cam'.Front cam'.Front = 1 ∧ dot cam'.Up cam'.Up = 1 ∧
            dot cam'.Right cam'.Right = 1) ∧
        (0 < frameBlend cam'.s →
          (ori_prev.Front ≠ ori_next.Front → dot cam'.Front cam'.Front < 1) ∧
          (ori_prev.Up ≠ ori_next.Up → dot cam'.Up cam'.Up < 1) ∧
          (ori_prev.Right ≠ ori_next.Right → dot cam'.Right cam'.Right < 1)) ∧
        ∀ root : ℝ → ℝ, IsSqrt root →
          (length root cam'.Front ≤ 1 ∧ length root cam'.Up ≤ 1 ∧
            length root cam'.Right ≤ 1) ∧
          (frameBlend cam'.s = 0 →
            length root cam'.Front = 1 ∧ length root cam'.Up = 1 ∧
              length root cam'.Right = 1) ∧
          (0 < frameBlend cam'.s →
            (ori_prev.Front ≠ ori_next.Front → length root cam'.Front < 1) ∧
            (ori_prev.Up ≠ ori_next.Up → length root cam'.Up < 1) ∧
            (ori_prev.Right ≠ ori_next.Right → length root cam'.Right < 1))) := by
  constructor
  · obtain ⟨cam', hcall, hon, _, _⟩ := lineTrack_ride
    have hunit : ∀ o ∈ lineTrack.orientations,
        dot o.Front o.Front = 1 ∧ dot o.Up o.Up = 1 ∧ dot o.Right o.Right = 1 := by
      intro o ho
      simp only [lineTrack, List.mem_cons, List.mem_replicate] at ho
      rcases ho with rfl | ⟨_, rfl⟩ <;> norm_num [seedFrame, frameWithUp, dot, cross]
    exact ⟨cam', hcall, hon, hunit,
      blended_axis_length sqrtQ 1 (1 / 2000) lineTrack (fun _ => false)
        (cameraAt ⟨0, 4 / 15, 0⟩) cam' hcall hon hunit⟩
  · have hidx : frameIndex (41 / 20 : ℝ) = 0 := by
      unfold frameIndex
      rw [Int.floor_eq_iff]
      norm_num
    obtain ⟨cam', hcall, hon, _, _⟩ :=
      ProcessTrackMovement_finished Real.sqrt 1 (0 : ℝ)
        (⟨[⟨0, 0, 0⟩, ⟨0, 0, 0⟩, ⟨0, 0, 0⟩], ⟨[], [], []⟩,
          [seedFrame ⟨0, 0, 0⟩, frameWithUp ⟨0, 0, 1⟩ ⟨0, 0, 0⟩]⟩ : Track ℝ)
        (fun _ => false)
        ({ Position := ⟨0, 4 / 15, 0⟩, Front := ⟨1, 0, 0⟩, Up := ⟨0, 1, 0⟩, Right := ⟨0, 0, 1⟩,
           carPosition := ⟨0, 0, 0⟩, WorldUp := ⟨0, 1, 0⟩, Yaw := -90, Pitch := 0,
           MovementSpeed := 5, MouseSensitivity := 1 / 10, Zoom := 45, s := 41 / 20,
           onTrack := true, tPressed := false, tCurPressed := false } : Camera ℝ)
        _ (seedFrame ⟨0, 0, 0⟩) (frameWithUp ⟨0, 0, 1⟩ ⟨0, 0, 0⟩)
        (trackLoop_done Real.sqrt _ _ _ _ _ _ (by simp [timeLeft]))
        (by simp [hidx, frameAt])
        (by simp [hidx, frameAt])
    have hunit : ∀ o ∈ (⟨[⟨0, 0, 0⟩, ⟨0, 0, 0⟩, ⟨0, 0, 0⟩], ⟨[], [], []⟩,
          [seedFrame ⟨0, 0, 0⟩, frameWithUp ⟨0, 0, 1⟩ ⟨0, 0, 0⟩]⟩ : Track ℝ).orientations,
        dot o.Front o.Front = 1 ∧ dot o.Up o.Up = 1 ∧ dot o.Right o.Right = 1 := by
      intro o ho
      simp only [List.mem_cons, List.mem_singleton, List.not_mem_nil, or_false] at ho
      rcases ho with rfl | rfl <;> norm_num [seedFrame, frameWithUp, dot, cross]
    exact ⟨cam', hcall, hon, hunit,
      blended_axis_length Real.sqrt 1 0 _ (fun _ => false) _ cam' hcall hon hunit⟩

end BlendedCameraWitness

section WrapOrderClaims

/-- A check leaves alone every variable outside `writtenVars`. -/
theorem applyCheck_keeps (n : Nat) (c : WrapCheck) (v : IndexVar)
    (idx : Int × Int × Int × Int) (h : v ∉ writtenVars c) :
    getVar v (applyCheck n c idx) = getVar v idx := by
  obtain ⟨pA, pB, pC, pD⟩ := idx
  cases c <;> cases v <;> simp [writtenVars] at h <;>
    simp only [applyCheck_A, applyCheck_D, applyCheck_C, applyCheck_B] <;>
    split_ifs <;> rfl

/-- A check whose variable does not have the tested value does nothing. -/
theorem applyCheck_idle (n : Nat) (c : WrapCheck) (idx : Int × Int × Int × Int)
    (h : getVar (readVar c) idx ≠ testValue n c) : applyCheck n c idx = idx := by
  obtain ⟨pA, pB, pC, pD⟩ := idx
  cases c <;> simp only [getVar, readVar, testValue] at h <;>
    simp only [applyCheck_A, applyCheck_D, applyCheck_C, applyCheck_B, if_neg h]

theorem applyCheck_comm_of (n : Nat) (hn : n ≠ 1 ∧ n ≠ 2) (c1 c2 : WrapCheck)
    (idx : Int × Int × Int × Int) :
    applyCheck n c2 (applyCheck n c1 idx) = applyCheck n c1 (applyCheck n c2 idx) := by
  obtain ⟨pA, pB, pC, pD⟩ := idx
  obtain ⟨h1, h2⟩ := hn
  by_cases hA : pA = -1 <;> by_cases hD : pD = (n : Int) <;>
    by_cases hC : pC = (n : Int) <;> by_cases hB : pB = (n : Int) <;>
    cases c1 <;> cases c2 <;>
    first
      | rfl
      | simp (disch := omega) only [applyCheck_A, applyCheck_D, applyCheck_C, applyCheck_B,
          if_pos, if_neg]

/-- C28 (as stated, refuted): on a track of two control points, at
`floor(s) = 3`, running check B before check D resolves `pD` to 0, while the
source order A, D, C, B resolves it to 2: check D then reads the 2 that check B
wrote.  On a track of one control point, at `floor(s) = 1`, running check C
before check D resolves `pD` to 0, while the source order resolves it to 1:
check D then reads the 1 that check C wrote. -/
theorem wrap_checks_order_matters :
    (∃ order : List WrapCheck, order.Perm [.A, .D, .C, .B] ∧
      applyChecks 2 [.A, .D, .C, .B] 3 = resolveIndices 2 3 ∧
      resolveIndices 2 3 = (1, 0, 1, 2) ∧
      applyChecks 2 order 3 = (1, 0, 1, 0) ∧
      applyChecks 2 order 3 ≠ resolveIndices 2 3) ∧
    (∃ order : List WrapCheck, order.Perm [.A, .D, .C, .B] ∧
      applyChecks 1 [.A, .D, .C, .B] 1 = resolveIndices 1 1 ∧
      resolveIndices 1 1 = (0, 0, 0, 1) ∧
      applyChecks 1 order 1 = (0, 0, 0, 0) ∧
      applyChecks 1 order 1 ≠ resolveIndices 1 1) ∧
    readVar .D ∈ writtenVars .B ∧ readVar .D ∈ writtenVars .C ∧
    readVar .C ∈ writtenVars .B :=
  ⟨⟨[.A, .B, .D, .C], by decide, by decide, by decide, by decide, by decide⟩,
   ⟨[.A, .C, .D, .B], by decide, by decide, by decide, by decide, by decide⟩,
   by decide, by decide, by decide⟩

/-- C28 (amended): for every `n` and every `floor(s) = k`, at most one of
`pD == n`, `pC == n`, `pB == n` holds on the indices `k-2, k-1, k, k+1`; in the
source order A, D, C, B each check reads a variable no earlier check has
written, so that each tests the unwrapped value; and when `n` is neither 1 nor
2 (so for every `n ≥ 3`) the four checks applied in any order resolve the
indices the source order resolves. -/
theorem wrap_checks_any_order (n : Nat) (k : Int) :
    (¬ (getVar .pD (naiveIndices k) = (n : Int) ∧ getVar .pC (naiveIndices k) = (n : Int)) ∧
     ¬ (getVar .pD (naiveIndices k) = (n : Int) ∧ getVar .pB (naiveIndices k) = (n : Int)) ∧
     ¬ (getVar .pC (naiveIndices k) = (n : Int) ∧ getVar .pB (naiveIndices k) = (n : Int))) ∧
    applyChecks n [.A, .D, .C, .B] k = resolveIndices n k ∧
    (readVar .D ∉ writtenVars .A ∧
     readVar .C ∉ writtenVars .A ++ writtenVars .D ∧
     readVar .B ∉ writtenVars .A ++ writtenVars .D ++ writtenVars .C) ∧
    (∀ (c : WrapCheck) (v : IndexVar) (idx : Int × Int × Int × Int),
      v ∉ writtenVars c → getVar v (applyCheck n c idx) = getVar v idx) ∧
    (∀ (c : WrapCheck) (idx : Int × Int × Int × Int),
      getVar (readVar c) idx ≠ testValue n c → applyCheck n c idx = idx) ∧
    (getVar (readVar .A) (applyChecks n [] k) = k - 2 ∧
     getVar (readVar .D) (applyChecks n [.A] k) = k + 1 ∧
     getVar (readVar .C) (applyChecks n [.A, .D] k) = k ∧
     getVar (readVar .B) (applyChecks n [.A, .D, .C] k) = k - 1) ∧
    (n ≠ 1 ∧ n ≠ 2 → ∀ order : List WrapCheck, order.Perm [.A, .D, .C, .B] →
      applyChecks n order k = resolveIndices n k) := by
  refine ⟨⟨?_, ?_, ?_⟩, applyChecks_source_order n k, by decide,
    applyCheck_keeps n, applyCheck_idle n, ⟨rfl, ?_, ?_, ?_⟩, ?_⟩
  · simp only [naiveIndices, getVar]; omega
  · simp only [naiveIndices, getVar]; omega
  · simp only [naiveIndices, getVar]; omega
  · simp only [applyChecks, List.foldl, readVar]
    rw [applyCheck_keeps n .A .pD _ (by decide)]
    rfl
  · simp only [applyChecks, List.foldl, readVar]
    rw [applyCheck_keeps n .D .pC _ (by decide), applyCheck_keeps n .A .pC _ (by decide)]
    rfl
  · simp only [applyChecks, List.foldl, readVar]
    rw [applyCheck_keeps n .C .pB _ (by decide), applyCheck_keeps n .D .pB _ (by decide),
      applyCheck_keeps n .A .pB _ (by decide)]
    rfl
  · intro hn order hperm
    rw [← applyChecks_source_order n k]
    exact hperm.foldl_eq' (fun x _ y _ z => applyCheck_comm_of n hn x y z) _

/-- Witness for C28 (amended): three control points, `floor(s) = 4`, where
check B fires: every order of the checks resolves `(2, 0, 1, 2)`. -/
theorem wrap_checks_any_order_witness :
    resolveIndices 3 4 = (2, 0, 1, 2) ∧
    ∀ order : List WrapCheck, order.Perm [.A, .D, .C, .B] →
      applyChecks 3 order 4 = (2, 0, 1, 2) := by
  have h := (wrap_checks_any_order 3 4).2.2.2.2.2.2 ⟨by decide, by decide⟩
  have e : resolveIndices 3 4 = (2, 0, 1, 2) := by decide
  exact ⟨e, fun order hperm => by rw [h order hperm, e]⟩

end WrapOrderClaims

end Rollercoaster
